import Mathlib

/-!
# TCP-in-UDP traffic-control transcoder: a shallow embedding of `tcp_in_udp_tc.c`

The packet is a list of bytes; `data` is offset `0` and `data_end` is the length of the
list, so every pointer of the C program is a natural-number offset into the list.
Multi-byte loads follow a little-endian host (the `__LITTLE_ENDIAN_BITFIELD` branch of
`struct tinuhdr`, `bpf_htons` a byte swap).  Arithmetic is on `Nat` with the width of the
C type made explicit by `% 2 ^ w`.

A direct packet access (`ptr->field`, `p[i]`) is a partial read: it returns `none` when the
offset is outside `[data, data_end)`.  The kernel helpers (`bpf_skb_load_bytes`,
`bpf_skb_store_bytes`, `bpf_l3_csum_replace`) are total: they fail without effect when
the range does not fit the packet, and their return value is discarded by every caller.
The packet is linear, so the length the helpers check (`skb->len`) is `data_end - data`.
`bpf_printk` only logs: the log line is not modelled, the packet fields read as its
arguments are.
-/

namespace TcpInUdp

/-! ## Data model -/

/-- One octet of the packet buffer. -/
abbrev Byte := Fin 256

/-- The fields of `struct __sk_buff` the program reads: the linear packet bytes
(`data .. data_end`) and the segment count. `len` and `gso_size` are only printed. -/
structure SkBuff where
  data : List Byte
  gso_segs : Nat
deriving DecidableEq, Repr

/-- The `enum side` of the source. -/
inductive side where
  | SERVER
  | CLIENT
deriving DecidableEq, Repr

/-- The `enum direction` of the source. -/
inductive direction where
  | EGRESS
  | INGRESS
deriving DecidableEq, Repr

def TCP_MAX_HEADER : Nat := 60
def PORT : Nat := 5201
def ETH_P_IP : Nat := 0x0800
def ETH_P_IPV6 : Nat := 0x86DD
def IPPROTO_TCP : Nat := 6
def IPPROTO_UDP : Nat := 17
def TC_ACT_OK : Nat := 0

/-- Size of `struct ethhdr`. -/
def sizeof_ethhdr : Nat := 14
/-- Size of `struct iphdr` (the fixed part). -/
def sizeof_iphdr : Nat := 20
/-- Size of `struct ipv6hdr`. -/
def sizeof_ipv6hdr : Nat := 40
/-- Size of `struct tcphdr` (the fixed part). -/
def sizeof_tcphdr : Nat := 20
/-- Size of `struct udphdr`. -/
def sizeof_udphdr : Nat := 8
/-- Size of `struct tinuhdr`: a `udphdr`, `ack_seq`, the flag word, `window`, `seq`. -/
def sizeof_tinuhdr : Nat := 20

/-! ## Byte-level primitives -/

/-- The octet holding the low eight bits of `n`. -/
def byteOf (n : Nat) : Byte := Fin.ofNat n

/-- Total read of the octet at `off` as a number (`0` outside the buffer); used to state
properties, never by the program model. -/
def u8 (d : List Byte) (off : Nat) : Nat := (d.getD off 0).val

/-- Big-endian (network order) 16-bit field at `off`, as a number. -/
def be16 (d : List Byte) (off : Nat) : Nat := 256 * u8 d off + u8 d (off + 1)

/-- Host-order (little-endian) 16-bit value of the two bytes at `off`. -/
def le16At (d : List Byte) (off : Nat) : Nat := u8 d off + 256 * u8 d (off + 1)

/-- Host-order (little-endian) 32-bit value of the four bytes at `off`. -/
def le32At (d : List Byte) (off : Nat) : Nat := le16At d off + 65536 * le16At d (off + 2)

/-- Direct one-byte load at `off`: `none` outside `[data, data_end)`. -/
def ld8 (d : List Byte) (off : Nat) : Option Nat := (d.get? off).map Fin.val

/-- Direct 16-bit load at `off` on a little-endian host. -/
def ld16 (d : List Byte) (off : Nat) : Option Nat :=
  (ld8 d off).bind fun lo => (ld8 d (off + 1)).bind fun hi => some (lo + 256 * hi)

/-- Direct 32-bit load at `off` on a little-endian host. -/
def ld32 (d : List Byte) (off : Nat) : Option Nat :=
  (ld16 d off).bind fun lo => (ld16 d (off + 2)).bind fun hi => some (lo + 65536 * hi)

/-- Direct load of `n` consecutive octets at `off` (a field copied verbatim). -/
def ldbytes (d : List Byte) (off n : Nat) : Option (List Byte) :=
  if off + n ≤ d.length then some ((d.drop off).take n) else none

/-- In-memory image of a 16-bit value on a little-endian host. -/
def le16 (v : Nat) : List Byte := [byteOf v, byteOf (v / 256)]

/-- Overwrite the octets of `d` from `off` with those of `src` (a `memcpy` into `d`):
skip `off` octets, then replace octet by octet until `src` or `d` ends. -/
def wr : List Byte → Nat → List Byte → List Byte
  | [], _, _ => []
  | b :: d, 0, [] => b :: d
  | _ :: d, 0, s :: src => s :: wr d 0 src
  | b :: d, off + 1, src => b :: wr d off src

/-- The `bpf_htons` macro on a little-endian host: truncate to 16 bits and swap the bytes. -/
def bpf_htons (x : Nat) : Nat := ((x % 65536) % 256) * 256 + (x % 65536) / 256

/-- The `bpf_ntohs` macro: the same byte swap. -/
def bpf_ntohs (x : Nat) : Nat := bpf_htons x

/-! ## Kernel helpers -/

/-- Modelled from the spec: the kernel helper `bpf_skb_load_bytes(skb, offset, to, len)`,
which is not part of the source file. It copies `len` packet bytes at `offset` into the
scratch buffer `dst`, and fails without effect when `offset + len` exceeds the packet
(the kernel then clears the first `len` bytes of `dst`, which the callers hold zeroed). -/
def bpf_skb_load_bytes (skb : SkBuff) (offset : Nat) (dst : List Byte) (len : Nat) :
    List Byte :=
  if offset + len ≤ skb.data.length then wr dst 0 ((skb.data.drop offset).take len) else dst

/-- Modelled from the spec: the kernel helper `bpf_skb_store_bytes(skb, offset, from, len, 0)`,
which is not part of the source file. It copies the first `len` bytes of `src` into the
packet at `offset`, and fails without effect when `offset + len` exceeds the packet. -/
def bpf_skb_store_bytes (skb : SkBuff) (offset : Nat) (src : List Byte) (len : Nat) :
    SkBuff :=
  if offset + len ≤ skb.data.length then
    { skb with data := wr skb.data offset (src.take len) }
  else skb

/-- Modelled from the spec: the kernel function `csum_add` used by `bpf_l3_csum_replace`,
not part of the source file: 32-bit addition with end-around carry. -/
def csum_add (a b : Nat) : Nat :=
  let res := (a + b) % 2 ^ 32
  (res + (if res < b then 1 else 0)) % 2 ^ 32

/-- Modelled from the spec: the kernel function `csum_sub` used by `bpf_l3_csum_replace`,
not part of the source file: addition of the 32-bit complement. -/
def csum_sub (a b : Nat) : Nat := csum_add a (2 ^ 32 - 1 - b)

/-- Modelled from the spec: the kernel function `csum_replace2` used by
`bpf_l3_csum_replace`, not part of the source file (RFC 1624, `HC' = ~(~HC + ~m + m')`):
the 16-bit checksum `sum` after a 16-bit field changes from `old` to `new`. -/
def csum_replace2 (sum old new : Nat) : Nat :=
  let acc := csum_add (csum_sub (2 ^ 32 - 1 - sum) old) new
  let acc := (acc % 65536 + acc / 65536) % 2 ^ 32
  let acc := (acc % 65536 + acc / 65536) % 2 ^ 32
  (2 ^ 32 - 1 - acc) % 65536

/-- Modelled from the spec: the kernel helper
`bpf_l3_csum_replace(skb, offset, from, to, 2)`, which is not part of the source file:
the standard incremental update of the 16-bit checksum stored at `offset` for a 2-byte
field changing from `old` to `new`. It fails without effect when `offset` is odd, above
`0xffff`, or the two bytes do not fit the packet. -/
def bpf_l3_csum_replace (skb : SkBuff) (offset old new : Nat) : SkBuff :=
  if offset > 0xffff ∨ offset % 2 ≠ 0 ∨ offset + 2 > skb.data.length then skb
  else
    let sum := u8 skb.data offset + 256 * u8 skb.data (offset + 1)
    { skb with data := wr skb.data offset (le16 (csum_replace2 sum old new)) }

/-! ## Checksum engine -/

/-- The `for (i = 0; i < 740; i++)` loop of `csum_partial`, with `n` iterations left:
returns the final `i` and `sum`. -/
def csum_partial_loop (d : List Byte) (p data_end : Nat) : Nat → Nat → Nat → Option (Nat × Nat)
  | 0, i, sum => some (i, sum)
  | n + 1, i, sum =>
    if p + 2 * (i + 1) > data_end then some (i, sum)
    else (ld16 d (p + 2 * i)).bind fun w =>
      csum_partial_loop d p data_end n (i + 1) ((sum + w) % 2 ^ 32)

/-- The function `csum_partial(buf, len, data_end)`; `len` is a `__u16`. -/
def csum_partial (d : List Byte) (buf len data_end : Nat) : Option Nat :=
  if len > 1480 ∨ buf + len ≠ data_end then some 0
  else ( csum_partial_loop d buf data_end 740 0 0).bind fun r =>
    let i := r.1
    let sum := r.2
    if len % 2 ≠ 0 then
      let i := i * 2
      if buf + i ≥ data_end then some sum
      else (ld8 d (buf + i)).bind fun b => some ((sum + b) % 2 ^ 32)
    else some sum

/-- The function `csum_fold(csum)` on a 32-bit `csum`. -/
def csum_fold (csum : Nat) : Nat :=
  let csum := ((csum % 65536) + (csum / 65536)) % 2 ^ 32
  let csum := ((csum % 65536) + (csum / 65536)) % 2 ^ 32
  (2 ^ 32 - 1 - csum) % 65536

/-- The function `csum_tcpudp_magic(saddr, daddr, len, proto, csum)`; `s` is a `__u64`,
`proto + len` a `__u32`. -/
def csum_tcpudp_magic (saddr daddr len proto csum : Nat) : Nat :=
  let s := csum
  let s := (s + saddr) % 2 ^ 64
  let s := (s + daddr) % 2 ^ 64
  let s := (s + bpf_htons ((proto + len) % 2 ^ 32)) % 2 ^ 64
  let s := ((s % 2 ^ 32) + (s / 2 ^ 32)) % 2 ^ 64
  let s := ((s % 2 ^ 32) + (s / 2 ^ 32)) % 2 ^ 64
  let r := csum_fold (s % 2 ^ 32)
  if r ≠ 0 then r else 0xffff

/-- The function `tcp_checksum(skb, ip_offset, tcp_offset, ip_payload_len)`; the two
offsets are `__u8`, the length passed to `csum_partial` is truncated to `__u16` and the
one passed to `csum_tcpudp_magic` to `__u32`. The `-1` return is `0xffff` as `__sum16`. -/
def tcp_checksum (skb : SkBuff) (ip_offset tcp_offset ip_payload_len : Nat) : Option Nat :=
  let data_end_addr := skb.data.length
  let tcphdr_addr := tcp_offset % 256
  let iphdr_addr := ip_offset % 256
  if iphdr_addr + sizeof_iphdr > data_end_addr ∨
      tcphdr_addr + sizeof_tcphdr > data_end_addr then some 0xffff
  else
    ( csum_partial skb.data tcphdr_addr (ip_payload_len % 65536) data_end_addr).bind fun sum =>
    (ld32 skb.data (iphdr_addr + 12)).bind fun saddr =>
    (ld32 skb.data (iphdr_addr + 16)).bind fun daddr =>
    some (csum_tcpudp_magic saddr daddr (ip_payload_len % 2 ^ 32) IPPROTO_TCP sum)

/-- The function `udp_checksum(skb, ip_offset, udp_offset)`; the length is the one
stored in the UDP header of the packet. -/
def udp_checksum (skb : SkBuff) (ip_offset udp_offset : Nat) : Option Nat :=
  let data_end_addr := skb.data.length
  let tinuhdr_addr := udp_offset % 256
  let iphdr_addr := ip_offset % 256
  if iphdr_addr + sizeof_iphdr > data_end_addr ∨
      tinuhdr_addr + sizeof_udphdr > data_end_addr then some 0xffff
  else
    (ld16 skb.data (tinuhdr_addr + 4)).bind fun len =>
    ( csum_partial skb.data tinuhdr_addr (bpf_ntohs len) data_end_addr).bind fun sum =>
    (ld32 skb.data (iphdr_addr + 12)).bind fun saddr =>
    (ld32 skb.data (iphdr_addr + 16)).bind fun daddr =>
    some (csum_tcpudp_magic saddr daddr (bpf_ntohs len) IPPROTO_UDP sum)

/-! ## Format transcoder -/

/-- The function `tinu_to_tcp(skb, iphdr, ipv6hdr, tinuhdr, data_hdr_end)`. A null header
pointer is `none`. The scratch array `tinu_hdr_max` starts zeroed. -/
def tinu_to_tcp (skb : SkBuff) (iphdr_addr ipv6hdr_addr : Option Nat)
    (tinuhdr_addr data_hdr_end_addr : Nat) : Option SkBuff :=
  let tinu_hdr_max : List Byte := List.replicate TCP_MAX_HEADER 0
  let proto := IPPROTO_TCP
  let ip_payload_len := skb.data.length - tinuhdr_addr
  let tinu_hdr_len := data_hdr_end_addr - tinuhdr_addr
  let tinu_offset := tinuhdr_addr
  let tinu_hdr_max := bpf_skb_load_bytes skb tinu_offset tinu_hdr_max tinu_hdr_len
  -- tcphdr_addr->seq = tinuhdr_addr->seq
  (ldbytes skb.data (tinuhdr_addr + 16) 4).bind fun seq =>
  let tinu_hdr_max := wr tinu_hdr_max 4 seq
  -- tcphdr_addr->check = 0; tcphdr_addr->urg_ptr = 0
  let tinu_hdr_max := wr tinu_hdr_max 16 (le16 0)
  let tinu_hdr_max := wr tinu_hdr_max 18 (le16 0)
  let skb := bpf_skb_store_bytes skb tinu_offset tinu_hdr_max tinu_hdr_len
  match iphdr_addr, ipv6hdr_addr with
  | some iphdr_addr, _ =>
    let ip_offset := iphdr_addr
    let proto_old := IPPROTO_UDP
    let skb := bpf_skb_store_bytes skb (iphdr_addr + 9) [byteOf proto] 1
    let skb := bpf_l3_csum_replace skb (iphdr_addr + 10) (bpf_htons proto_old) (bpf_htons proto)
    (tcp_checksum skb ip_offset tinu_offset ip_payload_len).bind fun csum =>
    some (bpf_skb_store_bytes skb (tinu_offset + 16) (le16 csum) 2)
  | none, some ipv6hdr_addr =>
    some (bpf_skb_store_bytes skb (ipv6hdr_addr + 6) [byteOf proto] 1)
  | none, none => some skb

/-- The function `tcp_to_tinu(skb, iphdr, ipv6hdr, tcphdr, data_hdr_end)`. A null header
pointer is `none`. The scratch array `tcp_hdr_max` starts zeroed. -/
def tcp_to_tinu (skb : SkBuff) (iphdr_addr ipv6hdr_addr : Option Nat)
    (tcphdr_addr data_hdr_end_addr : Nat) : Option SkBuff :=
  let tcp_hdr_max : List Byte := List.replicate TCP_MAX_HEADER 0
  let proto := IPPROTO_UDP
  let ip_payload_len := skb.data.length - tcphdr_addr
  let tcp_hdr_len := data_hdr_end_addr - tcphdr_addr
  let tcp_offset := tcphdr_addr
  let tcp_hdr_max := bpf_skb_load_bytes skb tcp_offset tcp_hdr_max tcp_hdr_len
  -- tinuhdr_addr->udphdr.len = bpf_htons(ip_payload_len); tinuhdr_addr->udphdr.check = 0
  let tcp_hdr_max := wr tcp_hdr_max 4 (le16 (bpf_htons ip_payload_len))
  let tcp_hdr_max := wr tcp_hdr_max 6 (le16 0)
  -- tinuhdr_addr->seq = tcphdr_addr->seq
  (ldbytes skb.data (tcphdr_addr + 4) 4).bind fun seq =>
  let tcp_hdr_max := wr tcp_hdr_max 16 seq
  let skb := bpf_skb_store_bytes skb tcp_offset tcp_hdr_max tcp_hdr_len
  match iphdr_addr, ipv6hdr_addr with
  | some iphdr_addr, _ =>
    let ip_offset := iphdr_addr
    let proto_old := IPPROTO_TCP
    let skb := bpf_skb_store_bytes skb (iphdr_addr + 9) [byteOf proto] 1
    let skb := bpf_l3_csum_replace skb (iphdr_addr + 10) (bpf_htons proto_old) (bpf_htons proto)
    (udp_checksum skb ip_offset tcp_offset).bind fun csum =>
    some (bpf_skb_store_bytes skb (tcp_offset + 6) (le16 csum) 2)
  | none, some ipv6hdr_addr =>
    some (bpf_skb_store_bytes skb (ipv6hdr_addr + 6) [byteOf proto] 1)
  | none, none => some skb

/-! ## Dispatch and policy gate -/

/-- The packet fields read as arguments of the `bpf_printk` call in the urgent-data branch
of `tc_action` (source lines 320 to 334): over IPv4 `saddr`, `source`, `daddr` and `dest`;
over IPv6 `source` and `dest`, the two addresses being passed by pointer. The log line
itself is not modelled. -/
def urgent_log_args (skb : SkBuff) (iphdr_addr ipv6hdr_addr : Option Nat)
    (tcphdr_addr : Nat) : Option Unit :=
  match iphdr_addr, ipv6hdr_addr with
  | some iphdr_addr, _ =>
    (ld32 skb.data (iphdr_addr + 12)).bind fun _ =>
    (ld16 skb.data (tcphdr_addr + 0)).bind fun _ =>
    (ld32 skb.data (iphdr_addr + 16)).bind fun _ =>
    (ld16 skb.data (tcphdr_addr + 2)).bind fun _ => some ()
  | none, some _ =>
    (ld16 skb.data (tcphdr_addr + 0)).bind fun _ =>
    (ld16 skb.data (tcphdr_addr + 2)).bind fun _ => some ()
  | none, none => some ()

/-- The `switch (dir)` of `tc_action` (source lines 288 to 393), entered once the L3
header pointers, `data_hdr_end_addr` and `l4_proto` are set. Every `goto out` returns
`TC_ACT_OK` with the packet as it is. -/
def tc_action_l4 (skb : SkBuff) (dir : direction) (sd : side)
    (iphdr_addr ipv6hdr_addr : Option Nat) (data_hdr_end_addr l4_proto : Nat) :
    Option (Nat × SkBuff) :=
  let data_end_addr := skb.data.length
  match dir with
  | direction.EGRESS =>
    if l4_proto ≠ IPPROTO_TCP then some (TC_ACT_OK, skb)
    else
      let tcphdr_addr := data_hdr_end_addr
      let data_hdr_end_addr := tcphdr_addr + sizeof_tcphdr
      if data_hdr_end_addr > data_end_addr then some (TC_ACT_OK, skb)
      else
        -- doff: the high four bits of byte 12 of the TCP header
        (ld8 skb.data (tcphdr_addr + 12)).bind fun b12 =>
        let doff := (b12 / 16) % 16
        if doff * 4 < sizeof_tcphdr ∨ doff * 4 > TCP_MAX_HEADER then some (TC_ACT_OK, skb)
        else
          let data_hdr_end_addr := tcphdr_addr + doff * 4
          -- SERVER checks tcphdr_addr->source, CLIENT checks tcphdr_addr->dest
          (match sd with
            | side.SERVER => ld16 skb.data (tcphdr_addr + 0)
            | side.CLIENT => ld16 skb.data (tcphdr_addr + 2)).bind fun port =>
          if port ≠ bpf_htons PORT then some (TC_ACT_OK, skb)
          else
            -- urg: bit 5 of byte 13 of the TCP header
            (ld8 skb.data (tcphdr_addr + 13)).bind fun b13 =>
            let urg := (b13 / 32) % 2
            if urg ≠ 0 then
              (urgent_log_args skb iphdr_addr ipv6hdr_addr tcphdr_addr).bind fun _ =>
                some (TC_ACT_OK, skb)
            else if skb.gso_segs > 1 then some (TC_ACT_OK, skb)
            else
              (tcp_to_tinu skb iphdr_addr ipv6hdr_addr tcphdr_addr data_hdr_end_addr).bind
                fun skb => some (TC_ACT_OK, skb)
  | direction.INGRESS =>
    if l4_proto ≠ IPPROTO_UDP then some (TC_ACT_OK, skb)
    else
      let tinuhdr_addr := data_hdr_end_addr
      let data_hdr_end_addr := tinuhdr_addr + sizeof_tinuhdr
      if data_hdr_end_addr > data_end_addr then some (TC_ACT_OK, skb)
      else
        (ld8 skb.data (tinuhdr_addr + 12)).bind fun b12 =>
        let doff := (b12 / 16) % 16
        if doff * 4 < sizeof_tinuhdr ∨ doff * 4 > TCP_MAX_HEADER then some (TC_ACT_OK, skb)
        else
          let data_hdr_end_addr := tinuhdr_addr + doff * 4
          -- SERVER checks udphdr.dest, CLIENT checks udphdr.source
          (match sd with
            | side.SERVER => ld16 skb.data (tinuhdr_addr + 2)
            | side.CLIENT => ld16 skb.data (tinuhdr_addr + 0)).bind fun port =>
          if port ≠ bpf_htons PORT then some (TC_ACT_OK, skb)
          else if skb.gso_segs > 1 then some (TC_ACT_OK, skb)
          else
            (tinu_to_tcp skb iphdr_addr ipv6hdr_addr tinuhdr_addr data_hdr_end_addr).bind
              fun skb => some (TC_ACT_OK, skb)

/-- The function `tc_action(skb, dir, side)`: the verdict and the packet it leaves.
`none` would be a direct access outside `[data, data_end)`. -/
def tc_action (skb : SkBuff) (dir : direction) (sd : side) : Option (Nat × SkBuff) :=
  let data_end_addr := skb.data.length
  let ethhdr_addr := 0
  let data_hdr_end_addr := ethhdr_addr + sizeof_ethhdr
  if data_hdr_end_addr > data_end_addr then some (TC_ACT_OK, skb)
  else
    (ld16 skb.data (ethhdr_addr + 12)).bind fun h_proto =>
    if h_proto = bpf_htons ETH_P_IP then
      let iphdr_addr := data_hdr_end_addr
      let data_hdr_end_addr := iphdr_addr + sizeof_iphdr
      if data_hdr_end_addr > data_end_addr then some (TC_ACT_OK, skb)
      else
        -- ihl: the low four bits of byte 0 of the IPv4 header
        (ld8 skb.data iphdr_addr).bind fun b0 =>
        let ihl := b0 % 16
        let data_hdr_end_addr := iphdr_addr + ihl * 4
        (ld8 skb.data (iphdr_addr + 9)).bind fun l4_proto =>
        tc_action_l4 skb dir sd (some iphdr_addr) none data_hdr_end_addr l4_proto
    else if h_proto = bpf_htons ETH_P_IPV6 then
      let ipv6hdr_addr := data_hdr_end_addr
      let data_hdr_end_addr := ipv6hdr_addr + sizeof_ipv6hdr
      if data_hdr_end_addr > data_end_addr then some (TC_ACT_OK, skb)
      else
        (ld8 skb.data (ipv6hdr_addr + 6)).bind fun l4_proto =>
        tc_action_l4 skb dir sd none (some ipv6hdr_addr) data_hdr_end_addr l4_proto
    else some (TC_ACT_OK, skb)

/-- The entry point `client_egress`. -/
def client_egress (skb : SkBuff) : Option (Nat × SkBuff) :=
  tc_action skb direction.EGRESS side.CLIENT

/-- The entry point `client_ingress`. -/
def client_ingress (skb : SkBuff) : Option (Nat × SkBuff) :=
  tc_action skb direction.INGRESS side.CLIENT

/-- The entry point `server_egress`. -/
def server_egress (skb : SkBuff) : Option (Nat × SkBuff) :=
  tc_action skb direction.EGRESS side.SERVER

/-- The entry point `server_ingress`. -/
def server_ingress (skb : SkBuff) : Option (Nat × SkBuff) :=
  tc_action skb direction.INGRESS side.SERVER

/-! ## Frame layout as the properties read it -/

/-- The IPv4 header-length field (in 32-bit words): the low nibble of frame byte 14. -/
def ihl (d : List Byte) : Nat := u8 d 14 % 16

/-- Offset `T` of the transport header: after the IPv4 header of `ihl` words, or after
the fixed 40-byte IPv6 header. -/
def transportOffset (d : List Byte) : Nat :=
  if be16 d 12 = ETH_P_IP then 14 + ihl d * 4 else 14 + 40

/-- Offset of the IPv4 protocol byte (23) or of the IPv6 next-header byte (20). -/
def protoOffset (d : List Byte) : Nat :=
  if be16 d 12 = ETH_P_IP then 23 else 20

/-- The transport data-offset field (in 32-bit words): the high nibble of byte `T + 12`. -/
def dataOffset (d : List Byte) : Nat := (u8 d (transportOffset d + 12) / 16) % 16

/-- The TCP URG flag: bit 5 of byte `T + 13`. -/
def urgFlag (d : List Byte) : Nat := (u8 d (transportOffset d + 13) / 32) % 2

/-- The L4 protocol a direction translates from: TCP on egress, UDP on ingress. -/
def l4ProtoOf : direction → Nat
  | direction.EGRESS => 6
  | direction.INGRESS => 17

/-- The L4 protocol a direction translates to: UDP on egress, TCP on ingress. -/
def l4ProtoTo : direction → Nat
  | direction.EGRESS => 17
  | direction.INGRESS => 6

/-- The operative port, in network byte order: source port for (EGRESS, SERVER) and
(INGRESS, CLIENT), destination port for (EGRESS, CLIENT) and (INGRESS, SERVER). -/
def operativePort (d : List Byte) : direction → side → Nat
  | direction.EGRESS, side.SERVER => be16 d (transportOffset d)
  | direction.EGRESS, side.CLIENT => be16 d (transportOffset d + 2)
  | direction.INGRESS, side.SERVER => be16 d (transportOffset d + 2)
  | direction.INGRESS, side.CLIENT => be16 d (transportOffset d)

/-- The gate of `tc_action` up to the port check: supported EtherType, the L4 protocol of
the direction, the fixed 20-byte transport header inside the buffer, data offset at least
5 (it is at most 15 by its width), operative port 5201. -/
def Gate (d : List Byte) (dir : direction) (sd : side) : Prop :=
  (be16 d 12 = ETH_P_IP ∨ be16 d 12 = ETH_P_IPV6) ∧
  u8 d (protoOffset d) = l4ProtoOf dir ∧
  transportOffset d + 20 ≤ d.length ∧
  5 ≤ dataOffset d ∧
  operativePort d dir sd = PORT

instance (d : List Byte) (dir : direction) (sd : side) : Decidable (Gate d dir sd) := by
  unfold Gate; infer_instance

/-- An eligible frame: it passes the gate, its IPv4 header (if any) has IHL at least 5,
and the whole transport header it declares (data offset times 4) is inside the buffer. -/
def Eligible (d : List Byte) (dir : direction) (sd : side) : Prop :=
  Gate d dir sd ∧ (be16 d 12 = ETH_P_IP → 5 ≤ ihl d) ∧
  transportOffset d + dataOffset d * 4 ≤ d.length

instance (d : List Byte) (dir : direction) (sd : side) : Decidable (Eligible d dir sd) := by
  unfold Eligible; infer_instance

/-- The role at the other end of the tunnel. -/
def peer : side → side
  | side.SERVER => side.CLIENT
  | side.CLIENT => side.SERVER

/-- The header pointer `iphdr_addr` that `tc_action` hands to the transcoder. -/
def iphdrOf (d : List Byte) : Option Nat := if be16 d 12 = ETH_P_IP then some 14 else none

/-- The header pointer `ipv6hdr_addr` that `tc_action` hands to the transcoder. -/
def ipv6hdrOf (d : List Byte) : Option Nat := if be16 d 12 = ETH_P_IP then none else some 14

/-- The transcoder a direction selects, on the header offsets of the frame. -/
def transcode (skb : SkBuff) : direction → Option SkBuff
  | direction.EGRESS =>
    tcp_to_tinu skb (iphdrOf skb.data) (ipv6hdrOf skb.data) (transportOffset skb.data)
      (transportOffset skb.data + dataOffset skb.data * 4)
  | direction.INGRESS =>
    tinu_to_tcp skb (iphdrOf skb.data) (ipv6hdrOf skb.data) (transportOffset skb.data)
      (transportOffset skb.data + dataOffset skb.data * 4)

/-! ## Reference checksum -/

/-- Sum of `n` consecutive little-endian (host order) 16-bit words of `d` from `p`. -/
def sumLE (d : List Byte) (p : Nat) : Nat → Nat
  | 0 => 0
  | n + 1 => sumLE d p n + (u8 d (p + 2 * n) + 256 * u8 d (p + 2 * n + 1))

/-- Sum of the `len` bytes of `d` from `p` as host-order words: the `len / 2` little-endian
words, plus the final byte when `len` is odd. -/
def sumLEBytes (d : List Byte) (p len : Nat) : Nat :=
  sumLE d p (len / 2) + (if len % 2 = 1 then u8 d (p + len - 1) else 0)

/-- Sum of `n` consecutive big-endian (network order) 16-bit words of `d` from `p`. -/
def sumBE (d : List Byte) (p : Nat) : Nat → Nat
  | 0 => 0
  | n + 1 => sumBE d p n + be16 d (p + 2 * n)

/-- Internet-checksum sum of the `len` bytes of `d` from `p`: the big-endian words, an odd
final byte padded with a zero octet. -/
def onesSum (d : List Byte) (p len : Nat) : Nat :=
  sumBE d p (len / 2) + (if len % 2 = 1 then 256 * u8 d (p + len - 1) else 0)

/-- End-around-carry folding of a sum to 16 bits, at most `fuel` carries. -/
def foldCarry : Nat → Nat → Nat
  | 0, s => s
  | fuel + 1, s => if s < 65536 then s else foldCarry fuel (s % 65536 + s / 65536)

/-- The ones'-complement fold of a sum to 16 bits. -/
def onesFold (s : Nat) : Nat := foldCarry s s

/-- The sum a receiver computes to verify the transport checksum of an IPv4 frame whose
transport header is at `T`: the pseudo-header (source address, destination address,
protocol, transport length) and all transport bytes to the end of the buffer, stored
checksum included. -/
def transportSum (d : List Byte) (T proto : Nat) : Nat :=
  be16 d 26 + be16 d 28 + be16 d 30 + be16 d 32 + proto + (d.length - T) +
    onesSum d T (d.length - T)

/-- The transport checksum verifies: the sum folds to `0xFFFF`. -/
def ChecksumValid (d : List Byte) (T proto : Nat) : Prop :=
  onesFold (transportSum d T proto) = 0xFFFF

instance (d : List Byte) (T proto : Nat) : Decidable (ChecksumValid d T proto) := by
  unfold ChecksumValid; infer_instance

/-- Offset, in the transport header, of the checksum field a direction writes: the UDP
checksum (6) on egress, the TCP checksum (16) on ingress. -/
def csumOffset : direction → Nat
  | direction.EGRESS => 6
  | direction.INGRESS => 16

/-! ## Closed forms of the intermediate frames -/

/-- The packet after the header rewrite of `tcp_to_tinu`: the `hlen` header bytes at `T`
are loaded into the zeroed scratch array, the UDP length and a zero checksum are written
at 4 and 6, the TCP sequence number at 16, and the `hlen` bytes are stored back. -/
def tinuOverlay (d : List Byte) (T hlen : Nat) : List Byte :=
  wr d T ((wr (wr (wr (wr (List.replicate 60 (0 : Byte)) 0 ((d.drop T).take hlen)) 4
    (le16 (bpf_htons (d.length - T)))) 6 (le16 0)) 16 ((d.drop (T + 4)).take 4)).take hlen)

/-- The packet after the header rewrite of `tinu_to_tcp`: the TINU sequence field is
written at 4, zero at 16 (checksum) and 18 (urgent pointer). -/
def tcpOverlay (d : List Byte) (T hlen : Nat) : List Byte :=
  wr d T ((wr (wr (wr (wr (List.replicate 60 (0 : Byte)) 0 ((d.drop T).take hlen)) 4
    ((d.drop (T + 16)).take 4)) 16 (le16 0)) 18 (le16 0)).take hlen)

/-- The IPv4 frame after the protocol byte (frame offset 23) is set to `new` and the
header checksum (frame offsets 24..25) is updated for the change from `old`. -/
def ipv4Reproto (d : List Byte) (old new : Nat) : List Byte :=
  wr (wr d 23 [byteOf new]) 24
    (le16 (csum_replace2 (le16At (wr d 23 [byteOf new]) 24) (bpf_htons old) (bpf_htons new)))

/-- The value `udp_checksum` computes on a frame with the UDP header at `T`. -/
def udpCsumOf (d : List Byte) (T : Nat) : Nat :=
  csum_tcpudp_magic (le32At d 26) (le32At d 30) (bpf_ntohs (le16At d (T + 4))) IPPROTO_UDP
    (if bpf_ntohs (le16At d (T + 4)) > 1480 ∨
        T + bpf_ntohs (le16At d (T + 4)) ≠ d.length then 0
      else sumLEBytes d T (bpf_ntohs (le16At d (T + 4))))

/-- The value `tcp_checksum` computes on a frame with the TCP header at `T`, for the
payload length `L` handed to it. -/
def tcpCsumOf (d : List Byte) (T L : Nat) : Nat :=
  csum_tcpudp_magic (le32At d 26) (le32At d 30) (L % 2 ^ 32) IPPROTO_TCP
    (if L % 65536 > 1480 ∨ T + L % 65536 ≠ d.length then 0
      else sumLEBytes d T (L % 65536))

/-- Closed form of the frame `tcp_to_tinu` leaves for an eligible frame: over IPv4 the
header rewrite, the protocol and header-checksum update and the stored UDP checksum; over
IPv6 the header rewrite and the next-header byte. -/
def egressOut (d : List Byte) : List Byte :=
  if be16 d 12 = ETH_P_IP then
    wr (ipv4Reproto (tinuOverlay d (transportOffset d) (dataOffset d * 4)) 6 17)
      (transportOffset d + 6)
      (le16 (udpCsumOf (ipv4Reproto (tinuOverlay d (transportOffset d) (dataOffset d * 4)) 6 17)
        (transportOffset d)))
  else wr (tinuOverlay d (transportOffset d) (dataOffset d * 4)) 20 [byteOf 17]

/-- Closed form of the frame `tinu_to_tcp` leaves for an eligible frame. -/
def ingressOut (d : List Byte) : List Byte :=
  if be16 d 12 = ETH_P_IP then
    wr (ipv4Reproto (tcpOverlay d (transportOffset d) (dataOffset d * 4)) 17 6)
      (transportOffset d + 16)
      (le16 (tcpCsumOf (ipv4Reproto (tcpOverlay d (transportOffset d) (dataOffset d * 4)) 17 6)
        (transportOffset d) (d.length - transportOffset d)))
  else wr (tcpOverlay d (transportOffset d) (dataOffset d * 4)) 20 [byteOf 6]

/-- Closed form of the frame the transcoder of a direction leaves. -/
def transcodeOut (d : List Byte) : direction → List Byte
  | direction.EGRESS => egressOut d
  | direction.INGRESS => ingressOut d

/-- The end of the IP payload that the IP header declares: the IPv4 header start plus the
total-length field, or the end of the fixed IPv6 header plus the payload-length field. -/
def ipDeclaredEnd (d : List Byte) : Nat :=
  if be16 d 12 = ETH_P_IP then 14 + be16 d 16 else 14 + 40 + be16 d 18

/-- The sum a receiver computes to verify the transport checksum when it takes the
transport length from the IP header instead of the buffer: the pseudo-header with the
length from `T` to the declared end of the IP payload, and the transport bytes up to that
end. -/
def declaredTransportSum (d : List Byte) (T proto : Nat) : Nat :=
  be16 d 26 + be16 d 28 + be16 d 30 + be16 d 32 + proto + (ipDeclaredEnd d - T) +
    onesSum d T (ipDeclaredEnd d - T)

/-! ## Reference definitions for the checksum arithmetic -/

/-- The two folding steps of a 32-bit sum to 16 bits: twice, the low half plus the high
half. -/
def foldTwice (x : Nat) : Nat :=
  let y := x % 65536 + x / 65536
  y % 65536 + y / 65536

/-- A 16-bit word with its two bytes swapped. -/
def swap16 (w : Nat) : Nat := (w % 256) * 256 + w / 256

/-- The sum the pseudo-header checksum folds: the partial sum, the two 16-bit halves of
each address, and the byte-swapped 16-bit words of the protocol and of the length. -/
def pseudoSum (saddr daddr len proto csum : Nat) : Nat :=
  csum + saddr % 65536 + saddr / 65536 + daddr % 65536 + daddr / 65536 +
    swap16 proto + swap16 len

/-- The sum a receiver computes to verify the IPv4 header checksum: the big-endian 16-bit
words of the `ihl * 4` header bytes from frame offset 14, stored checksum included. -/
def ipHeaderSum (d : List Byte) : Nat := sumBE d 14 (ihl d * 2)

/-! ## Concrete frames -/

/-- Ethernet header with EtherType IPv4. -/
def ethIPv4 : List Byte := [0, 0, 0, 0, 0, 1, 0, 0, 0, 0, 0, 2, 0x08, 0x00]

/-- Ethernet header with EtherType IPv6. -/
def ethIPv6 : List Byte := [0, 0, 0, 0, 0, 1, 0, 0, 0, 0, 0, 2, 0x86, 0xDD]

/-- IPv4 header, IHL 5, total length 44, protocol TCP, 10.0.0.1 to 10.0.0.2, with a
valid header checksum. -/
def ipv4Tcp : List Byte :=
  [0x45, 0, 0, 44, 0, 0, 0, 0, 64, 6, 0x66, 0xca, 10, 0, 0, 1, 10, 0, 0, 2]

/-- IPv6 header, payload length 24, next header TCP. -/
def ipv6Tcp : List Byte :=
  [0x60, 0, 0, 0, 0, 24, 6, 64,
   0xfd, 0, 0, 0, 0, 0, 0, 0, 0, 0, 0, 0, 0, 0, 0, 1,
   0xfd, 0, 0, 0, 0, 0, 0, 0, 0, 0, 0, 0, 0, 0, 0, 2]

/-- TCP header: source port 12345, destination port 5201, sequence number 1000,
data offset 5, SYN, window 65535, checksum `0xabcd`, urgent pointer 7. -/
def tcpSyn : List Byte :=
  [0x30, 0x39, 0x14, 0x51, 0, 0, 0x03, 0xe8, 0, 0, 0, 0, 0x50, 0x02, 0xff, 0xff,
   0xab, 0xcd, 0, 7]

/-- The same TCP header with the URG flag set as well. -/
def tcpSynUrg : List Byte :=
  [0x30, 0x39, 0x14, 0x51, 0, 0, 0x03, 0xe8, 0, 0, 0, 0, 0x50, 0x22, 0xff, 0xff,
   0xab, 0xcd, 0, 7]

/-- The same TCP header declaring data offset 6 (a 24-byte header). -/
def tcpSynDoff6 : List Byte :=
  [0x30, 0x39, 0x14, 0x51, 0, 0, 0x03, 0xe8, 0, 0, 0, 0, 0x60, 0x02, 0xff, 0xff,
   0xab, 0xcd, 0, 7]

/-- An outbound IPv4 SYN to port 5201 with four payload bytes, one segment. -/
def synFrame4 : SkBuff := ⟨ethIPv4 ++ ipv4Tcp ++ tcpSyn ++ [1, 2, 3, 4], 1⟩

/-- An outbound IPv6 SYN to port 5201 with four payload bytes, one segment. -/
def synFrame6 : SkBuff := ⟨ethIPv6 ++ ipv6Tcp ++ tcpSyn ++ [1, 2, 3, 4], 1⟩

/-- An outbound IPv4 segment to port 5201 carrying urgent data. -/
def urgFrame4 : SkBuff := ⟨ethIPv4 ++ ipv4Tcp ++ tcpSynUrg ++ [1, 2, 3, 4], 1⟩

/-- The outbound IPv4 SYN as a buffer of three merged segments. -/
def gsoFrame4 : SkBuff := ⟨ethIPv4 ++ ipv4Tcp ++ tcpSyn ++ [1, 2, 3, 4], 3⟩

/-- An ARP frame: EtherType `0x0806`. -/
def arpFrame : SkBuff :=
  ⟨[0xff, 0xff, 0xff, 0xff, 0xff, 0xff, 0, 0, 0, 0, 0, 2, 0x08, 0x06,
    0, 1, 8, 0, 6, 4, 0, 1, 0, 0, 0, 0, 0, 2, 10, 0, 0, 2, 0, 0, 0, 0, 0, 0, 10, 0, 0, 1], 1⟩

/-- IPv4 header, IHL 5, total length 44, protocol UDP, 10.0.0.1 to 10.0.0.2, with a
valid header checksum. -/
def ipv4Udp : List Byte :=
  [0x45, 0, 0, 44, 0, 0, 0, 0, 64, 17, 0x66, 0xbf, 10, 0, 0, 1, 10, 0, 0, 2]

/-- TINU header: source port 12345, destination port 5201, UDP length 24, UDP checksum
`0x4f41`, acknowledgment 0, data offset 5, SYN, window 65535, sequence number 1000. -/
def tinuSyn : List Byte :=
  [0x30, 0x39, 0x14, 0x51, 0, 24, 0x4f, 0x41, 0, 0, 0, 0, 0x50, 0x02, 0xff, 0xff,
   0, 0, 0x03, 0xe8]

/-- The same TINU header declaring data offset 6 (a 24-byte header). -/
def tinuSynDoff6 : List Byte :=
  [0x30, 0x39, 0x14, 0x51, 0, 20, 0, 0, 0, 0, 0, 0, 0x60, 0x02, 0xff, 0xff,
   0, 0, 0x03, 0xe8]

/-- An inbound IPv4 TINU datagram to port 5201 with four payload bytes, one segment. -/
def tinuFrame4 : SkBuff := ⟨ethIPv4 ++ ipv4Udp ++ tinuSyn ++ [1, 2, 3, 4], 1⟩

/-- The outbound IPv4 SYN followed by two trailing bytes that the IPv4 total length (44)
does not cover. -/
def paddedFrame4 : SkBuff := ⟨ethIPv4 ++ ipv4Tcp ++ tcpSyn ++ [1, 2, 3, 4] ++ [0, 0], 1⟩

/-- IPv4 header, IHL 5, total length 40, protocol TCP, with a valid header checksum. -/
def ipv4Tcp40 : List Byte :=
  [0x45, 0, 0, 40, 0, 0, 0, 0, 64, 6, 0x66, 0xce, 10, 0, 0, 1, 10, 0, 0, 2]

/-- IPv4 header, IHL 5, total length 40, protocol UDP, with a valid header checksum. -/
def ipv4Udp40 : List Byte :=
  [0x45, 0, 0, 40, 0, 0, 0, 0, 64, 17, 0x66, 0xc3, 10, 0, 0, 1, 10, 0, 0, 2]

/-- IPv6 header, payload length 20, next header TCP. -/
def ipv6Tcp20 : List Byte :=
  [0x60, 0, 0, 0, 0, 20, 6, 64,
   0xfd, 0, 0, 0, 0, 0, 0, 0, 0, 0, 0, 0, 0, 0, 0, 1,
   0xfd, 0, 0, 0, 0, 0, 0, 0, 0, 0, 0, 0, 0, 0, 0, 2]

/-- An outbound IPv4 segment of 20 transport bytes whose TCP header declares 24. -/
def truncFrame4 : SkBuff := ⟨ethIPv4 ++ ipv4Tcp40 ++ tcpSynDoff6, 1⟩

/-- An inbound IPv4 datagram to port 5201 of 20 transport bytes whose byte 12 declares a
24-byte TINU header. -/
def truncTinu4 : SkBuff := ⟨ethIPv4 ++ ipv4Udp40 ++ tinuSynDoff6, 1⟩

/-- An outbound IPv6 segment of 20 transport bytes whose TCP header declares 24. -/
def truncFrame6 : SkBuff := ⟨ethIPv6 ++ ipv6Tcp20 ++ tcpSynDoff6, 1⟩

/-- IPv4 header, IHL 5, total length 1501, protocol TCP, with a valid header checksum. -/
def ipv4TcpBig : List Byte :=
  [0x45, 0, 0x05, 0xdd, 0, 0, 0, 0, 64, 6, 0x61, 0x19, 10, 0, 0, 1, 10, 0, 0, 2]

/-- An outbound IPv4 SYN to port 5201 with 1461 zero payload bytes: transport length
1481, one byte above the ceiling of `csum_partial`. -/
def bigFrame4 : SkBuff :=
  ⟨ethIPv4 ++ ipv4TcpBig ++ tcpSyn ++ List.replicate 1461 0, 1⟩

/-- IPv4 header bytes declaring IHL 4 (a 16-byte header, below the 20-byte minimum),
protocol TCP, 10.0.0.1 to 10.0.20.81. -/
def ipv4TcpIhl4 : List Byte :=
  [0x44, 0, 0, 40, 0, 0, 0, 0, 64, 6, 0, 0, 10, 0, 0, 1, 10, 0, 0x14, 0x51]

/-- An outbound Ethernet + IPv4 frame declaring IHL 4, one segment. The declared transport
header starts at offset 30, inside the 20 bytes of the IPv4 header: its port fields are
the destination address, whose low half reads `0x1451` = 5201, and its data-offset byte
is byte 42, `0x50`. -/
def ihl4Frame : SkBuff :=
  ⟨ethIPv4 ++ ipv4TcpIhl4 ++
    [0, 0, 0x03, 0xe8, 0, 0, 0, 0, 0x50, 0x10, 0xff, 0xff, 0xab, 0xcd, 0, 7, 1, 2, 3, 4], 1⟩

/-- IPv4 header bytes declaring IHL 3 (a 12-byte header), protocol TCP, 10.0.20.81 to
10.0.0.2. -/
def ipv4TcpIhl3 : List Byte :=
  [0x43, 0, 0, 40, 0, 0, 0, 0, 64, 6, 0, 0, 10, 0, 0x14, 0x51, 10, 0, 0, 2]

/-- An outbound Ethernet + IPv4 frame declaring IHL 3, one segment. The declared transport
header starts at offset 26, over the two addresses: the destination port read at 28..29 is
`0x1451` = 5201, the data-offset byte is byte 38, `0x50`, and the 20 declared header bytes
end at 46, inside the 54 bytes of the buffer. -/
def ihl3Frame : SkBuff :=
  ⟨ethIPv4 ++ ipv4TcpIhl3 ++
    [0, 0, 0x03, 0xe8, 0x50, 0x10, 0xff, 0xff, 0xab, 0xcd, 0, 7, 0, 0, 0, 0, 1, 2, 3, 4], 1⟩

/-! ## Basic facts about the byte primitives -/

theorem u8_lt (d : List Byte) (i : Nat) : u8 d i < 256 := (d.getD i 0).isLt

theorem length_wr (d : List Byte) (off : Nat) (src : List Byte) :
    (wr d off src).length = d.length := by
  induction d generalizing off src with
  | nil => simp [wr]
  | cons b d ih =>
    cases off with
    | zero => cases src <;> simp [wr, ih]
    | succ off => simp [wr, ih]

theorem getElem?_wr (d : List Byte) (off : Nat) (src : List Byte) (i : Nat) :
    (wr d off src)[i]? =
      if off ≤ i ∧ i < off + src.length ∧ i < d.length then src[i - off]? else d[i]? := by
  induction d generalizing off src i with
  | nil => simp [wr]
  | cons b d ih =>
    cases off with
    | zero =>
      cases src with
      | nil => simp [wr]
      | cons s src =>
        cases i with
        | zero => simp [wr]
        | succ i =>
          simp only [wr, List.getElem?_cons_succ, ih, List.length_cons]
          simp
    | succ off =>
      cases i with
      | zero => simp [wr]
      | succ i =>
        simp only [wr, List.getElem?_cons_succ, ih, List.length_cons]
        simp only [Nat.add_le_add_iff_right, Nat.add_lt_add_iff_right, Nat.add_sub_add_right]
        congr 1
        apply propext
        constructor <;> intro h <;> omega

theorem u8_wr (d : List Byte) (off : Nat) (src : List Byte) (i : Nat) :
    u8 (wr d off src) i =
      if off ≤ i ∧ i < off + src.length ∧ i < d.length then u8 src (i - off) else u8 d i := by
  unfold u8
  simp only [List.getD_eq_getElem?_getD, getElem?_wr]
  split <;> rfl

theorem ld8_of_lt {d : List Byte} {off : Nat} (h : off < d.length) :
    ld8 d off = some (u8 d off) := by
  unfold ld8 u8
  simp [List.getD_eq_getElem?_getD, List.getElem?_eq_getElem h]

theorem ld16_of_lt {d : List Byte} {off : Nat} (h : off + 1 < d.length) :
    ld16 d off = some (u8 d off + 256 * u8 d (off + 1)) := by
  unfold ld16
  rw [ld8_of_lt (by omega), ld8_of_lt h]
  rfl

theorem ld32_of_lt {d : List Byte} {off : Nat} (h : off + 3 < d.length) :
    ld32 d off = some (u8 d off + 256 * u8 d (off + 1) +
      65536 * (u8 d (off + 2) + 256 * u8 d (off + 3))) := by
  unfold ld32
  rw [ld16_of_lt (by omega), ld16_of_lt (by omega)]
  rfl

theorem le_eq_htons_iff {a b v : Nat} (ha : a < 256) (hb : b < 256) (hv : v < 65536) :
    a + 256 * b = bpf_htons v ↔ 256 * a + b = v := by
  unfold bpf_htons
  rw [Nat.mod_eq_of_lt hv]
  constructor <;> intro h <;> omega

theorem u8_take (d : List Byte) (n i : Nat) :
    u8 (d.take n) i = if i < n then u8 d i else 0 := by
  unfold u8
  simp only [List.getD_eq_getElem?_getD, List.getElem?_take]
  split <;> rfl

theorem u8_drop (d : List Byte) (n i : Nat) : u8 (d.drop n) i = u8 d (n + i) := by
  unfold u8
  simp only [List.getD_eq_getElem?_getD, List.getElem?_drop]

theorem u8_replicate_zero (n i : Nat) : u8 (List.replicate n (0 : Byte)) i = 0 := by
  unfold u8
  simp only [List.getD_eq_getElem?_getD, List.getElem?_replicate]
  split <;> rfl

theorem u8_of_le {d : List Byte} {i : Nat} (h : d.length ≤ i) : u8 d i = 0 := by
  unfold u8
  simp [List.getD_eq_getElem?_getD, List.getElem?_eq_none h]

/-! ## Gate normal form -/

/-- The reads of the urgent-data log arguments succeed once the fixed IPv4 header and the
fixed TCP header are inside the buffer. -/
theorem urgent_log_args_eq (skb : SkBuff) (ip ip6 : Option Nat) (T : Nat)
    (hl : T + 20 ≤ skb.data.length) (hip : ∀ a, ip = some a → a + 20 ≤ skb.data.length) :
    urgent_log_args skb ip ip6 T = some () := by
  unfold urgent_log_args
  cases ip with
  | some a =>
    have := hip a rfl
    simp only [ld32_of_lt (show a + 12 + 3 < skb.data.length by omega),
      ld32_of_lt (show a + 16 + 3 < skb.data.length by omega),
      @ld16_of_lt skb.data (T + 0) (by omega),
      ld16_of_lt (show T + 2 + 1 < skb.data.length by omega), Option.some_bind]
  | none =>
    cases ip6 with
    | some b =>
      simp only [@ld16_of_lt skb.data (T + 0) (by omega),
        ld16_of_lt (show T + 2 + 1 < skb.data.length by omega), Option.some_bind]
    | none => rfl

/-- The egress half of `tc_action_l4`, as one guarded call of `tcp_to_tinu`. -/
theorem tc_action_l4_egress (skb : SkBuff) (sd : side) (ip ip6 : Option Nat) (T proto : Nat)
    (hip : ∀ a, ip = some a → a + 20 ≤ skb.data.length) :
    tc_action_l4 skb direction.EGRESS sd ip ip6 T proto =
      if proto = 6 ∧ T + 20 ≤ skb.data.length ∧ 5 ≤ (u8 skb.data (T + 12) / 16) % 16 ∧
          be16 skb.data (T + (if sd = side.SERVER then 0 else 2)) = PORT ∧
          (u8 skb.data (T + 13) / 32) % 2 = 0 ∧ skb.gso_segs ≤ 1 then
        (tcp_to_tinu skb ip ip6 T (T + (u8 skb.data (T + 12) / 16) % 16 * 4)).bind
          fun s => some (TC_ACT_OK, s)
      else some (TC_ACT_OK, skb) := by
  unfold tc_action_l4
  simp only [IPPROTO_TCP, sizeof_tcphdr, TCP_MAX_HEADER]
  by_cases hp : proto = 6
  swap
  · simp [hp]
  by_cases hl : T + 20 ≤ skb.data.length
  swap
  · have : T + 20 > skb.data.length := by omega
    simp [hp, this, hl]
  have hnl : ¬ (T + 20 > skb.data.length) := by omega
  have h15 : (u8 skb.data (T + 12) / 16) % 16 * 4 ≤ 60 := by omega
  by_cases hd : 5 ≤ (u8 skb.data (T + 12) / 16) % 16
  swap
  · have : (u8 skb.data (T + 12) / 16) % 16 * 4 < 20 := by omega
    simp [hp, hnl, hd, this, ld8_of_lt (show T + 12 < skb.data.length by omega)]
  have hd2 : ¬ ((u8 skb.data (T + 12) / 16) % 16 * 4 < 20 ∨
      (u8 skb.data (T + 12) / 16) % 16 * 4 > 60) := by omega
  have hg : skb.gso_segs > 1 ↔ ¬ skb.gso_segs ≤ 1 := by omega
  cases sd
  all_goals
    simp only [hp, hnl, hl, hd, hd2, hg, ld8_of_lt (show T + 12 < skb.data.length by omega),
      ld8_of_lt (show T + 13 < skb.data.length by omega), urgent_log_args_eq skb ip ip6 T hl hip,
      ld16_of_lt (show T + 1 < skb.data.length by omega), Nat.add_zero,
      ld16_of_lt (show T + 2 + 1 < skb.data.length by omega), Option.some_bind, ne_eq,
      not_true_eq_false, if_false, true_and, be16, reduceCtorEq, if_true,
      le_eq_htons_iff (u8_lt _ _) (u8_lt _ _) (show PORT < 65536 by decide)]
    split_ifs <;> first | rfl | (exfalso; omega)

/-- The ingress half of `tc_action_l4`, as one guarded call of `tinu_to_tcp`. -/
theorem tc_action_l4_ingress (skb : SkBuff) (sd : side) (ip ip6 : Option Nat) (T proto : Nat) :
    tc_action_l4 skb direction.INGRESS sd ip ip6 T proto =
      if proto = 17 ∧ T + 20 ≤ skb.data.length ∧ 5 ≤ (u8 skb.data (T + 12) / 16) % 16 ∧
          be16 skb.data (T + (if sd = side.SERVER then 2 else 0)) = PORT ∧
          skb.gso_segs ≤ 1 then
        (tinu_to_tcp skb ip ip6 T (T + (u8 skb.data (T + 12) / 16) % 16 * 4)).bind
          fun s => some (TC_ACT_OK, s)
      else some (TC_ACT_OK, skb) := by
  unfold tc_action_l4
  simp only [IPPROTO_UDP, sizeof_tinuhdr, TCP_MAX_HEADER]
  by_cases hp : proto = 17
  swap
  · simp [hp]
  by_cases hl : T + 20 ≤ skb.data.length
  swap
  · have : T + 20 > skb.data.length := by omega
    simp [hp, this, hl]
  have hnl : ¬ (T + 20 > skb.data.length) := by omega
  have h15 : (u8 skb.data (T + 12) / 16) % 16 * 4 ≤ 60 := by omega
  by_cases hd : 5 ≤ (u8 skb.data (T + 12) / 16) % 16
  swap
  · have : (u8 skb.data (T + 12) / 16) % 16 * 4 < 20 := by omega
    simp [hp, hnl, hd, this, ld8_of_lt (show T + 12 < skb.data.length by omega)]
  have hd2 : ¬ ((u8 skb.data (T + 12) / 16) % 16 * 4 < 20 ∨
      (u8 skb.data (T + 12) / 16) % 16 * 4 > 60) := by omega
  have hg : skb.gso_segs > 1 ↔ ¬ skb.gso_segs ≤ 1 := by omega
  cases sd
  all_goals
    simp only [hp, hnl, hl, hd, hd2, hg, ld8_of_lt (show T + 12 < skb.data.length by omega),
      ld16_of_lt (show T + 1 < skb.data.length by omega), Nat.add_zero,
      ld16_of_lt (show T + 2 + 1 < skb.data.length by omega), Option.some_bind, ne_eq,
      not_true_eq_false, if_false, true_and, be16, reduceCtorEq, if_true,
      le_eq_htons_iff (u8_lt _ _) (u8_lt _ _) (show PORT < 65536 by decide)]
    split_ifs <;> first | rfl | (exfalso; omega)

/-- Gate normal form of `tc_action`: the transcoder runs exactly on the frames that pass
the gate, carry no urgent data on egress and are a single segment; every other frame is
returned as it is. -/
theorem tc_action_eq (skb : SkBuff) (dir : direction) (sd : side) :
    tc_action skb dir sd =
      if Gate skb.data dir sd ∧ (dir = direction.EGRESS → urgFlag skb.data = 0) ∧
          skb.gso_segs ≤ 1 then
        (transcode skb dir).bind fun s => some (TC_ACT_OK, s)
      else some (TC_ACT_OK, skb) := by
  unfold tc_action
  simp only [sizeof_ethhdr, sizeof_iphdr, sizeof_ipv6hdr, Nat.zero_add]
  have hT : 14 ≤ transportOffset skb.data := by unfold transportOffset; split <;> omega
  by_cases h14 : 14 ≤ skb.data.length
  swap
  · have h1 : 14 > skb.data.length := by omega
    have h2 : ¬ Gate skb.data dir sd := by unfold Gate; omega
    simp [h1, h2]
  have h14n : ¬ (14 > skb.data.length) := by omega
  simp only [h14n, if_false, ld16_of_lt (show 12 + 1 < skb.data.length by omega),
    Option.some_bind, le_eq_htons_iff (u8_lt _ _) (u8_lt _ _) (show ETH_P_IP < 65536 by decide),
    le_eq_htons_iff (u8_lt _ _) (u8_lt _ _) (show ETH_P_IPV6 < 65536 by decide)]
  have hbe : 256 * u8 skb.data 12 + u8 skb.data (12 + 1) = be16 skb.data 12 := rfl
  rw [hbe]
  by_cases h4 : be16 skb.data 12 = ETH_P_IP
  · have hTe : transportOffset skb.data = 14 + ihl skb.data * 4 := by
      unfold transportOffset; rw [if_pos h4]
    have hPe : protoOffset skb.data = 23 := by unfold protoOffset; rw [if_pos h4]
    by_cases h34 : 34 ≤ skb.data.length
    swap
    · have h1 : 14 + 20 > skb.data.length := by omega
      have h2 : ¬ Gate skb.data dir sd := by unfold Gate; omega
      simp [h4, h1, h2]
    have h34n : ¬ (14 + 20 > skb.data.length) := by omega
    simp only [h4, if_true, h34n, if_false, ld8_of_lt (show 14 < skb.data.length by omega),
      ld8_of_lt (show 14 + 9 < skb.data.length by omega), Option.some_bind]
    have hip : ∀ a, some 14 = some a → a + 20 ≤ skb.data.length := by
      intro a ha
      cases ha
      omega
    cases dir <;> cases sd <;>
      simp only [fun s T p => tc_action_l4_egress skb s (some 14) none T p hip,
        tc_action_l4_ingress, Gate, h4, hTe, hPe, true_or,
        true_and, l4ProtoOf, operativePort, urgFlag, dataOffset, transcode, iphdrOf,
        ipv6hdrOf, ihl, if_true, reduceCtorEq, if_false, forall_const, false_implies,
        and_true, Nat.add_zero, and_assoc]
  · by_cases h6 : be16 skb.data 12 = ETH_P_IPV6
    swap
    · have h2 : ¬ Gate skb.data dir sd := by unfold Gate; tauto
      simp [h4, h6, h2]
    have hTe : transportOffset skb.data = 14 + 40 := by
      unfold transportOffset; rw [if_neg h4]
    have hPe : protoOffset skb.data = 20 := by unfold protoOffset; rw [if_neg h4]
    by_cases h54 : 54 ≤ skb.data.length
    swap
    · have h1 : 14 + 40 > skb.data.length := by omega
      have h2 : ¬ Gate skb.data dir sd := by unfold Gate; omega
      have h46 : ¬ (ETH_P_IPV6 = ETH_P_IP) := by decide
      simp [h6, h46, h1, h2]
    have h54n : ¬ (14 + 40 > skb.data.length) := by omega
    have h46 : ¬ (ETH_P_IPV6 = ETH_P_IP) := by decide
    simp only [h6, h46, if_true, h54n, if_false,
      ld8_of_lt (show 14 + 6 < skb.data.length by omega), Option.some_bind]
    have hip : ∀ a, (none : Option Nat) = some a → a + 20 ≤ skb.data.length := by
      intro a ha
      cases ha
    cases dir <;> cases sd <;>
      simp only [fun s T p => tc_action_l4_egress skb s none (some 14) T p hip,
        tc_action_l4_ingress, Gate, h6, h46, hTe, hPe, or_true,
        true_and, l4ProtoOf, operativePort, urgFlag, dataOffset, transcode, iphdrOf,
        ipv6hdrOf, if_true, reduceCtorEq, if_false, forall_const, false_implies,
        and_true, Nat.add_zero, and_assoc]
/-! ## Checksum engine -/

theorem sumLE_succ_front (d : List Byte) (p n : Nat) :
    sumLE d p (n + 1) = (u8 d p + 256 * u8 d (p + 1)) + sumLE d (p + 2) n := by
  induction n with
  | zero => simp [sumLE]
  | succ n ih =>
    rw [sumLE, ih, sumLE]
    have e1 : p + 2 + 2 * n = p + 2 * (n + 1) := by omega
    rw [e1]
    omega

theorem sumLE_le (d : List Byte) (p n : Nat) : sumLE d p n ≤ n * 65535 := by
  induction n with
  | zero => simp [sumLE]
  | succ n ih =>
    rw [sumLE]
    have h1 := u8_lt d (p + 2 * n)
    have h2 := u8_lt d (p + 2 * n + 1)
    omega

theorem sumLE_congr {d e : List Byte} {p q n : Nat}
    (h : ∀ j, j < 2 * n → u8 d (p + j) = u8 e (q + j)) : sumLE d p n = sumLE e q n := by
  induction n with
  | zero => rfl
  | succ n ih =>
    rw [sumLE, sumLE, ih (fun j hj => h j (by omega)), h (2 * n) (by omega)]
    have := h (2 * n + 1) (by omega)
    rw [show p + (2 * n + 1) = p + 2 * n + 1 by omega,
      show q + (2 * n + 1) = q + 2 * n + 1 by omega] at this
    rw [this]

/-- The loop of `csum_partial` adds every remaining whole word and stops at the last one. -/
theorem csum_partial_loop_eq (d : List Byte) (p fuel i acc : Nat)
    (hp : p ≤ d.length) (hi : i ≤ (d.length - p) / 2) (hfuel : (d.length - p) / 2 - i ≤ fuel)
    (hacc : acc < 2 ^ 32) :
    csum_partial_loop d p d.length fuel i acc =
      some ((d.length - p) / 2,
        (acc + sumLE d (p + 2 * i) ((d.length - p) / 2 - i)) % 2 ^ 32) := by
  induction fuel generalizing i acc with
  | zero =>
    have hm : (d.length - p) / 2 - i = 0 := by omega
    have hm2 : (d.length - p) / 2 = i := by omega
    rw [ csum_partial_loop, hm, sumLE, hm2, Nat.add_zero, Nat.mod_eq_of_lt hacc]
  | succ fuel ih =>
    rw [ csum_partial_loop]
    by_cases hc : p + 2 * (i + 1) > d.length
    · have hm2 : (d.length - p) / 2 = i := by omega
      rw [if_pos hc, hm2, Nat.sub_self, sumLE, Nat.add_zero, Nat.mod_eq_of_lt hacc]
    · rw [if_neg hc, ld16_of_lt (by omega), Option.some_bind,
        ih (i + 1) _ (by omega) (by omega) (Nat.mod_lt _ (by decide))]
      have hk : (d.length - p) / 2 - i = ((d.length - p) / 2 - (i + 1)) + 1 := by omega
      rw [hk, sumLE_succ_front, show p + 2 * i + 2 = p + 2 * (i + 1) by omega]
      congr 2
      omega

/-- Within the 1480-byte ceiling and with the range ending at `data_end`, `csum_partial`
returns the host-order word sum of the range; no 32-bit wrap-around occurs. -/
theorem csum_partial_eq (d : List Byte) (buf len : Nat)
    (hend : buf + len = d.length) (hlen : len ≤ 1480) :
    csum_partial d buf len d.length = some (sumLEBytes d buf len) := by
  unfold csum_partial sumLEBytes
  have hc : ¬ (len > 1480 ∨ buf + len ≠ d.length) := by omega
  have hm : (d.length - buf) / 2 = len / 2 := by
    rw [← hend, Nat.add_sub_cancel_left]
  have hb := sumLE_le d buf (len / 2)
  rw [if_neg hc, csum_partial_loop_eq d buf 740 0 0 (by omega) (by omega) (by omega) (by decide),
    Option.some_bind, hm]
  simp only [Nat.mul_zero, Nat.add_zero, Nat.sub_zero, Nat.zero_add]
  have hs : sumLE d buf (len / 2) % 2 ^ 32 = sumLE d buf (len / 2) :=
    Nat.mod_eq_of_lt (by omega)
  rw [hs]
  by_cases hodd : len % 2 = 1
  · have h1 : len % 2 ≠ 0 := by omega
    have h2 : ¬ (buf + len / 2 * 2 ≥ d.length) := by omega
    have h3 : buf + len / 2 * 2 = buf + len - 1 := by omega
    have hu := u8_lt d (buf + len - 1)
    rw [if_pos h1, if_pos hodd, if_neg h2, ld8_of_lt (by omega), Option.some_bind, h3,
      Nat.mod_eq_of_lt (by omega)]
  · have h1 : ¬ (len % 2 ≠ 0) := by omega
    rw [if_neg h1, if_neg hodd, Nat.add_zero]

/-- Outside those conditions `csum_partial` returns zero. -/
theorem csum_partial_zero (d : List Byte) (buf len e : Nat)
    (h : len > 1480 ∨ buf + len ≠ e) : csum_partial d buf len e = some 0 := by
  unfold csum_partial
  rw [if_pos h]

theorem csum_fold_spec (x : Nat) (hx : x < 2 ^ 32) :
    csum_fold x ≤ 65535 ∧ (x + csum_fold x) % 65535 = 0 ∧ (csum_fold x = 65535 ↔ x = 0) := by
  unfold csum_fold
  have h1 : (x % 65536 + x / 65536) % 2 ^ 32 = x % 65536 + x / 65536 :=
    Nat.mod_eq_of_lt (by omega)
  simp only [h1]
  generalize hy : x % 65536 + x / 65536 = y
  have hy1 : y ≤ 131070 := by omega
  have hy2 : y % 65535 = x % 65535 := by omega
  have hy3 : y = 0 ↔ x = 0 := by omega
  have h2 : (y % 65536 + y / 65536) % 2 ^ 32 = y % 65536 + y / 65536 :=
    Nat.mod_eq_of_lt (by omega)
  simp only [h2]
  generalize hz : y % 65536 + y / 65536 = z
  have hz1 : z ≤ 65535 := by omega
  have hz2 : z % 65535 = y % 65535 := by omega
  have hz3 : z = 0 ↔ y = 0 := by omega
  have h3 : (2 ^ 32 - 1 - z) % 65536 = 65535 - z := by omega
  rw [h3]
  refine ⟨by omega, by omega, by omega⟩

/-- The value `csum_tcpudp_magic` returns is a non-zero 16-bit word that completes the
host-order sum of its inputs to a multiple of `0xFFFF`. -/
theorem csum_tcpudp_magic_spec (saddr daddr len proto csum : Nat)
    (hs : saddr < 2 ^ 32) (hd : daddr < 2 ^ 32) (hc : csum < 2 ^ 32)
    (hl : proto + len < 65536) :
    0 < csum_tcpudp_magic saddr daddr len proto csum ∧
      csum_tcpudp_magic saddr daddr len proto csum ≤ 65535 ∧
      (csum + saddr + daddr + bpf_htons (proto + len) +
        csum_tcpudp_magic saddr daddr len proto csum) % 65535 = 0 := by
  unfold csum_tcpudp_magic
  have hh : bpf_htons (proto + len) < 65536 := by unfold bpf_htons; omega
  have hpl : (proto + len) % 2 ^ 32 = proto + len := Nat.mod_eq_of_lt (by omega)
  rw [hpl]
  generalize bpf_htons (proto + len) = h at hh ⊢
  have e1 : (csum + saddr) % 2 ^ 64 = csum + saddr := Nat.mod_eq_of_lt (by omega)
  have e2 : (csum + saddr + daddr) % 2 ^ 64 = csum + saddr + daddr :=
    Nat.mod_eq_of_lt (by omega)
  have e3 : (csum + saddr + daddr + h) % 2 ^ 64 = csum + saddr + daddr + h :=
    Nat.mod_eq_of_lt (by omega)
  simp only [e1, e2, e3]
  generalize hs0 : csum + saddr + daddr + h = s0
  have hs0b : s0 < 2 ^ 34 := by omega
  have e4 : (s0 % 2 ^ 32 + s0 / 2 ^ 32) % 2 ^ 64 = s0 % 2 ^ 32 + s0 / 2 ^ 32 :=
    Nat.mod_eq_of_lt (by omega)
  simp only [e4]
  generalize hs1 : s0 % 2 ^ 32 + s0 / 2 ^ 32 = s1
  have hs1b : s1 < 2 ^ 32 + 4 := by omega
  have hs1m : s1 % 65535 = s0 % 65535 := by omega
  have e5 : (s1 % 2 ^ 32 + s1 / 2 ^ 32) % 2 ^ 64 = s1 % 2 ^ 32 + s1 / 2 ^ 32 :=
    Nat.mod_eq_of_lt (by omega)
  simp only [e5]
  generalize hs2 : s1 % 2 ^ 32 + s1 / 2 ^ 32 = s2
  have hs2b : s2 < 2 ^ 32 := by omega
  have hs2m : s2 % 65535 = s1 % 65535 := by omega
  rw [Nat.mod_eq_of_lt hs2b]
  obtain ⟨f1, f2, f3⟩ := csum_fold_spec s2 hs2b
  generalize csum_fold s2 = f at f1 f2 f3 ⊢
  by_cases hf : f = 0
  · simp only [hf, ne_eq, not_true_eq_false, if_false]
    subst hf
    refine ⟨by omega, by omega, by omega⟩
  · simp only [hf, ne_eq, not_false_eq_true, if_true]
    refine ⟨by omega, by omega, by omega⟩

/-! ## The transcoders on a header that fits -/

theorem u8_le16_zero (j : Nat) : u8 (le16 0) j = 0 := by
  unfold u8 le16
  match j with
  | 0 => rfl
  | 1 => rfl
  | j + 2 => rfl

theorem length_le16 (v : Nat) : (le16 v).length = 2 := rfl

/-- Bytes of the frame after the header rewrite of `tcp_to_tinu` (the scratch overlay and
its store), for a header of `hlen` bytes at `T` that fits the buffer. -/
theorem u8_tinu_overlay (d : List Byte) (T hlen i : Nat) (lenb : List Byte)
    (hl2 : lenb.length = 2)
    (h20 : 20 ≤ hlen) (h60 : hlen ≤ 60) (hfit : T + hlen ≤ d.length) :
    u8 (wr d T ((wr (wr (wr (wr (List.replicate 60 (0 : Byte)) 0
        ((d.drop T).take hlen)) 4 lenb) 6 (le16 0)) 16
        ((d.drop (T + 4)).take 4)).take hlen)) i =
      if T + 4 ≤ i ∧ i < T + 6 then u8 lenb (i - (T + 4))
      else if T + 6 ≤ i ∧ i < T + 8 then 0
      else if T + 16 ≤ i ∧ i < T + 20 then u8 d (i - 12)
      else u8 d i := by
  simp only [u8_wr, u8_take, u8_drop, u8_replicate_zero, length_wr, List.length_take,
    List.length_drop, List.length_replicate, length_le16, hl2, u8_le16_zero]
  split_ifs <;> first
    | rfl
    | (exfalso; omega)
    | (congr 1; omega)

/-- Bytes of the frame after the header rewrite of `tinu_to_tcp`, for a header of `hlen`
bytes at `T` that fits the buffer. -/
theorem u8_tcp_overlay (d : List Byte) (T hlen i : Nat)
    (h20 : 20 ≤ hlen) (h60 : hlen ≤ 60) (hfit : T + hlen ≤ d.length) :
    u8 (wr d T ((wr (wr (wr (wr (List.replicate 60 (0 : Byte)) 0
        ((d.drop T).take hlen)) 4 ((d.drop (T + 16)).take 4)) 16 (le16 0)) 18
        (le16 0)).take hlen)) i =
      if T + 4 ≤ i ∧ i < T + 8 then u8 d (i + 12)
      else if T + 16 ≤ i ∧ i < T + 20 then 0
      else u8 d i := by
  simp only [u8_wr, u8_take, u8_drop, u8_replicate_zero, length_wr, List.length_take,
    List.length_drop, List.length_replicate, length_le16, u8_le16_zero]
  split_ifs <;> first
    | rfl
    | (exfalso; omega)
    | (congr 1; omega)

theorem ldbytes_of_le {d : List Byte} {off n : Nat} (h : off + n ≤ d.length) :
    ldbytes d off n = some ((d.drop off).take n) := by
  unfold ldbytes
  rw [if_pos h]

theorem le16At_le16 (v : Nat) : le16At (le16 v) 0 = v % 65536 := by
  unfold le16At le16 u8 byteOf
  simp only [List.getD_cons_zero, List.getD_cons_succ, Fin.ofNat]
  omega

theorem ntohs_htons (x : Nat) : bpf_ntohs (bpf_htons x) = x % 65536 := by
  unfold bpf_ntohs bpf_htons
  have hy : x % 65536 < 65536 := Nat.mod_lt _ (by decide)
  generalize x % 65536 = y at hy ⊢
  have h1 : (y % 256 * 256 + y / 256) % 65536 = y % 256 * 256 + y / 256 := by omega
  rw [h1]
  omega

theorem le32At_lt (d : List Byte) (off : Nat) : le32At d off < 2 ^ 32 := by
  unfold le32At le16At
  have := u8_lt d off
  have := u8_lt d (off + 1)
  have := u8_lt d (off + 2)
  have := u8_lt d (off + 2 + 1)
  omega

/-- The function `csum_partial` on a range checked against the real end of the buffer. -/
theorem csum_partial_total (d : List Byte) (buf len : Nat) :
    csum_partial d buf len d.length =
      some (if len > 1480 ∨ buf + len ≠ d.length then 0 else sumLEBytes d buf len) := by
  by_cases h : len > 1480 ∨ buf + len ≠ d.length
  · rw [if_pos h, csum_partial_zero d buf len _ h]
  · rw [if_neg h, csum_partial_eq d buf len (by omega) (by omega)]

/-- The function `udp_checksum` on a frame holding the IPv4 and UDP headers. -/
theorem udp_checksum_eq (skb : SkBuff) (T : Nat) (hT : T < 256)
    (h34 : 34 ≤ skb.data.length) (hT8 : T + 8 ≤ skb.data.length) :
    udp_checksum skb 14 T =
      some (csum_tcpudp_magic (le32At skb.data 26) (le32At skb.data 30)
        (bpf_ntohs (le16At skb.data (T + 4))) IPPROTO_UDP
        (if bpf_ntohs (le16At skb.data (T + 4)) > 1480 ∨
            T + bpf_ntohs (le16At skb.data (T + 4)) ≠ skb.data.length then 0
          else sumLEBytes skb.data T (bpf_ntohs (le16At skb.data (T + 4))))) := by
  unfold udp_checksum
  simp only [Nat.mod_eq_of_lt hT, show 14 % 256 = 14 from rfl, sizeof_iphdr, sizeof_udphdr]
  rw [if_neg (by omega)]
  simp only [ld16_of_lt (show T + 4 + 1 < skb.data.length by omega),
    Option.some_bind, csum_partial_total, ld32_of_lt (show 14 + 12 + 3 < skb.data.length by omega),
    ld32_of_lt (show 14 + 16 + 3 < skb.data.length by omega)]
  rfl

/-- The function `tcp_checksum` on a frame holding the IPv4 and TCP headers. -/
theorem tcp_checksum_eq (skb : SkBuff) (T L : Nat) (hT : T < 256)
    (h34 : 34 ≤ skb.data.length) (hT20 : T + 20 ≤ skb.data.length) :
    tcp_checksum skb 14 T L =
      some (csum_tcpudp_magic (le32At skb.data 26) (le32At skb.data 30)
        (L % 2 ^ 32) IPPROTO_TCP
        (if L % 65536 > 1480 ∨ T + L % 65536 ≠ skb.data.length then 0
          else sumLEBytes skb.data T (L % 65536))) := by
  unfold tcp_checksum
  simp only [Nat.mod_eq_of_lt hT, show 14 % 256 = 14 from rfl, sizeof_iphdr, sizeof_tcphdr]
  rw [if_neg (by omega)]
  simp only [Option.some_bind, csum_partial_total,
    ld32_of_lt (show 14 + 12 + 3 < skb.data.length by omega),
    ld32_of_lt (show 14 + 16 + 3 < skb.data.length by omega)]
  rfl

theorem length_tinuOverlay (d : List Byte) (T hlen : Nat) :
    (tinuOverlay d T hlen).length = d.length := length_wr _ _ _

theorem length_tcpOverlay (d : List Byte) (T hlen : Nat) :
    (tcpOverlay d T hlen).length = d.length := length_wr _ _ _

theorem length_ipv4Reproto (d : List Byte) (old new : Nat) :
    (ipv4Reproto d old new).length = d.length := by
  unfold ipv4Reproto
  rw [length_wr, length_wr]

theorem u8_tinuOverlay (d : List Byte) (T hlen i : Nat)
    (h20 : 20 ≤ hlen) (h60 : hlen ≤ 60) (hfit : T + hlen ≤ d.length) :
    u8 (tinuOverlay d T hlen) i =
      if T + 4 ≤ i ∧ i < T + 6 then u8 (le16 (bpf_htons (d.length - T))) (i - (T + 4))
      else if T + 6 ≤ i ∧ i < T + 8 then 0
      else if T + 16 ≤ i ∧ i < T + 20 then u8 d (i - 12)
      else u8 d i :=
  u8_tinu_overlay d T hlen i _ (length_le16 _) h20 h60 hfit

theorem u8_tcpOverlay (d : List Byte) (T hlen i : Nat)
    (h20 : 20 ≤ hlen) (h60 : hlen ≤ 60) (hfit : T + hlen ≤ d.length) :
    u8 (tcpOverlay d T hlen) i =
      if T + 4 ≤ i ∧ i < T + 8 then u8 d (i + 12)
      else if T + 16 ≤ i ∧ i < T + 20 then 0
      else u8 d i :=
  u8_tcp_overlay d T hlen i h20 h60 hfit

theorem u8_ipv4Reproto (d : List Byte) (old new i : Nat) (h : 26 ≤ d.length) :
    u8 (ipv4Reproto d old new) i =
      if i = 23 then new % 256
      else if 24 ≤ i ∧ i < 26 then
        u8 (le16 (csum_replace2 (le16At (wr d 23 [byteOf new]) 24) (bpf_htons old)
          (bpf_htons new))) (i - 24)
      else u8 d i := by
  unfold ipv4Reproto
  simp only [u8_wr, length_wr, length_le16, List.length_singleton]
  split_ifs <;> first
    | rfl
    | (exfalso; omega)
    | (have h23 : i = 23 := by omega
       subst h23
       rfl)

theorem udp_checksum_eq_udpCsumOf (skb : SkBuff) (T : Nat) (hT : T < 256)
    (h34 : 34 ≤ skb.data.length) (hT8 : T + 8 ≤ skb.data.length) :
    udp_checksum skb 14 T = some (udpCsumOf skb.data T) :=
  udp_checksum_eq skb T hT h34 hT8

theorem tcp_checksum_eq_tcpCsumOf (skb : SkBuff) (T L : Nat) (hT : T < 256)
    (h34 : 34 ≤ skb.data.length) (hT20 : T + 20 ≤ skb.data.length) :
    tcp_checksum skb 14 T L = some (tcpCsumOf skb.data T L) :=
  tcp_checksum_eq skb T L hT h34 hT20

theorem store_of_le (skb : SkBuff) (off : Nat) (src : List Byte) (len : Nat)
    (h : off + len ≤ skb.data.length) :
    bpf_skb_store_bytes skb off src len = ⟨wr skb.data off (src.take len), skb.gso_segs⟩ := by
  unfold bpf_skb_store_bytes
  rw [if_pos h]

theorem store_of_gt (skb : SkBuff) (off : Nat) (src : List Byte) (len : Nat)
    (h : skb.data.length < off + len) : bpf_skb_store_bytes skb off src len = skb := by
  unfold bpf_skb_store_bytes
  rw [if_neg (by omega)]

theorem load_of_le (skb : SkBuff) (off : Nat) (dst : List Byte) (len : Nat)
    (h : off + len ≤ skb.data.length) :
    bpf_skb_load_bytes skb off dst len = wr dst 0 ((skb.data.drop off).take len) := by
  unfold bpf_skb_load_bytes
  rw [if_pos h]

theorem l3_csum_replace_of_le (skb : SkBuff) (off old new : Nat)
    (h1 : off ≤ 0xffff) (h2 : off % 2 = 0) (h3 : off + 2 ≤ skb.data.length) :
    bpf_l3_csum_replace skb off old new =
      ⟨wr skb.data off (le16 (csum_replace2 (le16At skb.data off) old new)), skb.gso_segs⟩ := by
  unfold bpf_l3_csum_replace
  rw [if_neg (by omega)]
  rfl

/-- Closed form of `tcp_to_tinu` over IPv6 on a header that fits the buffer. -/
theorem tcp_to_tinu_v6_eq (skb : SkBuff) (T hlen : Nat)
    (h20 : 20 ≤ hlen) (hfit : T + hlen ≤ skb.data.length) (hT : 21 ≤ T) :
    tcp_to_tinu skb none (some 14) T (T + hlen) =
      some ⟨wr (tinuOverlay skb.data T hlen) 20 [byteOf 17], skb.gso_segs⟩ := by
  unfold tcp_to_tinu
  simp only [Nat.add_sub_cancel_left, load_of_le skb T _ hlen hfit,
    ldbytes_of_le (show T + 4 + 4 ≤ skb.data.length by omega), Option.some_bind,
    TCP_MAX_HEADER, IPPROTO_UDP, store_of_le skb T _ hlen hfit]
  rw [store_of_le _ _ _ _ (by simp only [length_wr]; omega)]
  rfl

/-- Closed form of `tcp_to_tinu` over IPv4 on a header that fits the buffer. -/
theorem tcp_to_tinu_v4_eq (skb : SkBuff) (T hlen : Nat)
    (h20 : 20 ≤ hlen) (hfit : T + hlen ≤ skb.data.length) (hT : 34 ≤ T) (hT2 : T < 256) :
    tcp_to_tinu skb (some 14) none T (T + hlen) =
      some ⟨wr (ipv4Reproto (tinuOverlay skb.data T hlen) 6 17) (T + 6)
        (le16 (udpCsumOf (ipv4Reproto (tinuOverlay skb.data T hlen) 6 17) T)),
        skb.gso_segs⟩ := by
  unfold tcp_to_tinu
  simp only [Nat.add_sub_cancel_left, load_of_le skb T _ hlen hfit,
    ldbytes_of_le (show T + 4 + 4 ≤ skb.data.length by omega), Option.some_bind,
    TCP_MAX_HEADER, IPPROTO_UDP, IPPROTO_TCP, store_of_le skb T _ hlen hfit]
  rw [store_of_le _ (14 + 9) _ _ (by simp only [length_wr]; omega)]
  rw [l3_csum_replace_of_le _ _ _ _ (by decide) (by decide) (by simp only [length_wr]; omega)]
  rw [udp_checksum_eq_udpCsumOf _ _ hT2 (by simp only [length_wr]; omega)
    (by simp only [length_wr]; omega)]
  rw [Option.some_bind, store_of_le _ _ _ _ (by simp only [length_wr, length_le16]; omega)]
  rfl

/-- Closed form of `tinu_to_tcp` over IPv6 on a header that fits the buffer. -/
theorem tinu_to_tcp_v6_eq (skb : SkBuff) (T hlen : Nat)
    (h20 : 20 ≤ hlen) (hfit : T + hlen ≤ skb.data.length) (hT : 21 ≤ T) :
    tinu_to_tcp skb none (some 14) T (T + hlen) =
      some ⟨wr (tcpOverlay skb.data T hlen) 20 [byteOf 6], skb.gso_segs⟩ := by
  unfold tinu_to_tcp
  simp only [Nat.add_sub_cancel_left, load_of_le skb T _ hlen hfit,
    ldbytes_of_le (show T + 16 + 4 ≤ skb.data.length by omega), Option.some_bind,
    TCP_MAX_HEADER, IPPROTO_TCP, store_of_le skb T _ hlen hfit]
  rw [store_of_le _ _ _ _ (by simp only [length_wr]; omega)]
  rfl

/-- Closed form of `tinu_to_tcp` over IPv4 on a header that fits the buffer. -/
theorem tinu_to_tcp_v4_eq (skb : SkBuff) (T hlen : Nat)
    (h20 : 20 ≤ hlen) (hfit : T + hlen ≤ skb.data.length) (hT : 34 ≤ T) (hT2 : T < 256) :
    tinu_to_tcp skb (some 14) none T (T + hlen) =
      some ⟨wr (ipv4Reproto (tcpOverlay skb.data T hlen) 17 6) (T + 16)
        (le16 (tcpCsumOf (ipv4Reproto (tcpOverlay skb.data T hlen) 17 6) T
          (skb.data.length - T))),
        skb.gso_segs⟩ := by
  unfold tinu_to_tcp
  simp only [Nat.add_sub_cancel_left, load_of_le skb T _ hlen hfit,
    ldbytes_of_le (show T + 16 + 4 ≤ skb.data.length by omega), Option.some_bind,
    TCP_MAX_HEADER, IPPROTO_UDP, IPPROTO_TCP, store_of_le skb T _ hlen hfit]
  rw [store_of_le _ (14 + 9) _ _ (by simp only [length_wr]; omega)]
  rw [l3_csum_replace_of_le _ _ _ _ (by decide) (by decide) (by simp only [length_wr]; omega)]
  rw [tcp_checksum_eq_tcpCsumOf _ _ _ hT2 (by simp only [length_wr]; omega)
    (by simp only [length_wr]; omega)]
  rw [Option.some_bind, store_of_le _ _ _ _ (by simp only [length_wr, length_le16]; omega)]
  rfl

/-! ## Eligible frames -/

theorem dataOffset_le (d : List Byte) : dataOffset d * 4 ≤ 60 := by
  unfold dataOffset
  omega

theorem ihl_le (d : List Byte) : ihl d ≤ 15 := by
  unfold ihl
  omega

/-- The two shapes of an eligible frame: IPv4 with the transport header at
`14 + ihl * 4` in `34 .. 74`, or IPv6 with the transport header at 54. -/
theorem eligible_cases {d : List Byte} {dir : direction} {sd : side}
    (h : Eligible d dir sd) :
    (be16 d 12 = ETH_P_IP ∧ 34 ≤ transportOffset d ∧ transportOffset d < 256 ∧
        iphdrOf d = some 14 ∧ ipv6hdrOf d = none ∧ protoOffset d = 23) ∨
      (be16 d 12 ≠ ETH_P_IP ∧ transportOffset d = 54 ∧
        iphdrOf d = none ∧ ipv6hdrOf d = some 14 ∧ protoOffset d = 20) := by
  obtain ⟨⟨h1, -⟩, h2, -⟩ := h
  by_cases h4 : be16 d 12 = ETH_P_IP
  · left
    have := h2 h4
    have := ihl_le d
    refine ⟨h4, ?_, ?_, ?_, ?_, ?_⟩
    · unfold transportOffset; rw [if_pos h4]; omega
    · unfold transportOffset; rw [if_pos h4]; omega
    · unfold iphdrOf; rw [if_pos h4]
    · unfold ipv6hdrOf; rw [if_pos h4]
    · unfold protoOffset; rw [if_pos h4]
  · right
    refine ⟨h4, ?_, ?_, ?_, ?_⟩
    · unfold transportOffset; rw [if_neg h4]
    · unfold iphdrOf; rw [if_neg h4]
    · unfold ipv6hdrOf; rw [if_neg h4]
    · unfold protoOffset; rw [if_neg h4]

/-- On an eligible frame the transcoder of the direction returns its closed form. -/
theorem transcode_eq (skb : SkBuff) (dir : direction) (sd : side)
    (h : Eligible skb.data dir sd) :
    transcode skb dir = some ⟨transcodeOut skb.data dir, skb.gso_segs⟩ := by
  have hc := eligible_cases h
  obtain ⟨⟨-, -, -, hd, -⟩, -, hfit⟩ := h
  have h20 : 20 ≤ dataOffset skb.data * 4 := by omega
  rcases hc with ⟨h4, hT, hT2, hip, hip6, -⟩ | ⟨h4, hT, hip, hip6, -⟩
  · cases dir
    · simp only [transcode, transcodeOut, egressOut, hip, hip6, if_pos h4]
      exact tcp_to_tinu_v4_eq skb _ _ h20 hfit hT hT2
    · simp only [transcode, transcodeOut, ingressOut, hip, hip6, if_pos h4]
      exact tinu_to_tcp_v4_eq skb _ _ h20 hfit hT hT2
  · cases dir
    · simp only [transcode, transcodeOut, egressOut, hip, hip6, if_neg h4]
      exact tcp_to_tinu_v6_eq skb _ _ h20 hfit (by omega)
    · simp only [transcode, transcodeOut, ingressOut, hip, hip6, if_neg h4]
      exact tinu_to_tcp_v6_eq skb _ _ h20 hfit (by omega)

/-- On an eligible frame without urgent data and with one segment, `tc_action` returns
`TC_ACT_OK` and the closed form of the transcoded frame. -/
theorem tc_action_eligible (skb : SkBuff) (dir : direction) (sd : side)
    (h : Eligible skb.data dir sd) (hurg : dir = direction.EGRESS → urgFlag skb.data = 0)
    (hsegs : skb.gso_segs ≤ 1) :
    tc_action skb dir sd = some (TC_ACT_OK, ⟨transcodeOut skb.data dir, skb.gso_segs⟩) := by
  rw [tc_action_eq, if_pos ⟨h.1, hurg, hsegs⟩, transcode_eq skb dir sd h]
  rfl

theorem length_transcodeOut (d : List Byte) (dir : direction) :
    (transcodeOut d dir).length = d.length := by
  cases dir
  · simp only [transcodeOut, egressOut]
    split <;> simp only [length_wr, length_ipv4Reproto, length_tinuOverlay]
  · simp only [transcodeOut, ingressOut]
    split <;> simp only [length_wr, length_ipv4Reproto, length_tcpOverlay]

/-- Bytes of the egress output: the protocol byte is 17; outside the protocol byte, the
IPv4 header checksum and transport bytes 4..7, a byte equals the input byte, except that
transport bytes 16..19 hold the input's transport bytes 4..7. -/
theorem u8_egressOut {d : List Byte} {sd : side} (h : Eligible d direction.EGRESS sd) :
    u8 (egressOut d) (protoOffset d) = 17 ∧
    ∀ i, i ≠ protoOffset d → ¬ (be16 d 12 = ETH_P_IP ∧ 24 ≤ i ∧ i < 26) →
      ¬ (transportOffset d + 4 ≤ i ∧ i < transportOffset d + 8) →
      u8 (egressOut d) i =
        if transportOffset d + 16 ≤ i ∧ i < transportOffset d + 20 then u8 d (i - 12)
        else u8 d i := by
  have hc := eligible_cases h
  obtain ⟨⟨-, -, hfix, hd, -⟩, -, hfit⟩ := h
  have h20 : 20 ≤ dataOffset d * 4 := by omega
  have h60 := dataOffset_le d
  rcases hc with ⟨h4, hT, hT2, -, -, hP⟩ | ⟨h4, hT, -, -, hP⟩
  · simp only [egressOut, if_pos h4, hP, u8_wr, length_ipv4Reproto, length_tinuOverlay,
      length_le16, u8_ipv4Reproto _ _ _ _ (show 26 ≤ (tinuOverlay d (transportOffset d)
        (dataOffset d * 4)).length by rw [length_tinuOverlay]; omega),
      fun i => u8_tinuOverlay d (transportOffset d) (dataOffset d * 4) i h20 h60 hfit]
    refine ⟨?_, ?_⟩
    · rw [if_neg (by omega), if_pos trivial]
    · intro i h1 h2 h3
      split_ifs <;> first
        | rfl
        | (exfalso; omega)
  · simp only [egressOut, if_neg h4, hP, u8_wr, length_tinuOverlay, List.length_singleton,
      fun i => u8_tinuOverlay d (transportOffset d) (dataOffset d * 4) i h20 h60 hfit]
    refine ⟨?_, ?_⟩
    · rw [if_pos (by omega)]
      rfl
    · intro i h1 h2 h3
      split_ifs <;> first
        | rfl
        | (exfalso; omega)

/-- Bytes of the ingress output: the protocol byte is 6; outside the protocol byte, the
IPv4 header checksum and transport bytes 16..19, a byte equals the input byte, except
that transport bytes 4..7 hold the input's transport bytes 16..19. -/
theorem u8_ingressOut {d : List Byte} {sd : side} (h : Eligible d direction.INGRESS sd) :
    u8 (ingressOut d) (protoOffset d) = 6 ∧
    ∀ i, i ≠ protoOffset d → ¬ (be16 d 12 = ETH_P_IP ∧ 24 ≤ i ∧ i < 26) →
      ¬ (transportOffset d + 16 ≤ i ∧ i < transportOffset d + 20) →
      u8 (ingressOut d) i =
        if transportOffset d + 4 ≤ i ∧ i < transportOffset d + 8 then u8 d (i + 12)
        else u8 d i := by
  have hc := eligible_cases h
  obtain ⟨⟨-, -, hfix, hd, -⟩, -, hfit⟩ := h
  have h20 : 20 ≤ dataOffset d * 4 := by omega
  have h60 := dataOffset_le d
  rcases hc with ⟨h4, hT, hT2, -, -, hP⟩ | ⟨h4, hT, -, -, hP⟩
  · simp only [ingressOut, if_pos h4, hP, u8_wr, length_ipv4Reproto, length_tcpOverlay,
      length_le16, u8_ipv4Reproto _ _ _ _ (show 26 ≤ (tcpOverlay d (transportOffset d)
        (dataOffset d * 4)).length by rw [length_tcpOverlay]; omega),
      fun i => u8_tcpOverlay d (transportOffset d) (dataOffset d * 4) i h20 h60 hfit]
    refine ⟨?_, ?_⟩
    · rw [if_neg (by omega), if_pos trivial]
    · intro i h1 h2 h3
      split_ifs <;> first
        | rfl
        | (exfalso; omega)
  · simp only [ingressOut, if_neg h4, hP, u8_wr, length_tcpOverlay, List.length_singleton,
      fun i => u8_tcpOverlay d (transportOffset d) (dataOffset d * 4) i h20 h60 hfit]
    refine ⟨?_, ?_⟩
    · rw [if_pos (by omega)]
      rfl
    · intro i h1 h2 h3
      split_ifs <;> first
        | rfl
        | (exfalso; omega)

theorem be16_le16_htons (x : Nat) :
    256 * u8 (le16 (bpf_htons x)) 0 + u8 (le16 (bpf_htons x)) 1 = x % 65536 := by
  have hy : x % 65536 < 65536 := Nat.mod_lt _ (by decide)
  unfold le16 u8 byteOf bpf_htons
  simp only [List.getD_cons_zero, List.getD_cons_succ, Fin.ofNat]
  generalize x % 65536 = y at hy ⊢
  have h1 : (y % 256 * 256 + y / 256) % 256 = y / 256 := by omega
  have h2 : (y % 256 * 256 + y / 256) / 256 = y % 256 := by omega
  rw [h1, h2]
  omega

/-- The UDP length field of the egress output is the distance from the transport header
to the end of the buffer, as a 16-bit value. -/
theorem egressOut_len {d : List Byte} {sd : side} (h : Eligible d direction.EGRESS sd) :
    be16 (egressOut d) (transportOffset d + 4) = (d.length - transportOffset d) % 65536 := by
  have hc := eligible_cases h
  obtain ⟨⟨-, -, hfix, hd, -⟩, -, hfit⟩ := h
  have h20 : 20 ≤ dataOffset d * 4 := by omega
  have h60 := dataOffset_le d
  rw [← be16_le16_htons]
  unfold be16
  rcases hc with ⟨h4, hT, hT2, -, -, hP⟩ | ⟨h4, hT, -, -, hP⟩
  · simp only [egressOut, if_pos h4, hP, u8_wr, length_ipv4Reproto, length_tinuOverlay,
      length_le16, u8_ipv4Reproto _ _ _ _ (show 26 ≤ (tinuOverlay d (transportOffset d)
        (dataOffset d * 4)).length by rw [length_tinuOverlay]; omega),
      fun i => u8_tinuOverlay d (transportOffset d) (dataOffset d * 4) i h20 h60 hfit]
    rw [if_neg (by omega), if_neg (by omega), if_neg (by omega), if_pos (by omega),
      if_neg (by omega), if_neg (by omega), if_neg (by omega), if_pos (by omega)]
    simp only [Nat.sub_self, Nat.add_sub_cancel_left]
  · simp only [egressOut, if_neg h4, hP, u8_wr, length_tinuOverlay, List.length_singleton,
      fun i => u8_tinuOverlay d (transportOffset d) (dataOffset d * 4) i h20 h60 hfit]
    rw [if_neg (by omega), if_pos (by omega), if_neg (by omega), if_pos (by omega)]
    simp only [Nat.sub_self, Nat.add_sub_cancel_left]

/-- The urgent pointer of the ingress output is zero. -/
theorem ingressOut_urg {d : List Byte} {sd : side} (h : Eligible d direction.INGRESS sd) :
    u8 (ingressOut d) (transportOffset d + 18) = 0 ∧
      u8 (ingressOut d) (transportOffset d + 19) = 0 := by
  have hc := eligible_cases h
  obtain ⟨⟨-, -, hfix, hd, -⟩, -, hfit⟩ := h
  have h20 : 20 ≤ dataOffset d * 4 := by omega
  have h60 := dataOffset_le d
  rcases hc with ⟨h4, hT, hT2, -, -, hP⟩ | ⟨h4, hT, -, -, hP⟩
  · simp only [ingressOut, if_pos h4, hP, u8_wr, length_ipv4Reproto, length_tcpOverlay,
      length_le16, u8_ipv4Reproto _ _ _ _ (show 26 ≤ (tcpOverlay d (transportOffset d)
        (dataOffset d * 4)).length by rw [length_tcpOverlay]; omega),
      fun i => u8_tcpOverlay d (transportOffset d) (dataOffset d * 4) i h20 h60 hfit]
    constructor <;>
      rw [if_neg (by omega), if_neg (by omega), if_neg (by omega), if_neg (by omega),
        if_pos (by omega)]
  · simp only [ingressOut, if_neg h4, hP, u8_wr, length_tcpOverlay, List.length_singleton,
      fun i => u8_tcpOverlay d (transportOffset d) (dataOffset d * 4) i h20 h60 hfit]
    constructor <;> rw [if_neg (by omega), if_neg (by omega), if_pos (by omega)]

/-- The egress output of an eligible frame is eligible for ingress at the peer role, with
the same header offsets. -/
theorem egressOut_eligible {d : List Byte} {sd : side} (h : Eligible d direction.EGRESS sd) :
    Eligible (egressOut d) direction.INGRESS (peer sd) ∧
      be16 (egressOut d) 12 = be16 d 12 ∧
      transportOffset (egressOut d) = transportOffset d ∧
      protoOffset (egressOut d) = protoOffset d := by
  have hc := eligible_cases h
  obtain ⟨hproto, hbytes⟩ := u8_egressOut h
  have hlen : (egressOut d).length = d.length := length_transcodeOut d direction.EGRESS
  obtain ⟨⟨het, hpr, hfix, hd, hport⟩, hihl, hfit⟩ := h
  have hT34 : 34 ≤ transportOffset d := by
    rcases hc with ⟨-, hT, -⟩ | ⟨-, hT, -⟩ <;> omega
  have hP : protoOffset d = 23 ∨ protoOffset d = 20 := by
    rcases hc with ⟨-, -, -, -, -, hP⟩ | ⟨-, -, -, -, hP⟩ <;> omega
  have same : ∀ i, (i < 20 ∨ (transportOffset d ≤ i ∧ i < transportOffset d + 4) ∨
      (transportOffset d + 8 ≤ i ∧ i < transportOffset d + 16)) →
      u8 (egressOut d) i = u8 d i := by
    intro i hi
    rw [hbytes i (by omega) (by omega) (by omega), if_neg (by omega)]
  have e12 : be16 (egressOut d) 12 = be16 d 12 := by
    unfold be16
    rw [same 12 (by omega), same 13 (by omega)]
  have eihl : ihl (egressOut d) = ihl d := by
    unfold ihl
    rw [same 14 (by omega)]
  have eT : transportOffset (egressOut d) = transportOffset d := by
    unfold transportOffset
    rw [e12, eihl]
  have eP : protoOffset (egressOut d) = protoOffset d := by
    unfold protoOffset
    rw [e12]
  have eD : dataOffset (egressOut d) = dataOffset d := by
    unfold dataOffset
    rw [eT, same _ (by omega)]
  refine ⟨⟨⟨?_, ?_, ?_, ?_, ?_⟩, ?_, ?_⟩, e12, eT, eP⟩
  · rw [e12]; exact het
  · rw [eP, hproto]; rfl
  · rw [eT, hlen]; exact hfix
  · rw [eD]; exact hd
  · rw [← hport]
    cases sd <;>
      simp only [operativePort, peer, be16, eT] <;>
      rw [same _ (by omega), same _ (by omega)]
  · rw [e12, eihl]; exact hihl
  · rw [eT, eD, hlen]; exact hfit

/-! ## Checksum validity -/

theorem sumBE_mod (d : List Byte) (p n : Nat) :
    sumBE d p n % 65535 = (256 * sumLE d p n) % 65535 := by
  induction n with
  | zero => rfl
  | succ n ih =>
    rw [sumBE, sumLE, be16]
    omega

theorem le16At_wr_le16 (d : List Byte) (q c : Nat) (hq : q + 2 ≤ d.length) :
    le16At (wr d q (le16 c)) q = c % 65536 := by
  rw [← le16At_le16 c]
  unfold le16At
  simp only [u8_wr, length_le16]
  rw [if_pos (by omega), if_pos (by omega), Nat.sub_self, Nat.add_sub_cancel_left]

/-- Storing a 16-bit value over word `k` of a range changes the host-order word sum of
the range by the difference of the two words. -/
theorem sumLE_wr_word (d : List Byte) (p n k c : Nat) (hk : k < n)
    (hq : p + 2 * k + 2 ≤ d.length) :
    sumLE (wr d (p + 2 * k) (le16 c)) p n + le16At d (p + 2 * k) =
      sumLE d p n + c % 65536 := by
  induction n with
  | zero => omega
  | succ n ih =>
    rw [sumLE, sumLE]
    by_cases hkn : k = n
    · subst hkn
      have hpre : sumLE (wr d (p + 2 * k) (le16 c)) p k = sumLE d p k := by
        apply sumLE_congr
        intro j hj
        rw [u8_wr, if_neg (by omega)]
      have hw := le16At_wr_le16 d (p + 2 * k) c hq
      unfold le16At at hw ⊢
      rw [hpre]
      omega
    · have := ih (by omega)
      have h1 : u8 (wr d (p + 2 * k) (le16 c)) (p + 2 * n) = u8 d (p + 2 * n) := by
        rw [u8_wr, if_neg (by simp only [length_le16]; omega)]
      have h2 : u8 (wr d (p + 2 * k) (le16 c)) (p + 2 * n + 1) = u8 d (p + 2 * n + 1) := by
        rw [u8_wr, if_neg (by simp only [length_le16]; omega)]
      rw [h1, h2]
      omega

theorem onesSum_mod (d : List Byte) (p len : Nat) :
    onesSum d p len % 65535 = (256 * sumLEBytes d p len) % 65535 := by
  unfold onesSum sumLEBytes
  have := sumBE_mod d p (len / 2)
  split <;> omega

theorem bpf_htons_mod (x : Nat) (hx : x < 65536) : (256 * bpf_htons x) % 65535 = x % 65535 := by
  unfold bpf_htons
  rw [Nat.mod_eq_of_lt hx]
  omega

theorem foldCarry_eq (fuel s : Nat) (hf : s ≤ fuel) (hpos : 0 < s) (hmod : s % 65535 = 0) :
    foldCarry fuel s = 65535 := by
  induction fuel generalizing s with
  | zero => omega
  | succ fuel ih =>
    rw [foldCarry]
    by_cases hs : s < 65536
    · rw [if_pos hs]
      omega
    · rw [if_neg hs]
      exact ih _ (by omega) (by omega) (by omega)

/-- A positive sum that is a multiple of `0xFFFF` folds to `0xFFFF`. -/
theorem onesFold_eq (s : Nat) (hpos : 0 < s) (hmod : s % 65535 = 0) : onesFold s = 65535 :=
  foldCarry_eq s s (Nat.le_refl _) hpos hmod

theorem fold_arith (B X slc hv pl os : Nat) (hA : B % 65535 = (256 * X) % 65535)
    (hc3 : (slc + hv + X) % 65535 = 0) (hos : os % 65535 = (256 * slc) % 65535)
    (hh : (256 * hv) % 65535 = pl % 65535) : (B + pl + os) % 65535 = 0 := by
  omega

/-- Storing the value of `csum_tcpudp_magic` over a zeroed, word-aligned checksum field
at transport offset `off` makes the transport checksum of the frame verify, for a
transport length within the ceiling of `csum_partial`; the stored field is not zero. -/
theorem checksumValid_of_store (mid : List Byte) (T L off proto : Nat)
    (hlen : T + L = mid.length) (hT : 34 ≤ T) (hL : L ≤ 1480) (hproto : proto < 256)
    (hoff : off % 2 = 0) (hoffL : off + 2 ≤ L)
    (hz0 : u8 mid (T + off) = 0) (hz1 : u8 mid (T + off + 1) = 0) :
    ChecksumValid (wr mid (T + off) (le16 ( csum_tcpudp_magic (le32At mid 26) (le32At mid 30)
        L proto (sumLEBytes mid T L)))) T proto ∧
      be16 (wr mid (T + off) (le16 ( csum_tcpudp_magic (le32At mid 26) (le32At mid 30)
        L proto (sumLEBytes mid T L)))) (T + off) ≠ 0 := by
  have hSb : sumLEBytes mid T L < 2 ^ 32 := by
    unfold sumLEBytes
    have := sumLE_le mid T (L / 2)
    have := u8_lt mid (T + L - 1)
    split <;> omega
  obtain ⟨hc0, hc1, hc2⟩ := csum_tcpudp_magic_spec (le32At mid 26) (le32At mid 30) L proto
    (sumLEBytes mid T L) (le32At_lt _ _) (le32At_lt _ _) hSb (by omega)
  generalize csum_tcpudp_magic (le32At mid 26) (le32At mid 30) L proto
    (sumLEBytes mid T L) = c at hc0 hc1 hc2 ⊢
  have hcm : c % 65536 = c := Nat.mod_eq_of_lt (by omega)
  -- bytes outside the stored word are those of `mid`
  have hsame : ∀ i, ¬ (T + off ≤ i ∧ i < T + off + 2) →
      u8 (wr mid (T + off) (le16 c)) i = u8 mid i := by
    intro i hi
    rw [u8_wr, if_neg (by simp only [length_le16]; omega)]
  have hword := le16At_wr_le16 mid (T + off) c (by omega)
  -- the host-order sum of the output
  have hsum : sumLEBytes (wr mid (T + off) (le16 c)) T L = sumLEBytes mid T L + c := by
    unfold sumLEBytes
    have hk : T + off = T + 2 * (off / 2) := by omega
    have h1 := sumLE_wr_word mid T (L / 2) (off / 2) c (by omega) (by omega)
    rw [← hk] at h1
    have h2 : le16At mid (T + off) = 0 := by
      unfold le16At
      rw [hz0, hz1]
    rw [h2, hcm] at h1
    by_cases hodd : L % 2 = 1
    · rw [if_pos hodd, if_pos hodd, hsame (T + L - 1) (by omega)]
      omega
    · rw [if_neg hodd, if_neg hodd]
      omega
  have hlen2 : (wr mid (T + off) (le16 c)).length = mid.length := length_wr _ _ _
  have hLe : (wr mid (T + off) (le16 c)).length - T = L := by omega
  constructor
  · unfold ChecksumValid transportSum
    rw [hLe]
    apply onesFold_eq
    · omega
    · have hos := onesSum_mod (wr mid (T + off) (le16 c)) T L
      rw [hsum] at hos
      have hh := bpf_htons_mod (proto + L) (by omega)
      generalize onesSum (wr mid (T + off) (le16 c)) T L = os at hos ⊢
      have hA : (be16 mid 26 + be16 mid 28 + be16 mid 30 + be16 mid 32) % 65535 =
          (256 * (le32At mid 26 + le32At mid 30)) % 65535 := by
        unfold be16 le32At le16At
        simp only [Nat.reduceAdd]
        have := u8_lt mid 26
        have := u8_lt mid 27
        have := u8_lt mid 28
        have := u8_lt mid 29
        have := u8_lt mid 30
        have := u8_lt mid 31
        have := u8_lt mid 32
        have := u8_lt mid 33
        omega
      have hB : be16 (wr mid (T + off) (le16 c)) 26 + be16 (wr mid (T + off) (le16 c)) 28 +
          be16 (wr mid (T + off) (le16 c)) 30 + be16 (wr mid (T + off) (le16 c)) 32 =
          be16 mid 26 + be16 mid 28 + be16 mid 30 + be16 mid 32 := by
        unfold be16
        rw [hsame 26 (by omega), hsame 27 (by omega), hsame 28 (by omega),
          hsame 29 (by omega), hsame 30 (by omega), hsame 31 (by omega),
          hsame 32 (by omega), hsame 33 (by omega)]
      have hc3 : (sumLEBytes mid T L + c + bpf_htons (proto + L) +
          (le32At mid 26 + le32At mid 30)) % 65535 = 0 := by
        rw [← hc2]
        congr 1
        omega
      have hgoal : be16 (wr mid (T + off) (le16 c)) 26 + be16 (wr mid (T + off) (le16 c)) 28 +
          be16 (wr mid (T + off) (le16 c)) 30 + be16 (wr mid (T + off) (le16 c)) 32 +
          proto + L + os =
          (be16 mid 26 + be16 mid 28 + be16 mid 30 + be16 mid 32) + (proto + L) + os := by
        rw [hB]
        omega
      rw [hgoal]
      exact fold_arith _ _ _ _ _ _ hA hc3 hos hh
  · unfold le16At at hword
    unfold be16
    have := u8_lt (wr mid (T + off) (le16 c)) (T + off)
    have := u8_lt (wr mid (T + off) (le16 c)) (T + off + 1)
    omega

/-- Over IPv4 and within the ceiling, the UDP checksum of the egress output verifies and
its stored field is not zero. -/
theorem egressOut_checksum {d : List Byte} {sd : side} (h : Eligible d direction.EGRESS sd)
    (h4 : be16 d 12 = ETH_P_IP) (hL : d.length - transportOffset d ≤ 1480) :
    ChecksumValid (egressOut d) (transportOffset d) 17 ∧
      be16 (egressOut d) (transportOffset d + 6) ≠ 0 := by
  have hc := eligible_cases h
  obtain ⟨⟨-, -, hfix, hd, -⟩, -, hfit⟩ := h
  have h20 : 20 ≤ dataOffset d * 4 := by omega
  have h60 := dataOffset_le d
  rcases hc with ⟨-, hT, hT2, -, -, -⟩ | ⟨h6, -⟩
  swap
  · exact absurd h4 h6
  have hmid : ∀ i, u8 (ipv4Reproto (tinuOverlay d (transportOffset d) (dataOffset d * 4)) 6 17) i =
      if i = 23 then 17 % 256
      else if 24 ≤ i ∧ i < 26 then
        u8 (le16 (csum_replace2 (le16At (wr (tinuOverlay d (transportOffset d)
          (dataOffset d * 4)) 23 [byteOf 17]) 24) (bpf_htons 6) (bpf_htons 17))) (i - 24)
      else if transportOffset d + 4 ≤ i ∧ i < transportOffset d + 6 then
        u8 (le16 (bpf_htons (d.length - transportOffset d))) (i - (transportOffset d + 4))
      else if transportOffset d + 6 ≤ i ∧ i < transportOffset d + 8 then 0
      else if transportOffset d + 16 ≤ i ∧ i < transportOffset d + 20 then u8 d (i - 12)
      else u8 d i := by
    intro i
    rw [u8_ipv4Reproto _ _ _ _ (by rw [length_tinuOverlay]; omega),
      u8_tinuOverlay d _ _ i h20 h60 hfit]
  have hlenm : (ipv4Reproto (tinuOverlay d (transportOffset d) (dataOffset d * 4)) 6 17).length
      = d.length := by rw [length_ipv4Reproto, length_tinuOverlay]
  have hlenf : bpf_ntohs (le16At (ipv4Reproto (tinuOverlay d (transportOffset d)
      (dataOffset d * 4)) 6 17) (transportOffset d + 4)) = d.length - transportOffset d := by
    have e : le16At (ipv4Reproto (tinuOverlay d (transportOffset d)
        (dataOffset d * 4)) 6 17) (transportOffset d + 4) =
        le16At (le16 (bpf_htons (d.length - transportOffset d))) 0 := by
      unfold le16At
      rw [hmid, hmid, if_neg (by omega), if_neg (by omega), if_pos (by omega),
        if_neg (by omega), if_neg (by omega), if_pos (by omega)]
      simp only [Nat.sub_self, Nat.add_sub_cancel_left, Nat.zero_add]
    have hb : bpf_htons (d.length - transportOffset d) < 65536 := by
      unfold bpf_htons
      omega
    rw [e, le16At_le16, Nat.mod_eq_of_lt hb, ntohs_htons, Nat.mod_eq_of_lt (by omega)]
  have hcs : udpCsumOf (ipv4Reproto (tinuOverlay d (transportOffset d)
      (dataOffset d * 4)) 6 17) (transportOffset d) =
      csum_tcpudp_magic (le32At (ipv4Reproto (tinuOverlay d (transportOffset d)
        (dataOffset d * 4)) 6 17) 26) (le32At (ipv4Reproto (tinuOverlay d (transportOffset d)
        (dataOffset d * 4)) 6 17) 30) (d.length - transportOffset d) 17
        (sumLEBytes (ipv4Reproto (tinuOverlay d (transportOffset d)
        (dataOffset d * 4)) 6 17) (transportOffset d) (d.length - transportOffset d)) := by
    unfold udpCsumOf
    rw [hlenf, if_neg (by omega)]
    rfl
  simp only [egressOut, if_pos h4]
  rw [hcs]
  exact checksumValid_of_store _ _ _ 6 17 (by omega) hT hL (by decide) (by decide) (by omega)
    (by rw [hmid, if_neg (by omega), if_neg (by omega), if_neg (by omega), if_pos (by omega)])
    (by rw [hmid, if_neg (by omega), if_neg (by omega), if_neg (by omega), if_pos (by omega)])

/-- Over IPv4 and within the ceiling, the TCP checksum of the ingress output verifies and
its stored field is not zero. -/
theorem ingressOut_checksum {d : List Byte} {sd : side} (h : Eligible d direction.INGRESS sd)
    (h4 : be16 d 12 = ETH_P_IP) (hL : d.length - transportOffset d ≤ 1480) :
    ChecksumValid (ingressOut d) (transportOffset d) 6 ∧
      be16 (ingressOut d) (transportOffset d + 16) ≠ 0 := by
  have hc := eligible_cases h
  obtain ⟨⟨-, -, hfix, hd, -⟩, -, hfit⟩ := h
  have h20 : 20 ≤ dataOffset d * 4 := by omega
  have h60 := dataOffset_le d
  rcases hc with ⟨-, hT, hT2, -, -, -⟩ | ⟨h6, -⟩
  swap
  · exact absurd h4 h6
  have hmid : ∀ i, u8 (ipv4Reproto (tcpOverlay d (transportOffset d) (dataOffset d * 4)) 17 6) i =
      if i = 23 then 6 % 256
      else if 24 ≤ i ∧ i < 26 then
        u8 (le16 (csum_replace2 (le16At (wr (tcpOverlay d (transportOffset d)
          (dataOffset d * 4)) 23 [byteOf 6]) 24) (bpf_htons 17) (bpf_htons 6))) (i - 24)
      else if transportOffset d + 4 ≤ i ∧ i < transportOffset d + 8 then u8 d (i + 12)
      else if transportOffset d + 16 ≤ i ∧ i < transportOffset d + 20 then 0
      else u8 d i := by
    intro i
    rw [u8_ipv4Reproto _ _ _ _ (by rw [length_tcpOverlay]; omega),
      u8_tcpOverlay d _ _ i h20 h60 hfit]
  have hlenm : (ipv4Reproto (tcpOverlay d (transportOffset d) (dataOffset d * 4)) 17 6).length
      = d.length := by rw [length_ipv4Reproto, length_tcpOverlay]
  have hcs : tcpCsumOf (ipv4Reproto (tcpOverlay d (transportOffset d)
      (dataOffset d * 4)) 17 6) (transportOffset d) (d.length - transportOffset d) =
      csum_tcpudp_magic (le32At (ipv4Reproto (tcpOverlay d (transportOffset d)
        (dataOffset d * 4)) 17 6) 26) (le32At (ipv4Reproto (tcpOverlay d (transportOffset d)
        (dataOffset d * 4)) 17 6) 30) (d.length - transportOffset d) 6
        (sumLEBytes (ipv4Reproto (tcpOverlay d (transportOffset d)
        (dataOffset d * 4)) 17 6) (transportOffset d) (d.length - transportOffset d)) := by
    unfold tcpCsumOf
    rw [Nat.mod_eq_of_lt (show d.length - transportOffset d < 65536 by omega),
      Nat.mod_eq_of_lt (show d.length - transportOffset d < 2 ^ 32 by omega),
      if_neg (by omega)]
    rfl
  simp only [ingressOut, if_pos h4]
  rw [hcs]
  exact checksumValid_of_store _ _ _ 16 6 (by omega) hT hL (by decide) (by decide) (by omega)
    (by rw [hmid, if_neg (by omega), if_neg (by omega), if_neg (by omega), if_pos (by omega)])
    (by rw [hmid, if_neg (by omega), if_neg (by omega), if_neg (by omega), if_pos (by omega)])

theorem length_egressOut (d : List Byte) : (egressOut d).length = d.length :=
  length_transcodeOut d direction.EGRESS

theorem length_ingressOut (d : List Byte) : (ingressOut d).length = d.length :=
  length_transcodeOut d direction.INGRESS

theorem sumBE_add (d : List Byte) (p a b : Nat) :
    sumBE d p (a + b) = sumBE d p a + sumBE d (p + 2 * a) b := by
  induction b with
  | zero => rfl
  | succ b ih =>
    rw [← Nat.add_assoc, sumBE, sumBE, ih, show p + 2 * (a + b) = p + 2 * a + 2 * b by omega]
    omega

theorem sumBE_zero (d : List Byte) (p n : Nat) (h : ∀ j, j < 2 * n → u8 d (p + j) = 0) :
    sumBE d p n = 0 := by
  induction n with
  | zero => rfl
  | succ n ih =>
    have h1 := h (2 * n) (by omega)
    have h2 := h (2 * n + 1) (by omega)
    rw [← Nat.add_assoc] at h2
    rw [sumBE, ih (fun j hj => h j (by omega)), be16, h1, h2]

theorem u8_append_replicate_zero (hdr : List Byte) (n i : Nat) (hi : hdr.length ≤ i) :
    u8 (hdr ++ List.replicate n (0 : Byte)) i = 0 := by
  unfold u8
  rw [List.getD_eq_getElem?_getD, List.getElem?_append_right hi, List.getElem?_replicate]
  split <;> rfl

/-- The verification sum of a frame of 1515 bytes whose transport header is at 34 and
whose payload from 54 on is zero, from the sums of its address and header words. -/
theorem transportSum_zero_payload (X : List Byte) (A H : Nat) (hlen : X.length = 1515)
    (hpay : ∀ i, 54 ≤ i → u8 X i = 0) (hhead : sumBE X 34 10 = H)
    (haddr : be16 X 26 + be16 X 28 + be16 X 30 + be16 X 32 = A) :
    transportSum X 34 17 = A + 17 + 1481 + H := by
  unfold transportSum onesSum
  rw [hlen, haddr]
  have h740 : sumBE X 34 ((1515 - 34) / 2) = H := by
    rw [show (1515 - 34) / 2 = 10 + 730 from rfl, sumBE_add, hhead,
      sumBE_zero _ _ 730 (fun j _ => hpay _ (by omega))]
    rfl
  rw [h740, if_pos (by decide), hpay _ (by decide)]
  omega

/-! ## Totality: no direct read leaves the buffer -/

theorem length_store (skb : SkBuff) (off : Nat) (src : List Byte) (len : Nat) :
    (bpf_skb_store_bytes skb off src len).data.length = skb.data.length := by
  unfold bpf_skb_store_bytes
  split
  · exact length_wr _ _ _
  · rfl

theorem length_l3_csum_replace (skb : SkBuff) (off old new : Nat) :
    (bpf_l3_csum_replace skb off old new).data.length = skb.data.length := by
  unfold bpf_l3_csum_replace
  split
  · rfl
  · exact length_wr _ _ _

/-- The function `udp_checksum` returns on every packet and every pair of offsets. -/
theorem udp_checksum_total (skb : SkBuff) (a b : Nat) :
    ∃ c, udp_checksum skb a b = some c := by
  unfold udp_checksum
  simp only [sizeof_iphdr, sizeof_udphdr]
  split
  · exact ⟨_, rfl⟩
  · next h =>
    simp only [ld16_of_lt (show b % 256 + 4 + 1 < skb.data.length by omega),
      Option.some_bind, csum_partial_total,
      ld32_of_lt (show a % 256 + 12 + 3 < skb.data.length by omega),
      ld32_of_lt (show a % 256 + 16 + 3 < skb.data.length by omega)]
    exact ⟨_, rfl⟩

/-- The function `tcp_checksum` returns on every packet, offsets and length. -/
theorem tcp_checksum_total (skb : SkBuff) (a b L : Nat) :
    ∃ c, tcp_checksum skb a b L = some c := by
  unfold tcp_checksum
  simp only [sizeof_iphdr, sizeof_tcphdr]
  split
  · exact ⟨_, rfl⟩
  · next h =>
    simp only [Option.some_bind, csum_partial_total,
      ld32_of_lt (show a % 256 + 12 + 3 < skb.data.length by omega),
      ld32_of_lt (show a % 256 + 16 + 3 < skb.data.length by omega)]
    exact ⟨_, rfl⟩

/-- The function `tcp_to_tinu` returns whenever the fixed TCP header is inside the
buffer. -/
theorem tcp_to_tinu_total (skb : SkBuff) (ip ip6 : Option Nat) (T E : Nat)
    (hl : T + 20 ≤ skb.data.length) : ∃ out, tcp_to_tinu skb ip ip6 T E = some out := by
  unfold tcp_to_tinu
  simp only [ldbytes_of_le (show T + 4 + 4 ≤ skb.data.length by omega), Option.some_bind]
  cases ip with
  | some a =>
    simp only
    obtain ⟨c, hc⟩ := udp_checksum_total
      (bpf_l3_csum_replace (bpf_skb_store_bytes (bpf_skb_store_bytes skb T
        (wr (wr (wr (bpf_skb_load_bytes skb T (List.replicate TCP_MAX_HEADER 0) (E - T)) 4
          (le16 (bpf_htons (skb.data.length - T)))) 6 (le16 0)) 16
          (List.take 4 (List.drop (T + 4) skb.data))) (E - T)) (a + 9) [byteOf IPPROTO_UDP] 1)
        (a + 10) (bpf_htons IPPROTO_TCP) (bpf_htons IPPROTO_UDP)) a T
    rw [hc]
    exact ⟨_, rfl⟩
  | none =>
    cases ip6 with
    | some b => exact ⟨_, rfl⟩
    | none => exact ⟨_, rfl⟩

/-- The function `tinu_to_tcp` returns whenever the fixed TINU header is inside the
buffer. -/
theorem tinu_to_tcp_total (skb : SkBuff) (ip ip6 : Option Nat) (T E : Nat)
    (hl : T + 20 ≤ skb.data.length) : ∃ out, tinu_to_tcp skb ip ip6 T E = some out := by
  unfold tinu_to_tcp
  simp only [ldbytes_of_le (show T + 16 + 4 ≤ skb.data.length by omega), Option.some_bind]
  cases ip with
  | some a =>
    simp only
    obtain ⟨c, hc⟩ := tcp_checksum_total
      (bpf_l3_csum_replace (bpf_skb_store_bytes (bpf_skb_store_bytes skb T
        (wr (wr (wr (bpf_skb_load_bytes skb T (List.replicate TCP_MAX_HEADER 0) (E - T)) 4
          (List.take 4 (List.drop (T + 16) skb.data))) 16 (le16 0)) 18 (le16 0)) (E - T))
        (a + 9) [byteOf IPPROTO_TCP] 1)
        (a + 10) (bpf_htons IPPROTO_UDP) (bpf_htons IPPROTO_TCP)) a T (skb.data.length - T)
    rw [hc]
    exact ⟨_, rfl⟩
  | none =>
    cases ip6 with
    | some b => exact ⟨_, rfl⟩
    | none => exact ⟨_, rfl⟩

/-- The function `tc_action` returns `TC_ACT_OK` and a packet on every input. -/
theorem tc_action_total (skb : SkBuff) (dir : direction) (sd : side) :
    ∃ out, tc_action skb dir sd = some (TC_ACT_OK, out) := by
  rw [tc_action_eq]
  split
  · next h =>
    have hl := h.1.2.2.1
    cases dir
    · obtain ⟨out, ho⟩ := tcp_to_tinu_total skb (iphdrOf skb.data) (ipv6hdrOf skb.data)
        (transportOffset skb.data) (transportOffset skb.data + dataOffset skb.data * 4) hl
      exact ⟨out, by simp only [transcode, ho, Option.some_bind]⟩
    · obtain ⟨out, ho⟩ := tinu_to_tcp_total skb (iphdrOf skb.data) (ipv6hdrOf skb.data)
        (transportOffset skb.data) (transportOffset skb.data + dataOffset skb.data * 4) hl
      exact ⟨out, by simp only [transcode, ho, Option.some_bind]⟩
  · exact ⟨skb, rfl⟩

/-! ## The fold as a residue -/

theorem foldCarry_spec (fuel s : Nat) (hf : s ≤ fuel) :
    foldCarry fuel s < 65536 ∧ foldCarry fuel s % 65535 = s % 65535 ∧
      (foldCarry fuel s = 0 ↔ s = 0) := by
  induction fuel generalizing s with
  | zero =>
    have : s = 0 := by omega
    subst this
    exact ⟨by decide, rfl, Iff.rfl⟩
  | succ fuel ih =>
    rw [foldCarry]
    by_cases hs : s < 65536
    · rw [if_pos hs]
      exact ⟨hs, rfl, Iff.rfl⟩
    · rw [if_neg hs]
      obtain ⟨h1, h2, h3⟩ := ih (s % 65536 + s / 65536) (by omega)
      refine ⟨h1, by omega, by omega⟩

/-- The ones'-complement fold is below `2^16`, congruent to the sum modulo `0xFFFF`, and
zero only for a zero sum. -/
theorem onesFold_spec (s : Nat) :
    onesFold s < 65536 ∧ onesFold s % 65535 = s % 65535 ∧ (onesFold s = 0 ↔ s = 0) :=
  foldCarry_spec s s (Nat.le_refl _)

theorem foldTwice_spec (x : Nat) (hx : x < 2 ^ 32) :
    foldTwice x < 65536 ∧ foldTwice x % 65535 = x % 65535 ∧ (foldTwice x = 0 ↔ x = 0) := by
  unfold foldTwice
  simp only
  generalize hy : x % 65536 + x / 65536 = y
  have hy1 : y ≤ 131070 := by omega
  have hy2 : y % 65535 = x % 65535 := by omega
  have hy3 : y = 0 ↔ x = 0 := by omega
  refine ⟨by omega, by omega, by omega⟩

theorem csum_fold_eq (x : Nat) (hx : x < 2 ^ 32) : csum_fold x = 0xFFFF - foldTwice x := by
  unfold csum_fold foldTwice
  have h1 : (x % 65536 + x / 65536) % 2 ^ 32 = x % 65536 + x / 65536 :=
    Nat.mod_eq_of_lt (by omega)
  simp only [h1]
  generalize hy : x % 65536 + x / 65536 = y
  have hy1 : y ≤ 131070 := by omega
  have h2 : (y % 65536 + y / 65536) % 2 ^ 32 = y % 65536 + y / 65536 :=
    Nat.mod_eq_of_lt (by omega)
  rw [h2]
  omega

/-- The value of `csum_tcpudp_magic` is the 16-bit complement of the folded pseudo-header
sum, with `0xFFFF` in place of a zero complement. -/
theorem csum_tcpudp_magic_eq (saddr daddr len proto csum : Nat)
    (hs : saddr < 2 ^ 32) (hd : daddr < 2 ^ 32) (hc : csum < 2 ^ 32)
    (hp : proto < 256) (hl : proto + len < 65536) :
    csum_tcpudp_magic saddr daddr len proto csum =
      if 0xFFFF - onesFold (pseudoSum saddr daddr len proto csum) = 0 then 0xFFFF
      else 0xFFFF - onesFold (pseudoSum saddr daddr len proto csum) := by
  obtain ⟨e1, e2, e3⟩ := onesFold_spec (pseudoSum saddr daddr len proto csum)
  generalize onesFold (pseudoSum saddr daddr len proto csum) = E at e1 e2 e3 ⊢
  -- the pseudo-header sum and the sum of the code agree modulo 0xFFFF and in being zero
  have hsw : swap16 proto + swap16 len = proto * 256 + ((len % 256) * 256 + len / 256) := by
    unfold swap16
    omega
  have hht : bpf_htons (proto + len) % 65535 = (256 * (proto + len)) % 65535 ∧
      (bpf_htons (proto + len) = 0 ↔ proto + len = 0) ∧ bpf_htons (proto + len) < 65536 := by
    unfold bpf_htons
    rw [Nat.mod_eq_of_lt hl]
    refine ⟨by omega, by omega, by omega⟩
  obtain ⟨hh1, hh2, hh3⟩ := hht
  have hps : pseudoSum saddr daddr len proto csum % 65535 =
      (csum + saddr + daddr + bpf_htons (proto + len)) % 65535 ∧
      (pseudoSum saddr daddr len proto csum = 0 ↔
        csum + saddr + daddr + bpf_htons (proto + len) = 0) := by
    unfold pseudoSum
    rw [Nat.add_assoc _ (swap16 proto), hsw]
    generalize bpf_htons (proto + len) = h at hh1 hh2 hh3 ⊢
    refine ⟨by omega, by omega⟩
  obtain ⟨hp1, hp2⟩ := hps
  rw [hp1] at e2
  rw [hp2] at e3
  generalize pseudoSum saddr daddr len proto csum = ps at hp1 hp2
  clear hp1 hp2 hsw hh1 hh2
  unfold csum_tcpudp_magic
  have hpl : (proto + len) % 2 ^ 32 = proto + len := Nat.mod_eq_of_lt (by omega)
  rw [hpl]
  generalize bpf_htons (proto + len) = h at hh3 e2 e3 ⊢
  have a1 : (csum + saddr) % 2 ^ 64 = csum + saddr := Nat.mod_eq_of_lt (by omega)
  have a2 : (csum + saddr + daddr) % 2 ^ 64 = csum + saddr + daddr :=
    Nat.mod_eq_of_lt (by omega)
  have a3 : (csum + saddr + daddr + h) % 2 ^ 64 = csum + saddr + daddr + h :=
    Nat.mod_eq_of_lt (by omega)
  simp only [a1, a2, a3]
  generalize hs0 : csum + saddr + daddr + h = s0 at e2 e3
  have hs0b : s0 < 2 ^ 34 := by omega
  have a4 : (s0 % 2 ^ 32 + s0 / 2 ^ 32) % 2 ^ 64 = s0 % 2 ^ 32 + s0 / 2 ^ 32 :=
    Nat.mod_eq_of_lt (by omega)
  simp only [a4]
  generalize hs1 : s0 % 2 ^ 32 + s0 / 2 ^ 32 = s1
  have hs1b : s1 < 2 ^ 32 + 4 := by omega
  have hs1m : s1 % 65535 = s0 % 65535 := by omega
  have hs1z : s1 = 0 ↔ s0 = 0 := by omega
  have a5 : (s1 % 2 ^ 32 + s1 / 2 ^ 32) % 2 ^ 64 = s1 % 2 ^ 32 + s1 / 2 ^ 32 :=
    Nat.mod_eq_of_lt (by omega)
  simp only [a5]
  generalize hs2 : s1 % 2 ^ 32 + s1 / 2 ^ 32 = s2
  have hs2b : s2 < 2 ^ 32 := by omega
  have hs2m : s2 % 65535 = s1 % 65535 := by omega
  have hs2z : s2 = 0 ↔ s1 = 0 := by omega
  rw [Nat.mod_eq_of_lt hs2b]
  obtain ⟨f1, f2, f3⟩ := csum_fold_spec s2 hs2b
  generalize csum_fold s2 = f at f1 f2 f3 ⊢
  have hfE : f = 65535 - E := by
    by_cases hz : s0 = 0
    · have : f = 65535 := f3.2 (by omega)
      have : E = 0 := e3.2 hz
      omega
    · have hf : f ≠ 65535 := fun hf => hz (by have := f3.1 hf; omega)
      have hE : E ≠ 0 := fun hE => hz (e3.1 hE)
      omega
  subst hfE
  by_cases h0 : 65535 - E = 0
  · simp only [h0, ne_eq, not_true_eq_false, if_false, if_true]
  · simp only [h0, ne_eq, not_false_eq_true, if_true, if_false]

/-- Over IPv6 the checksum field written by the header rewrite stays zero. -/
theorem transcodeOut_v6_csum {d : List Byte} {dir : direction} {sd : side}
    (h : Eligible d dir sd) (h4 : be16 d 12 ≠ ETH_P_IP) :
    be16 (transcodeOut d dir) (transportOffset d + csumOffset dir) = 0 := by
  have hc := eligible_cases h
  obtain ⟨⟨-, -, hfix, hd, -⟩, -, hfit⟩ := h
  have h20 : 20 ≤ dataOffset d * 4 := by omega
  have h60 := dataOffset_le d
  rcases hc with ⟨h4', -⟩ | ⟨-, hT, -, -, hP⟩
  · exact absurd h4' h4
  unfold be16
  cases dir
  · simp only [transcodeOut, csumOffset, egressOut, if_neg h4, u8_wr, length_tinuOverlay,
      List.length_singleton,
      fun i => u8_tinuOverlay d (transportOffset d) (dataOffset d * 4) i h20 h60 hfit]
    rw [if_neg (by omega), if_neg (by omega), if_pos (by omega), if_neg (by omega),
      if_neg (by omega), if_pos (by omega)]
  · simp only [transcodeOut, csumOffset, ingressOut, if_neg h4, u8_wr, length_tcpOverlay,
      List.length_singleton,
      fun i => u8_tcpOverlay d (transportOffset d) (dataOffset d * 4) i h20 h60 hfit]
    rw [if_neg (by omega), if_neg (by omega), if_pos (by omega), if_neg (by omega),
      if_neg (by omega), if_pos (by omega)]

/-- Bytes of the output of either transcoder on an eligible frame: the protocol byte is
that of the target protocol, and every byte outside the protocol byte, the IPv4 header
checksum and transport bytes 4..7 and 16..19 is the input byte. -/
theorem u8_transcodeOut {d : List Byte} {dir : direction} {sd : side}
    (h : Eligible d dir sd) :
    u8 (transcodeOut d dir) (protoOffset d) = l4ProtoTo dir ∧
    ∀ i, i ≠ protoOffset d → ¬ (be16 d 12 = ETH_P_IP ∧ 24 ≤ i ∧ i < 26) →
      ¬ (transportOffset d + 4 ≤ i ∧ i < transportOffset d + 8) →
      ¬ (transportOffset d + 16 ≤ i ∧ i < transportOffset d + 20) →
      u8 (transcodeOut d dir) i = u8 d i := by
  cases dir
  · obtain ⟨hp, hb⟩ := u8_egressOut h
    refine ⟨hp, fun i h1 h2 h3 h4 => ?_⟩
    show u8 (egressOut d) i = u8 d i
    rw [hb i h1 h2 h3, if_neg h4]
  · obtain ⟨hp, hb⟩ := u8_ingressOut h
    refine ⟨hp, fun i h1 h2 h3 h4 => ?_⟩
    show u8 (ingressOut d) i = u8 d i
    rw [hb i h1 h2 h4, if_neg h3]

/-! ## The IPv4 header checksum -/

theorem csum_add_spec (a b : Nat) (ha : a < 2 ^ 32) (hb : b < 2 ^ 32) :
    csum_add a b < 2 ^ 32 ∧ csum_add a b % 65535 = (a + b) % 65535 := by
  unfold csum_add
  simp only
  by_cases h : a + b < 2 ^ 32
  · have h1 : (a + b) % 2 ^ 32 = a + b := Nat.mod_eq_of_lt h
    rw [h1, if_neg (by omega)]
    have h2 : (a + b + 0) % 2 ^ 32 = a + b := by omega
    rw [h2]
    exact ⟨h, rfl⟩
  · have h1 : (a + b) % 2 ^ 32 = a + b - 2 ^ 32 := by omega
    rw [h1, if_pos (by omega)]
    have h2 : (a + b - 2 ^ 32 + 1) % 2 ^ 32 = a + b - 2 ^ 32 + 1 := by omega
    rw [h2]
    refine ⟨by omega, by omega⟩

/-- The incremental update keeps the host-order sum of checksum and field, modulo
`0xFFFF`. -/
theorem csum_replace2_spec (sum old new : Nat) (hs : sum < 65536) (ho : old < 65536)
    (hn : new < 65536) :
    csum_replace2 sum old new < 65536 ∧
      (csum_replace2 sum old new + new) % 65535 = (sum + old) % 65535 := by
  unfold csum_replace2 csum_sub
  simp only
  obtain ⟨t1b, t1m⟩ := csum_add_spec (2 ^ 32 - 1 - sum) (2 ^ 32 - 1 - old) (by omega) (by omega)
  generalize csum_add (2 ^ 32 - 1 - sum) (2 ^ 32 - 1 - old) = t1 at t1b t1m ⊢
  obtain ⟨t2b, t2m⟩ := csum_add_spec t1 new t1b (by omega)
  generalize csum_add t1 new = t2 at t2b t2m ⊢
  have h1 : (t2 % 65536 + t2 / 65536) % 2 ^ 32 = t2 % 65536 + t2 / 65536 :=
    Nat.mod_eq_of_lt (by omega)
  rw [h1]
  generalize hy : t2 % 65536 + t2 / 65536 = y
  have hy1 : y ≤ 131070 := by omega
  have hy2 : y % 65535 = t2 % 65535 := by omega
  have h2 : (y % 65536 + y / 65536) % 2 ^ 32 = y % 65536 + y / 65536 :=
    Nat.mod_eq_of_lt (by omega)
  rw [h2]
  generalize hz : y % 65536 + y / 65536 = z
  have hz1 : z ≤ 65535 := by omega
  have hz2 : z % 65535 = y % 65535 := by omega
  have h3 : (2 ^ 32 - 1 - z) % 65536 = 65535 - z := by omega
  rw [h3]
  have k1 : (t1 + sum + old) % 65535 = 0 := by omega
  refine ⟨by omega, ?_⟩
  clear h1 h2 h3 hy hz t1b t2b
  omega

theorem sumLE_add (d : List Byte) (p a b : Nat) :
    sumLE d p (a + b) = sumLE d p a + sumLE d (p + 2 * a) b := by
  induction b with
  | zero => rfl
  | succ b ih =>
    rw [← Nat.add_assoc, sumLE, sumLE, ih, show p + 2 * (a + b) = p + 2 * a + 2 * b by omega]
    omega

theorem bpf_htons_byte (x : Nat) (hx : x < 256) : bpf_htons x = 256 * x := by
  unfold bpf_htons
  omega

/-- Rewriting the protocol byte and updating the header checksum incrementally keeps the
host-order sum of the IPv4 header words, modulo `0xFFFF`. -/
theorem sumLE_header_reproto (d out : List Byte) (n old new : Nat) (h6 : 6 ≤ n)
    (hob : old < 256) (hnb : new < 256)
    (hold : u8 d 23 = old) (hnew : u8 out 23 = new)
    (hck : le16At out 24 = csum_replace2 (le16At d 24) (bpf_htons old) (bpf_htons new))
    (hsame : ∀ i, 14 ≤ i → i < 14 + 2 * n → i ≠ 23 → i ≠ 24 → i ≠ 25 →
      u8 out i = u8 d i) :
    sumLE out 14 n % 65535 = sumLE d 14 n % 65535 := by
  obtain ⟨m, rfl⟩ : ∃ m, n = 4 + (2 + m) := ⟨n - 6, by omega⟩
  rw [sumLE_add, sumLE_add, sumLE_add d, sumLE_add d]
  have hpre : sumLE out 14 4 = sumLE d 14 4 :=
    sumLE_congr (fun j hj => hsame _ (by omega) (by omega) (by omega) (by omega) (by omega))
  have hpost : sumLE out (14 + 2 * 4 + 2 * 2) m = sumLE d (14 + 2 * 4 + 2 * 2) m :=
    sumLE_congr (fun j hj => hsame _ (by omega) (by omega) (by omega) (by omega) (by omega))
  rw [hpre, hpost]
  have h22 : u8 out 22 = u8 d 22 :=
    hsame 22 (by omega) (by omega) (by omega) (by omega) (by omega)
  have hmid : sumLE out (14 + 2 * 4) 2 = u8 d 22 + 256 * new + le16At out 24 := by
    simp only [sumLE, le16At, Nat.reduceAdd, Nat.reduceMul, Nat.add_zero, Nat.zero_add,
      h22, hnew]
  have hmid' : sumLE d (14 + 2 * 4) 2 = u8 d 22 + 256 * old + le16At d 24 := by
    simp only [sumLE, le16At, Nat.reduceAdd, Nat.reduceMul, Nat.add_zero, Nat.zero_add,
      hold]
  rw [hmid, hmid', hck]
  have hcb : le16At d 24 < 65536 := by
    unfold le16At
    have := u8_lt d 24
    have := u8_lt d (24 + 1)
    omega
  obtain ⟨-, hr⟩ := csum_replace2_spec (le16At d 24) (bpf_htons old) (bpf_htons new) hcb
    (by rw [bpf_htons_byte old hob]; omega) (by rw [bpf_htons_byte new hnb]; omega)
  rw [bpf_htons_byte old hob, bpf_htons_byte new hnb] at hr ⊢
  generalize csum_replace2 (le16At d 24) (256 * old) (256 * new) = c at hr ⊢
  generalize sumLE d 14 4 = A
  generalize sumLE d (14 + 2 * 4 + 2 * 2) m = B
  generalize le16At d 24 = k at hr
  omega

theorem csum_replace2_lt (sum old new : Nat) : csum_replace2 sum old new < 65536 := by
  unfold csum_replace2
  exact Nat.mod_lt _ (by decide)

/-- The IPv4 header checksum field of the output of either transcoder: the incremental
update of the input field for the protocol change. -/
theorem le16At_transcodeOut_check {d : List Byte} {dir : direction} {sd : side}
    (h : Eligible d dir sd) (h4 : be16 d 12 = ETH_P_IP) :
    le16At (transcodeOut d dir) 24 =
      csum_replace2 (le16At d 24) (bpf_htons (l4ProtoOf dir)) (bpf_htons (l4ProtoTo dir)) := by
  have hc := eligible_cases h
  obtain ⟨⟨-, -, hfix, hd, -⟩, -, hfit⟩ := h
  have h20 : 20 ≤ dataOffset d * 4 := by omega
  have h60 := dataOffset_le d
  rcases hc with ⟨-, hT, hT2, -, -, -⟩ | ⟨h6, -⟩
  swap
  · exact absurd h4 h6
  cases dir
  · have hin : le16At (wr (tinuOverlay d (transportOffset d) (dataOffset d * 4)) 23
        [byteOf 17]) 24 = le16At d 24 := by
      have hb : ∀ i, 24 ≤ i → i < 26 →
          u8 (wr (tinuOverlay d (transportOffset d) (dataOffset d * 4)) 23 [byteOf 17]) i =
            u8 d i := by
        intro i h1 h2
        simp only [u8_wr, length_tinuOverlay, List.length_singleton,
          u8_tinuOverlay d (transportOffset d) (dataOffset d * 4) i h20 h60 hfit]
        split_ifs <;> first | rfl | (exfalso; omega)
      unfold le16At
      rw [hb 24 (by omega) (by omega), hb (24 + 1) (by omega) (by omega)]
    have hval := le16At_le16 (csum_replace2 (le16At d 24) (bpf_htons 6) (bpf_htons 17))
    rw [Nat.mod_eq_of_lt (csum_replace2_lt _ _ _)] at hval
    show le16At _ 24 = csum_replace2 (le16At d 24) (bpf_htons 6) (bpf_htons 17)
    rw [← hval]
    unfold le16At
    simp only [transcodeOut, egressOut, if_pos h4, l4ProtoOf, l4ProtoTo, u8_wr,
      length_ipv4Reproto, length_tinuOverlay, length_le16,
      u8_ipv4Reproto _ _ _ _ (show 26 ≤ (tinuOverlay d (transportOffset d)
        (dataOffset d * 4)).length by rw [length_tinuOverlay]; omega), hin]
    rw [if_neg (by omega), if_neg (by omega), if_pos (by omega), if_neg (by omega),
      if_neg (by omega), if_pos (by omega)]
    rfl
  · have hin : le16At (wr (tcpOverlay d (transportOffset d) (dataOffset d * 4)) 23
        [byteOf 6]) 24 = le16At d 24 := by
      have hb : ∀ i, 24 ≤ i → i < 26 →
          u8 (wr (tcpOverlay d (transportOffset d) (dataOffset d * 4)) 23 [byteOf 6]) i =
            u8 d i := by
        intro i h1 h2
        simp only [u8_wr, length_tcpOverlay, List.length_singleton,
          u8_tcpOverlay d (transportOffset d) (dataOffset d * 4) i h20 h60 hfit]
        split_ifs <;> first | rfl | (exfalso; omega)
      unfold le16At
      rw [hb 24 (by omega) (by omega), hb (24 + 1) (by omega) (by omega)]
    have hval := le16At_le16 (csum_replace2 (le16At d 24) (bpf_htons 17) (bpf_htons 6))
    rw [Nat.mod_eq_of_lt (csum_replace2_lt _ _ _)] at hval
    show le16At _ 24 = csum_replace2 (le16At d 24) (bpf_htons 17) (bpf_htons 6)
    rw [← hval]
    unfold le16At
    simp only [transcodeOut, ingressOut, if_pos h4, l4ProtoOf, l4ProtoTo, u8_wr,
      length_ipv4Reproto, length_tcpOverlay, length_le16,
      u8_ipv4Reproto _ _ _ _ (show 26 ≤ (tcpOverlay d (transportOffset d)
        (dataOffset d * 4)).length by rw [length_tcpOverlay]; omega), hin]
    rw [if_neg (by omega), if_neg (by omega), if_pos (by omega), if_neg (by omega),
      if_neg (by omega), if_pos (by omega)]
    rfl

theorem sumBE_pos (d : List Byte) (p n : Nat) (hn : 0 < n) (h : 0 < u8 d p) :
    0 < sumBE d p n := by
  obtain ⟨m, rfl⟩ : ∃ m, n = 1 + m := ⟨n - 1, by omega⟩
  rw [sumBE_add]
  have : sumBE d p 1 = be16 d p := by simp [sumBE]
  rw [this, be16]
  omega

/-- Over IPv4 the header checksum of the output of either transcoder verifies whenever
that of the input does. -/
theorem ipHeaderSum_transcodeOut {d : List Byte} {dir : direction} {sd : side}
    (h : Eligible d dir sd) (h4 : be16 d 12 = ETH_P_IP)
    (hvalid : onesFold (ipHeaderSum d) = 0xFFFF) :
    onesFold (ipHeaderSum (transcodeOut d dir)) = 0xFFFF := by
  obtain ⟨hproto, hbytes⟩ := u8_transcodeOut h
  have hck := le16At_transcodeOut_check h h4
  have hihl5 := h.2.1 h4
  have hih15 := ihl_le d
  have hprot : u8 d (protoOffset d) = l4ProtoOf dir := h.1.2.1
  have hP : protoOffset d = 23 := by unfold protoOffset; rw [if_pos h4]
  have hTe : transportOffset d = 14 + ihl d * 4 := by unfold transportOffset; rw [if_pos h4]
  rw [hP] at hproto hbytes hprot
  rw [hTe] at hbytes
  have h14 : u8 (transcodeOut d dir) 14 = u8 d 14 :=
    hbytes 14 (by omega) (by omega) (by omega) (by omega)
  have hihl : ihl (transcodeOut d dir) = ihl d := by unfold ihl; rw [h14]
  have hle := sumLE_header_reproto d (transcodeOut d dir) (ihl d * 2) (l4ProtoOf dir)
    (l4ProtoTo dir) (by omega) (by cases dir <;> decide) (by cases dir <;> decide)
    hprot hproto hck
    (fun i hi1 hi2 h23 h24 h25 => hbytes i h23 (by omega) (by omega) (by omega))
  obtain ⟨-, hm, -⟩ := onesFold_spec (ipHeaderSum d)
  rw [hvalid] at hm
  unfold ipHeaderSum at hm ⊢
  rw [hihl]
  have hb1 := sumBE_mod d 14 (ihl d * 2)
  have hb2 := sumBE_mod (transcodeOut d dir) 14 (ihl d * 2)
  apply onesFold_eq
  · apply sumBE_pos _ _ _ (by omega)
    rw [h14]
    have : ihl d = u8 d 14 % 16 := rfl
    omega
  · generalize sumBE (transcodeOut d dir) 14 (ihl d * 2) = x at hb2 ⊢
    generalize sumBE d 14 (ihl d * 2) = y at hb1 hm
    generalize sumLE (transcodeOut d dir) 14 (ihl d * 2) = u at hb2 hle
    generalize sumLE d 14 (ihl d * 2) = w at hb1 hle
    omega

/-! ## The stored checksum above the size ceiling -/

theorem csum_fold_lt (c : Nat) : csum_fold c < 65536 := by
  unfold csum_fold
  exact Nat.mod_lt _ (by decide)

theorem csum_tcpudp_magic_lt (saddr daddr len proto csum : Nat) :
    csum_tcpudp_magic saddr daddr len proto csum < 65536 := by
  unfold csum_tcpudp_magic
  simp only
  split_ifs
  · exact csum_fold_lt _
  · decide

theorem bpf_htons_congr (x y : Nat) (h : x % 65536 = y % 65536) :
    bpf_htons x = bpf_htons y := by
  unfold bpf_htons
  rw [h]

/-- The pseudo-header checksum depends on the length through its low 16 bits only. -/
theorem csum_tcpudp_magic_len16 (saddr daddr len proto csum : Nat) :
    csum_tcpudp_magic saddr daddr (len % 65536) proto csum =
      csum_tcpudp_magic saddr daddr len proto csum := by
  unfold csum_tcpudp_magic
  rw [bpf_htons_congr ((proto + len % 65536) % 2 ^ 32) ((proto + len) % 2 ^ 32) (by omega)]

theorem csum_tcpudp_magic_len32 (saddr daddr len proto csum : Nat) :
    csum_tcpudp_magic saddr daddr (len % 2 ^ 32) proto csum =
      csum_tcpudp_magic saddr daddr len proto csum := by
  unfold csum_tcpudp_magic
  rw [bpf_htons_congr ((proto + len % 2 ^ 32) % 2 ^ 32) ((proto + len) % 2 ^ 32) (by omega)]

/-- Over IPv4 and above the ceiling, the checksum either transcoder stores is the one of
the pseudo-header alone, built from the addresses and the transport length of the
input. -/
theorem transcodeOut_csum_above_ceiling {d : List Byte} {dir : direction} {sd : side}
    (h : Eligible d dir sd) (h4 : be16 d 12 = ETH_P_IP)
    (hL : 1480 < d.length - transportOffset d) :
    le16At (transcodeOut d dir) (transportOffset d + csumOffset dir) =
      csum_tcpudp_magic (le32At d 26) (le32At d 30) (d.length - transportOffset d)
        (l4ProtoTo dir) 0 := by
  have hc := eligible_cases h
  obtain ⟨⟨-, -, hfix, hd, -⟩, -, hfit⟩ := h
  have h20 : 20 ≤ dataOffset d * 4 := by omega
  have h60 := dataOffset_le d
  rcases hc with ⟨-, hT, hT2, -, -, -⟩ | ⟨h6, -⟩
  swap
  · exact absurd h4 h6
  cases dir
  · have hmid : ∀ i, u8 (ipv4Reproto (tinuOverlay d (transportOffset d)
        (dataOffset d * 4)) 6 17) i =
        if i = 23 then 17 % 256
        else if 24 ≤ i ∧ i < 26 then
          u8 (le16 (csum_replace2 (le16At (wr (tinuOverlay d (transportOffset d)
            (dataOffset d * 4)) 23 [byteOf 17]) 24) (bpf_htons 6) (bpf_htons 17))) (i - 24)
        else if transportOffset d + 4 ≤ i ∧ i < transportOffset d + 6 then
          u8 (le16 (bpf_htons (d.length - transportOffset d))) (i - (transportOffset d + 4))
        else if transportOffset d + 6 ≤ i ∧ i < transportOffset d + 8 then 0
        else if transportOffset d + 16 ≤ i ∧ i < transportOffset d + 20 then u8 d (i - 12)
        else u8 d i := by
      intro i
      rw [u8_ipv4Reproto _ _ _ _ (by rw [length_tinuOverlay]; omega),
        u8_tinuOverlay d _ _ i h20 h60 hfit]
    have hlenm : (ipv4Reproto (tinuOverlay d (transportOffset d)
        (dataOffset d * 4)) 6 17).length = d.length := by
      rw [length_ipv4Reproto, length_tinuOverlay]
    have hlenf : bpf_ntohs (le16At (ipv4Reproto (tinuOverlay d (transportOffset d)
        (dataOffset d * 4)) 6 17) (transportOffset d + 4)) =
        (d.length - transportOffset d) % 65536 := by
      have e : le16At (ipv4Reproto (tinuOverlay d (transportOffset d)
          (dataOffset d * 4)) 6 17) (transportOffset d + 4) =
          le16At (le16 (bpf_htons (d.length - transportOffset d))) 0 := by
        unfold le16At
        rw [hmid, hmid, if_neg (by omega), if_neg (by omega), if_pos (by omega),
          if_neg (by omega), if_neg (by omega), if_pos (by omega)]
        simp only [Nat.sub_self, Nat.add_sub_cancel_left, Nat.zero_add]
      have hb : bpf_htons (d.length - transportOffset d) < 65536 := by
        unfold bpf_htons
        omega
      rw [e, le16At_le16, Nat.mod_eq_of_lt hb, ntohs_htons]
    have ha : ∀ i, 26 ≤ i → i < 34 → u8 (ipv4Reproto (tinuOverlay d (transportOffset d)
        (dataOffset d * 4)) 6 17) i = u8 d i := by
      intro i h1 h2
      rw [hmid, if_neg (by omega), if_neg (by omega), if_neg (by omega), if_neg (by omega),
        if_neg (by omega)]
    have hs : le32At (ipv4Reproto (tinuOverlay d (transportOffset d)
        (dataOffset d * 4)) 6 17) 26 = le32At d 26 := by
      unfold le32At le16At
      rw [ha 26 (by omega) (by omega), ha (26 + 1) (by omega) (by omega),
        ha (26 + 2) (by omega) (by omega), ha (26 + 2 + 1) (by omega) (by omega)]
    have hdd : le32At (ipv4Reproto (tinuOverlay d (transportOffset d)
        (dataOffset d * 4)) 6 17) 30 = le32At d 30 := by
      unfold le32At le16At
      rw [ha 30 (by omega) (by omega), ha (30 + 1) (by omega) (by omega),
        ha (30 + 2) (by omega) (by omega), ha (30 + 2 + 1) (by omega) (by omega)]
    have hmod := Nat.mod_le (d.length - transportOffset d) 65536
    simp only [transcodeOut, egressOut, if_pos h4, csumOffset, l4ProtoTo]
    rw [le16At_wr_le16 _ _ _ (by rw [hlenm]; omega)]
    unfold udpCsumOf
    rw [hlenf, hs, hdd, hlenm, if_pos (by omega), Nat.mod_eq_of_lt (csum_tcpudp_magic_lt _ _ _ _ _),
      csum_tcpudp_magic_len16]
    rfl
  · have hmid : ∀ i, u8 (ipv4Reproto (tcpOverlay d (transportOffset d)
        (dataOffset d * 4)) 17 6) i =
        if i = 23 then 6 % 256
        else if 24 ≤ i ∧ i < 26 then
          u8 (le16 (csum_replace2 (le16At (wr (tcpOverlay d (transportOffset d)
            (dataOffset d * 4)) 23 [byteOf 6]) 24) (bpf_htons 17) (bpf_htons 6))) (i - 24)
        else if transportOffset d + 4 ≤ i ∧ i < transportOffset d + 8 then u8 d (i + 12)
        else if transportOffset d + 16 ≤ i ∧ i < transportOffset d + 20 then 0
        else u8 d i := by
      intro i
      rw [u8_ipv4Reproto _ _ _ _ (by rw [length_tcpOverlay]; omega),
        u8_tcpOverlay d _ _ i h20 h60 hfit]
    have hlenm : (ipv4Reproto (tcpOverlay d (transportOffset d)
        (dataOffset d * 4)) 17 6).length = d.length := by
      rw [length_ipv4Reproto, length_tcpOverlay]
    have ha : ∀ i, 26 ≤ i → i < 34 → u8 (ipv4Reproto (tcpOverlay d (transportOffset d)
        (dataOffset d * 4)) 17 6) i = u8 d i := by
      intro i h1 h2
      rw [hmid, if_neg (by omega), if_neg (by omega), if_neg (by omega), if_neg (by omega)]
    have hs : le32At (ipv4Reproto (tcpOverlay d (transportOffset d)
        (dataOffset d * 4)) 17 6) 26 = le32At d 26 := by
      unfold le32At le16At
      rw [ha 26 (by omega) (by omega), ha (26 + 1) (by omega) (by omega),
        ha (26 + 2) (by omega) (by omega), ha (26 + 2 + 1) (by omega) (by omega)]
    have hdd : le32At (ipv4Reproto (tcpOverlay d (transportOffset d)
        (dataOffset d * 4)) 17 6) 30 = le32At d 30 := by
      unfold le32At le16At
      rw [ha 30 (by omega) (by omega), ha (30 + 1) (by omega) (by omega),
        ha (30 + 2) (by omega) (by omega), ha (30 + 2 + 1) (by omega) (by omega)]
    have hmod := Nat.mod_le (d.length - transportOffset d) 65536
    simp only [transcodeOut, ingressOut, if_pos h4, csumOffset, l4ProtoTo]
    rw [le16At_wr_le16 _ _ _ (by rw [hlenm]; omega)]
    unfold tcpCsumOf
    rw [hs, hdd, hlenm, if_pos (by omega), Nat.mod_eq_of_lt (csum_tcpudp_magic_lt _ _ _ _ _),
      csum_tcpudp_magic_len32]
    rfl

/-! ## The claims -/

/-- C1 (round trip): for every eligible TCP frame (Ethernet, IPv4 with IHL at least 5 or
IPv6, TCP, data offset in 5..15 with the declared header inside the buffer, operative port
5201: destination port for CLIENT, source port for SERVER) with URG clear and at most one
segment, `tc_action(EGRESS, role)` followed by `tc_action(INGRESS, peer role)` yields a
frame of the same length whose IP protocol / next-header byte is 6 and whose transport
bytes, header and payload, equal the input's everywhere except at transport offsets
16..19 (checksum and urgent pointer). -/
theorem round_trip (skb : SkBuff) (sd : side)
    (h : Eligible skb.data direction.EGRESS sd) (hurg : urgFlag skb.data = 0)
    (hsegs : skb.gso_segs ≤ 1) :
    ∃ mid out, tc_action skb direction.EGRESS sd = some (TC_ACT_OK, mid) ∧
      tc_action mid direction.INGRESS (peer sd) = some (TC_ACT_OK, out) ∧
      out.data.length = skb.data.length ∧
      u8 out.data (protoOffset skb.data) = 6 ∧
      ∀ i, transportOffset skb.data ≤ i → i < skb.data.length →
        ¬ (transportOffset skb.data + 16 ≤ i ∧ i < transportOffset skb.data + 20) →
        u8 out.data i = u8 skb.data i := by
  obtain ⟨hel, he12, heT, heP⟩ := egressOut_eligible h
  have h1 := tc_action_eligible skb direction.EGRESS sd h (fun _ => hurg) hsegs
  have h2 := tc_action_eligible ⟨egressOut skb.data, skb.gso_segs⟩ direction.INGRESS (peer sd)
    hel (fun hd => by cases hd) hsegs
  obtain ⟨-, hout⟩ := u8_egressOut h
  obtain ⟨hproto, hin⟩ := u8_ingressOut hel
  rw [heP] at hproto
  simp only [heP, he12, heT] at hin
  have hc := eligible_cases h
  have hT34 : 34 ≤ transportOffset skb.data := by
    rcases hc with ⟨-, hT, -⟩ | ⟨-, hT, -⟩ <;> omega
  have hP : protoOffset skb.data = 23 ∨ protoOffset skb.data = 20 := by
    rcases hc with ⟨-, -, -, -, -, hP⟩ | ⟨-, -, -, -, hP⟩ <;> omega
  refine ⟨_, _, h1, h2, ?_, hproto, ?_⟩
  · show (ingressOut (egressOut skb.data)).length = skb.data.length
    rw [length_ingressOut, length_egressOut]
  · intro i hi1 hi2 hi3
    show u8 (ingressOut (egressOut skb.data)) i = u8 skb.data i
    rw [hin i (by omega) (by omega) (by omega)]
    by_cases hseq : transportOffset skb.data + 4 ≤ i ∧ i < transportOffset skb.data + 8
    · rw [if_pos hseq, hout (i + 12) (by omega) (by omega) (by omega), if_pos (by omega),
        Nat.add_sub_cancel]
    · rw [if_neg hseq, hout i (by omega) (by omega) hseq, if_neg hi3]

/-- An instance: the outbound IPv4 SYN `synFrame4`, egress at the client and ingress at the server. -/
theorem round_trip_witness :
    Eligible synFrame4.data direction.EGRESS side.CLIENT ∧ urgFlag synFrame4.data = 0 ∧
      synFrame4.gso_segs ≤ 1 ∧
      ∃ mid out, tc_action synFrame4 direction.EGRESS side.CLIENT = some (TC_ACT_OK, mid) ∧
        tc_action mid direction.INGRESS (peer side.CLIENT) = some (TC_ACT_OK, out) ∧
        out.data.length = synFrame4.data.length ∧
        u8 out.data (protoOffset synFrame4.data) = 6 ∧
        ∀ i, transportOffset synFrame4.data ≤ i → i < synFrame4.data.length →
          ¬ (transportOffset synFrame4.data + 16 ≤ i ∧
            i < transportOffset synFrame4.data + 20) →
          u8 out.data i = u8 synFrame4.data i :=
  ⟨by decide, by decide, by decide,
    round_trip synFrame4 side.CLIENT (by decide) (by decide) (by decide)⟩

/-- C2 (checksum of a transcoded packet, as amended): for every eligible frame (it passes
the gate, its IPv4 header has IHL at least 5 and the transport header it declares is
inside the buffer) that `tc_action` transcodes, in either direction, over IPv4 and with
a transport length `L`, counted from the transport header start to the end of the buffer,
of at most 1480 bytes, recomputing the ones'-complement transport checksum over the IPv4
pseudo-header (addresses, protocol, `L`) and the `L` emitted transport bytes, stored
checksum included, verifies (the complemented folded sum is zero), and the stored
checksum field is not `0x0000`. -/
theorem transcoded_checksum_verifies (skb : SkBuff) (dir : direction) (sd : side)
    (h : Eligible skb.data dir sd) (h4 : be16 skb.data 12 = ETH_P_IP)
    (hurg : dir = direction.EGRESS → urgFlag skb.data = 0) (hsegs : skb.gso_segs ≤ 1)
    (hL : skb.data.length - transportOffset skb.data ≤ 1480) :
    ∃ out, tc_action skb dir sd = some (TC_ACT_OK, out) ∧
      0xFFFF - onesFold (transportSum out.data (transportOffset skb.data) (l4ProtoTo dir)) = 0 ∧
      be16 out.data (transportOffset skb.data + csumOffset dir) ≠ 0 := by
  refine ⟨_, tc_action_eligible skb dir sd h hurg hsegs, ?_⟩
  cases dir
  · obtain ⟨hv, hnz⟩ := egressOut_checksum h h4 hL
    unfold ChecksumValid at hv
    exact ⟨by show 0xFFFF - onesFold (transportSum (egressOut skb.data) _ 17) = 0; rw [hv],
      hnz⟩
  · obtain ⟨hv, hnz⟩ := ingressOut_checksum h h4 hL
    unfold ChecksumValid at hv
    exact ⟨by show 0xFFFF - onesFold (transportSum (ingressOut skb.data) _ 6) = 0; rw [hv],
      hnz⟩

/-- An instance: the outbound IPv4 SYN `synFrame4` on egress at the client. -/
theorem transcoded_checksum_verifies_witness :
    Eligible synFrame4.data direction.EGRESS side.CLIENT ∧
      be16 synFrame4.data 12 = ETH_P_IP ∧
      (direction.EGRESS = direction.EGRESS → urgFlag synFrame4.data = 0) ∧
      synFrame4.gso_segs ≤ 1 ∧
      synFrame4.data.length - transportOffset synFrame4.data ≤ 1480 ∧
      ∃ out, tc_action synFrame4 direction.EGRESS side.CLIENT = some (TC_ACT_OK, out) ∧
        0xFFFF - onesFold (transportSum out.data (transportOffset synFrame4.data)
          (l4ProtoTo direction.EGRESS)) = 0 ∧
        be16 out.data (transportOffset synFrame4.data + csumOffset direction.EGRESS) ≠ 0 :=
  ⟨by decide, by decide, by decide, by decide, by decide,
    transcoded_checksum_verifies synFrame4 direction.EGRESS side.CLIENT (by decide)
      (by decide) (by decide) (by decide) (by decide)⟩

set_option maxRecDepth 100000 in
/-- C2 as stated fails in five ways, each on a frame that `tc_action` transcodes on egress
at the client. Over IPv6 an eligible frame gets next header 17 and the UDP checksum field
of the output is `0x0000`. Over IPv4 an eligible frame with 1481 transport bytes gets
protocol 17 and the sum over pseudo-header and transport bytes of the output folds to
`0x9E3D`, not `0xFFFF`. A frame that passes the gate but declares a transport header past
the end of the buffer (`truncFrame4`) gets protocol 17 and its sum folds to `0x5075`. A
frame that passes the gate with IHL 3 (`ihl3Frame`) gets protocol 17, the UDP length and
checksum are stored over the destination address, and its sum folds to `0x60F8`. An
eligible frame of at most 1480 transport bytes with two bytes after the payload the IPv4
header declares (`paddedFrame4`) gets a checksum that verifies with the transport length
counted to the end of the buffer, and folds to `0xFFFD` with the length the IPv4 header
declares. -/
theorem transcoded_checksum_fails :
    (Eligible synFrame6.data direction.EGRESS side.CLIENT ∧ urgFlag synFrame6.data = 0 ∧
      synFrame6.gso_segs ≤ 1 ∧
      (tc_action synFrame6 direction.EGRESS side.CLIENT).map
        (fun r => (u8 r.2.data 20, be16 r.2.data (54 + 6))) = some (17, 0)) ∧
    (Eligible bigFrame4.data direction.EGRESS side.CLIENT ∧ urgFlag bigFrame4.data = 0 ∧
      bigFrame4.gso_segs ≤ 1 ∧
      bigFrame4.data.length - transportOffset bigFrame4.data = 1481 ∧
      (tc_action bigFrame4 direction.EGRESS side.CLIENT).map
        (fun r => (u8 r.2.data 23, onesFold (transportSum r.2.data 34 17))) =
        some (17, 0x9E3D)) ∧
    (Gate truncFrame4.data direction.EGRESS side.CLIENT ∧
      ¬ Eligible truncFrame4.data direction.EGRESS side.CLIENT ∧
      be16 truncFrame4.data 12 = ETH_P_IP ∧ ihl truncFrame4.data = 5 ∧
      urgFlag truncFrame4.data = 0 ∧ truncFrame4.gso_segs ≤ 1 ∧
      truncFrame4.data.length - transportOffset truncFrame4.data = 20 ∧
      (tc_action truncFrame4 direction.EGRESS side.CLIENT).map
        (fun r => (u8 r.2.data 23, onesFold (transportSum r.2.data 34 17))) =
        some (17, 0x5075)) ∧
    (Gate ihl3Frame.data direction.EGRESS side.CLIENT ∧
      ¬ Eligible ihl3Frame.data direction.EGRESS side.CLIENT ∧
      be16 ihl3Frame.data 12 = ETH_P_IP ∧ ihl ihl3Frame.data = 3 ∧
      transportOffset ihl3Frame.data = 26 ∧
      transportOffset ihl3Frame.data + dataOffset ihl3Frame.data * 4 ≤
        ihl3Frame.data.length ∧
      urgFlag ihl3Frame.data = 0 ∧ ihl3Frame.gso_segs ≤ 1 ∧
      ihl3Frame.data.length - transportOffset ihl3Frame.data = 28 ∧
      (tc_action ihl3Frame direction.EGRESS side.CLIENT).map
        (fun r => (u8 r.2.data 23, be16 r.2.data 30, be16 r.2.data 32,
          onesFold (transportSum r.2.data 26 17))) = some (17, 28, 0x60F8, 0x60F8)) ∧
    (Eligible paddedFrame4.data direction.EGRESS side.CLIENT ∧
      be16 paddedFrame4.data 12 = ETH_P_IP ∧ urgFlag paddedFrame4.data = 0 ∧
      paddedFrame4.gso_segs ≤ 1 ∧
      paddedFrame4.data.length - transportOffset paddedFrame4.data = 26 ∧
      ipDeclaredEnd paddedFrame4.data - transportOffset paddedFrame4.data = 24 ∧
      (tc_action paddedFrame4 direction.EGRESS side.CLIENT).map
        (fun r => (u8 r.2.data 23, ipDeclaredEnd r.2.data,
          onesFold (transportSum r.2.data 34 17),
          onesFold (declaredTransportSum r.2.data 34 17))) =
        some (17, 58, 0xFFFF, 0xFFFD)) := by
  have hel : Eligible bigFrame4.data direction.EGRESS side.CLIENT := by decide
  have hurg : urgFlag bigFrame4.data = 0 := by decide
  have hlen : bigFrame4.data.length = 1515 := by decide
  have hT : transportOffset bigFrame4.data = 34 := by decide
  have hP : protoOffset bigFrame4.data = 23 := by decide
  have hact := tc_action_eligible bigFrame4 direction.EGRESS side.CLIENT hel (fun _ => hurg)
    (by decide)
  obtain ⟨hproto, hbytes⟩ := u8_egressOut hel
  rw [hP] at hproto
  rw [hT, hP] at hbytes
  have hpay : ∀ i, 54 ≤ i → u8 (egressOut bigFrame4.data) i = 0 := by
    intro i hi
    rw [hbytes i (by omega) (by omega) (by omega), if_neg (by omega)]
    exact u8_append_replicate_zero (ethIPv4 ++ ipv4TcpBig ++ tcpSyn) 1461 i hi
  have hhead : sumBE (egressOut bigFrame4.data) 34 10 = 164958 := by decide
  have haddr : be16 (egressOut bigFrame4.data) 26 + be16 (egressOut bigFrame4.data) 28 +
      be16 (egressOut bigFrame4.data) 30 + be16 (egressOut bigFrame4.data) 32 = 5123 := by
    decide
  have hsum := transportSum_zero_payload (egressOut bigFrame4.data) 5123 164958
    ((length_egressOut _).trans hlen) hpay hhead haddr
  have hfold : onesFold (5123 + 17 + 1481 + 164958) = 0x9E3D := by decide
  refine ⟨by decide, ⟨hel, hurg, by decide, by rw [hlen, hT], ?_⟩, by decide, by decide,
    by decide⟩
  rw [hact]
  simp only [Option.map_some', transcodeOut]
  rw [hproto, hsum, hfold]

/-- C3 (outbound translation postcondition): for every eligible TCP frame with URG clear
and at most one segment, `tc_action(EGRESS, role)` produces a frame whose IPv4 protocol /
IPv6 next-header byte is 17, whose bytes `T..T+3` (ports) are unchanged, whose bytes
`T+16..T+19` (TINU sequence field) equal the input's bytes `T+4..T+7` (TCP sequence
number), and whose bytes `T+8..T+15` (acknowledgment, data offset, flags, window) are
unchanged, `T` being the transport header offset. -/
theorem egress_postcondition (skb : SkBuff) (sd : side)
    (h : Eligible skb.data direction.EGRESS sd) (hurg : urgFlag skb.data = 0)
    (hsegs : skb.gso_segs ≤ 1) :
    ∃ out, tc_action skb direction.EGRESS sd = some (TC_ACT_OK, out) ∧
      u8 out.data (protoOffset skb.data) = 17 ∧
      (∀ j, j < 4 → u8 out.data (transportOffset skb.data + j) =
        u8 skb.data (transportOffset skb.data + j)) ∧
      (∀ j, j < 4 → u8 out.data (transportOffset skb.data + 16 + j) =
        u8 skb.data (transportOffset skb.data + 4 + j)) ∧
      (∀ j, j < 8 → u8 out.data (transportOffset skb.data + 8 + j) =
        u8 skb.data (transportOffset skb.data + 8 + j)) := by
  have h1 := tc_action_eligible skb direction.EGRESS sd h (fun _ => hurg) hsegs
  obtain ⟨hproto, hout⟩ := u8_egressOut h
  have hc := eligible_cases h
  have hT34 : 34 ≤ transportOffset skb.data := by
    rcases hc with ⟨-, hT, -⟩ | ⟨-, hT, -⟩ <;> omega
  have hP : protoOffset skb.data = 23 ∨ protoOffset skb.data = 20 := by
    rcases hc with ⟨-, -, -, -, -, hP⟩ | ⟨-, -, -, -, hP⟩ <;> omega
  refine ⟨_, h1, hproto, ?_, ?_, ?_⟩
  · intro j hj
    show u8 (egressOut skb.data) _ = _
    rw [hout _ (by omega) (by omega) (by omega), if_neg (by omega)]
  · intro j hj
    show u8 (egressOut skb.data) _ = _
    rw [hout _ (by omega) (by omega) (by omega), if_pos (by omega)]
    congr 1
    omega
  · intro j hj
    show u8 (egressOut skb.data) _ = _
    rw [hout _ (by omega) (by omega) (by omega), if_neg (by omega)]

/-- An instance: the outbound IPv6 SYN `synFrame6` on egress at the client. -/
theorem egress_postcondition_witness :
    Eligible synFrame6.data direction.EGRESS side.CLIENT ∧ urgFlag synFrame6.data = 0 ∧
      synFrame6.gso_segs ≤ 1 ∧
      ∃ out, tc_action synFrame6 direction.EGRESS side.CLIENT = some (TC_ACT_OK, out) ∧
        u8 out.data (protoOffset synFrame6.data) = 17 ∧
        (∀ j, j < 4 → u8 out.data (transportOffset synFrame6.data + j) =
          u8 synFrame6.data (transportOffset synFrame6.data + j)) ∧
        (∀ j, j < 4 → u8 out.data (transportOffset synFrame6.data + 16 + j) =
          u8 synFrame6.data (transportOffset synFrame6.data + 4 + j)) ∧
        (∀ j, j < 8 → u8 out.data (transportOffset synFrame6.data + 8 + j) =
          u8 synFrame6.data (transportOffset synFrame6.data + 8 + j)) :=
  ⟨by decide, by decide, by decide,
    egress_postcondition synFrame6 side.CLIENT (by decide) (by decide) (by decide)⟩

/-- C4 (inbound translation postcondition): for every eligible TINU frame (Ethernet, IPv4
with IHL at least 5 or IPv6, UDP, TINU data offset in 5..15 with the declared header
inside the buffer, operative port 5201: destination port for SERVER, source port for
CLIENT) with at most one segment, `tc_action(INGRESS, role)` produces a frame whose IPv4
protocol / IPv6 next-header byte is 6, whose bytes `T+4..T+7` (TCP sequence number) equal
the input's bytes `T+16..T+19` (TINU sequence field), whose bytes `T+18..T+19` (urgent
pointer) are zero, and whose bytes `T..T+3` and `T+8..T+15` are unchanged. -/
theorem ingress_postcondition (skb : SkBuff) (sd : side)
    (h : Eligible skb.data direction.INGRESS sd) (hsegs : skb.gso_segs ≤ 1) :
    ∃ out, tc_action skb direction.INGRESS sd = some (TC_ACT_OK, out) ∧
      u8 out.data (protoOffset skb.data) = 6 ∧
      (∀ j, j < 4 → u8 out.data (transportOffset skb.data + 4 + j) =
        u8 skb.data (transportOffset skb.data + 16 + j)) ∧
      u8 out.data (transportOffset skb.data + 18) = 0 ∧
      u8 out.data (transportOffset skb.data + 19) = 0 ∧
      (∀ j, j < 4 → u8 out.data (transportOffset skb.data + j) =
        u8 skb.data (transportOffset skb.data + j)) ∧
      (∀ j, j < 8 → u8 out.data (transportOffset skb.data + 8 + j) =
        u8 skb.data (transportOffset skb.data + 8 + j)) := by
  have h1 := tc_action_eligible skb direction.INGRESS sd h (fun hd => by cases hd) hsegs
  obtain ⟨hproto, hin⟩ := u8_ingressOut h
  obtain ⟨hu18, hu19⟩ := ingressOut_urg h
  have hc := eligible_cases h
  have hT34 : 34 ≤ transportOffset skb.data := by
    rcases hc with ⟨-, hT, -⟩ | ⟨-, hT, -⟩ <;> omega
  have hP : protoOffset skb.data = 23 ∨ protoOffset skb.data = 20 := by
    rcases hc with ⟨-, -, -, -, -, hP⟩ | ⟨-, -, -, -, hP⟩ <;> omega
  refine ⟨_, h1, hproto, ?_, hu18, hu19, ?_, ?_⟩
  · intro j hj
    show u8 (ingressOut skb.data) _ = _
    rw [hin _ (by omega) (by omega) (by omega), if_pos (by omega)]
    congr 1
    omega
  · intro j hj
    show u8 (ingressOut skb.data) _ = _
    rw [hin _ (by omega) (by omega) (by omega), if_neg (by omega)]
  · intro j hj
    show u8 (ingressOut skb.data) _ = _
    rw [hin _ (by omega) (by omega) (by omega), if_neg (by omega)]

/-- An instance: the inbound IPv4 TINU datagram `tinuFrame4` on ingress at the server. -/
theorem ingress_postcondition_witness :
    Eligible tinuFrame4.data direction.INGRESS side.SERVER ∧ tinuFrame4.gso_segs ≤ 1 ∧
      ∃ out, tc_action tinuFrame4 direction.INGRESS side.SERVER = some (TC_ACT_OK, out) ∧
        u8 out.data (protoOffset tinuFrame4.data) = 6 ∧
        (∀ j, j < 4 → u8 out.data (transportOffset tinuFrame4.data + 4 + j) =
          u8 tinuFrame4.data (transportOffset tinuFrame4.data + 16 + j)) ∧
        u8 out.data (transportOffset tinuFrame4.data + 18) = 0 ∧
        u8 out.data (transportOffset tinuFrame4.data + 19) = 0 ∧
        (∀ j, j < 4 → u8 out.data (transportOffset tinuFrame4.data + j) =
          u8 tinuFrame4.data (transportOffset tinuFrame4.data + j)) ∧
        (∀ j, j < 8 → u8 out.data (transportOffset tinuFrame4.data + 8 + j) =
          u8 tinuFrame4.data (transportOffset tinuFrame4.data + 8 + j)) :=
  ⟨by decide, by decide,
    ingress_postcondition tinuFrame4 side.SERVER (by decide) (by decide)⟩

/-- C5 (UDP length, as amended): for every eligible TCP frame with URG clear and at most
one segment, the UDP length field of the frame `tc_action(EGRESS, role)` produces (bytes
`T+4..T+5`, network byte order) is the number of bytes from the start of the transport
header to the end of the buffer, reduced modulo `2^16`; the length fields of the IP
header are not consulted. -/
theorem udp_length_is_buffer_remainder (skb : SkBuff) (sd : side)
    (h : Eligible skb.data direction.EGRESS sd) (hurg : urgFlag skb.data = 0)
    (hsegs : skb.gso_segs ≤ 1) :
    ∃ out, tc_action skb direction.EGRESS sd = some (TC_ACT_OK, out) ∧
      be16 out.data (transportOffset skb.data + 4) =
        (skb.data.length - transportOffset skb.data) % 65536 :=
  ⟨_, tc_action_eligible skb direction.EGRESS sd h (fun _ => hurg) hsegs, egressOut_len h⟩

/-- An instance: the padded outbound IPv4 SYN `paddedFrame4` on egress at the client. -/
theorem udp_length_is_buffer_remainder_witness :
    Eligible paddedFrame4.data direction.EGRESS side.CLIENT ∧
      urgFlag paddedFrame4.data = 0 ∧ paddedFrame4.gso_segs ≤ 1 ∧
      ∃ out, tc_action paddedFrame4 direction.EGRESS side.CLIENT = some (TC_ACT_OK, out) ∧
        be16 out.data (transportOffset paddedFrame4.data + 4) =
          (paddedFrame4.data.length - transportOffset paddedFrame4.data) % 65536 :=
  ⟨by decide, by decide, by decide,
    udp_length_is_buffer_remainder paddedFrame4 side.CLIENT (by decide) (by decide)
      (by decide)⟩

/-- C5 as stated fails: on an eligible frame with two bytes after the end of the IPv4
datagram, the UDP length written is 26 (to the end of the buffer), while the distance to
the end of the IP payload declared by the IPv4 total length is 24. -/
theorem udp_length_not_ip_declared :
    Eligible paddedFrame4.data direction.EGRESS side.CLIENT ∧
      urgFlag paddedFrame4.data = 0 ∧ paddedFrame4.gso_segs ≤ 1 ∧
      (tc_action paddedFrame4 direction.EGRESS side.CLIENT).map
        (fun r => be16 r.2.data (transportOffset paddedFrame4.data + 4)) = some 26 ∧
      ipDeclaredEnd paddedFrame4.data - transportOffset paddedFrame4.data = 24 := by
  decide

/-- C6 (valid transport checksum on IPv4 within the size ceiling): for every eligible
IPv4 frame (IHL at least 5) whose transport length `L`, from the transport header to the
end of the buffer, is at most 1480, the frame `tc_action` produces carries a valid
transport checksum: the ones'-complement sum of the IPv4 pseudo-header (source address,
destination address, protocol, `L`) and of all `L` transport bytes, stored checksum
included, folds to `0xFFFF`; with protocol 17 after EGRESS (UDP checksum at transport
offset 6..7) and protocol 6 after INGRESS (TCP checksum at 16..17), for even and odd `L`. -/
theorem transport_checksum_valid_ipv4 (skb : SkBuff) (dir : direction) (sd : side)
    (h : Eligible skb.data dir sd) (h4 : be16 skb.data 12 = ETH_P_IP)
    (hurg : dir = direction.EGRESS → urgFlag skb.data = 0) (hsegs : skb.gso_segs ≤ 1)
    (hL : skb.data.length - transportOffset skb.data ≤ 1480) :
    ∃ out, tc_action skb dir sd = some (TC_ACT_OK, out) ∧
      onesFold (transportSum out.data (transportOffset skb.data) (l4ProtoTo dir)) = 0xFFFF := by
  refine ⟨_, tc_action_eligible skb dir sd h hurg hsegs, ?_⟩
  cases dir
  · exact (egressOut_checksum h h4 hL).1
  · exact (ingressOut_checksum h h4 hL).1

/-- An instance: the inbound IPv4 TINU datagram `tinuFrame4` on ingress at the server. -/
theorem transport_checksum_valid_ipv4_witness :
    Eligible tinuFrame4.data direction.INGRESS side.SERVER ∧
      be16 tinuFrame4.data 12 = ETH_P_IP ∧
      (direction.INGRESS = direction.EGRESS → urgFlag tinuFrame4.data = 0) ∧
      tinuFrame4.gso_segs ≤ 1 ∧
      tinuFrame4.data.length - transportOffset tinuFrame4.data ≤ 1480 ∧
      ∃ out, tc_action tinuFrame4 direction.INGRESS side.SERVER = some (TC_ACT_OK, out) ∧
        onesFold (transportSum out.data (transportOffset tinuFrame4.data)
          (l4ProtoTo direction.INGRESS)) = 0xFFFF :=
  ⟨by decide, by decide, by decide, by decide, by decide,
    transport_checksum_valid_ipv4 tinuFrame4 direction.INGRESS side.SERVER (by decide)
      (by decide) (by decide) (by decide) (by decide)⟩

/-- C7 fails on the code: a frame that passes every gate check but declares a transport
header longer than the buffer is not left unchanged. The header load and store fail, yet
the later stores succeed. Inbound over IPv4 the protocol byte becomes 6, the IPv4 header
checksum is updated and bytes `T+16..T+17` are overwritten; outbound over IPv4 the
protocol byte becomes 17 and bytes `T+6..T+7` (the low half of the TCP sequence number)
are overwritten; outbound over IPv6 the next-header byte becomes 17. -/
theorem truncated_header_partially_rewritten :
    (Gate truncTinu4.data direction.INGRESS side.SERVER ∧ truncTinu4.gso_segs ≤ 1 ∧
      truncTinu4.data.length <
        transportOffset truncTinu4.data + dataOffset truncTinu4.data * 4 ∧
      tc_action truncTinu4 direction.INGRESS side.SERVER ≠ some (TC_ACT_OK, truncTinu4) ∧
      (tc_action truncTinu4 direction.INGRESS side.SERVER).map
        (fun r => (u8 r.2.data 23, be16 r.2.data 24, be16 r.2.data (34 + 16))) =
        some (6, 0x66ce, 0x435a) ∧
      (u8 truncTinu4.data 23, be16 truncTinu4.data 24, be16 truncTinu4.data (34 + 16)) =
        (17, 0x66c3, 0)) ∧
    (Gate truncFrame4.data direction.EGRESS side.CLIENT ∧ urgFlag truncFrame4.data = 0 ∧
      truncFrame4.gso_segs ≤ 1 ∧
      truncFrame4.data.length <
        transportOffset truncFrame4.data + dataOffset truncFrame4.data * 4 ∧
      tc_action truncFrame4 direction.EGRESS side.CLIENT ≠ some (TC_ACT_OK, truncFrame4) ∧
      (tc_action truncFrame4 direction.EGRESS side.CLIENT).map
        (fun r => (u8 r.2.data 23, be16 r.2.data (34 + 6))) = some (17, 0xebeb) ∧
      (u8 truncFrame4.data 23, be16 truncFrame4.data (34 + 6)) = (6, 0x03e8)) ∧
    (Gate truncFrame6.data direction.EGRESS side.CLIENT ∧ urgFlag truncFrame6.data = 0 ∧
      truncFrame6.gso_segs ≤ 1 ∧
      truncFrame6.data.length <
        transportOffset truncFrame6.data + dataOffset truncFrame6.data * 4 ∧
      tc_action truncFrame6 direction.EGRESS side.CLIENT ≠ some (TC_ACT_OK, truncFrame6) ∧
      (tc_action truncFrame6 direction.EGRESS side.CLIENT).map (fun r => u8 r.2.data 20) =
        some 17 ∧
      u8 truncFrame6.data 20 = 6) := by
  decide

/-- C8 (urgent data rejection): a frame that reaches the egress TCP gate (Ethernet, IPv4
or IPv6, TCP, fixed header inside the buffer, data offset in 5..15, operative port 5201)
with its URG flag set is returned byte-for-byte identical by `tc_action(EGRESS, role)`,
for every role and segment count. -/
theorem urgent_data_rejected (skb : SkBuff) (sd : side)
    (_hgate : Gate skb.data direction.EGRESS sd) (hurg : urgFlag skb.data = 1) :
    tc_action skb direction.EGRESS sd = some (TC_ACT_OK, skb) := by
  rw [tc_action_eq, if_neg]
  intro h
  have := h.2.1 rfl
  omega

/-- An instance: the outbound IPv4 segment with URG set, `urgFrame4`. -/
theorem urgent_data_rejected_witness :
    Gate urgFrame4.data direction.EGRESS side.CLIENT ∧ urgFlag urgFrame4.data = 1 ∧
      tc_action urgFrame4 direction.EGRESS side.CLIENT = some (TC_ACT_OK, urgFrame4) :=
  ⟨by decide, by decide,
    urgent_data_rejected urgFrame4 side.CLIENT (by decide) (by decide)⟩

/-- C9 (offload rejection): whenever the segment count `gso_segs` exceeds 1, `tc_action`
leaves the buffer byte-for-byte unchanged, for every frame, direction and role. -/
theorem offload_rejected (skb : SkBuff) (dir : direction) (sd : side)
    (hsegs : skb.gso_segs > 1) :
    tc_action skb dir sd = some (TC_ACT_OK, skb) := by
  rw [tc_action_eq, if_neg]
  intro h
  have := h.2.2
  omega

/-- An instance: the three-segment buffer `gsoFrame4` on egress at the client. -/
theorem offload_rejected_witness :
    gsoFrame4.gso_segs > 1 ∧
      tc_action gsoFrame4 direction.EGRESS side.CLIENT = some (TC_ACT_OK, gsoFrame4) :=
  ⟨by decide, offload_rejected gsoFrame4 direction.EGRESS side.CLIENT (by decide)⟩

/-- C10 (pass-through of out-of-scope and malformed input): `tc_action` leaves the buffer
byte-for-byte unchanged whenever the buffer is shorter than the 14-byte Ethernet header,
or the EtherType is neither IPv4 nor IPv6, or the fixed 20-byte IPv4 or 40-byte IPv6
header does not fit, or the direction is EGRESS and the L4 protocol is not 6, or the
direction is INGRESS and the L4 protocol is not 17, or the fixed 20-byte transport header
does not fit, or the transport data offset times 4 is below 20. -/
theorem out_of_scope_passthrough (skb : SkBuff) (dir : direction) (sd : side)
    (h : skb.data.length < 14 ∨
      (be16 skb.data 12 ≠ ETH_P_IP ∧ be16 skb.data 12 ≠ ETH_P_IPV6) ∨
      (be16 skb.data 12 = ETH_P_IP ∧ skb.data.length < 14 + 20) ∨
      (be16 skb.data 12 = ETH_P_IPV6 ∧ skb.data.length < 14 + 40) ∨
      (dir = direction.EGRESS ∧ u8 skb.data (protoOffset skb.data) ≠ 6) ∨
      (dir = direction.INGRESS ∧ u8 skb.data (protoOffset skb.data) ≠ 17) ∨
      skb.data.length < transportOffset skb.data + 20 ∨
      dataOffset skb.data * 4 < 20) :
    tc_action skb dir sd = some (TC_ACT_OK, skb) := by
  rw [tc_action_eq, if_neg]
  rintro ⟨⟨h1, h2, h3, h4, -⟩, -⟩
  have hT : 14 ≤ transportOffset skb.data := by unfold transportOffset; split <;> omega
  rcases h with h | h | h | h | h | h | h | h
  · omega
  · rcases h1 with h1 | h1
    · exact h.1 h1
    · exact h.2 h1
  · omega
  · have : transportOffset skb.data = 14 + 40 := by
      unfold transportOffset
      rw [if_neg]
      rw [h.1]
      decide
    omega
  · rw [h.1] at h2
    exact h.2 h2
  · rw [h.1] at h2
    exact h.2 h2
  · omega
  · omega

/-- An instance: the ARP frame `arpFrame`, whose EtherType is neither IPv4 nor IPv6. -/
theorem out_of_scope_passthrough_witness :
    (be16 arpFrame.data 12 ≠ ETH_P_IP ∧ be16 arpFrame.data 12 ≠ ETH_P_IPV6) ∧
      tc_action arpFrame direction.INGRESS side.SERVER = some (TC_ACT_OK, arpFrame) :=
  ⟨by decide,
    out_of_scope_passthrough arpFrame direction.INGRESS side.SERVER (Or.inr (Or.inl (by decide)))⟩



/-- C11 (port gate by role and direction): `tc_action` modifies the buffer only if the
operative port, read in network byte order, equals 5201; the operative port is the TCP
source port for (EGRESS, SERVER), the TCP destination port for (EGRESS, CLIENT), the UDP
destination port for (INGRESS, SERVER) and the UDP source port for (INGRESS, CLIENT). The
other port does not enter the condition. -/
theorem port_gate (skb out : SkBuff) (v : Nat) (dir : direction) (sd : side)
    (hrun : tc_action skb dir sd = some (v, out)) (hmod : out.data ≠ skb.data) :
    operativePort skb.data dir sd = PORT := by
  rw [tc_action_eq] at hrun
  by_cases hg : Gate skb.data dir sd ∧ (dir = direction.EGRESS → urgFlag skb.data = 0) ∧
      skb.gso_segs ≤ 1
  · exact hg.1.2.2.2.2
  · rw [if_neg hg] at hrun
    cases hrun
    exact absurd rfl hmod

/-- An instance: the outbound IPv4 SYN `synFrame4`, whose destination port is 5201 and
whose source port is 12345, is modified on egress at the client. -/
theorem port_gate_witness :
    be16 synFrame4.data (transportOffset synFrame4.data) = 12345 ∧
      operativePort synFrame4.data direction.EGRESS side.CLIENT = PORT :=
  ⟨by decide,
    port_gate synFrame4 ⟨egressOut synFrame4.data, 1⟩ TC_ACT_OK direction.EGRESS side.CLIENT
      (by decide) (by decide)⟩

/-- C12 (no drop verdict): for every buffer, segment count, direction and role,
`tc_action` returns the forward verdict `TC_ACT_OK`, which is 0, and so do the four entry
points `client_egress`, `client_ingress`, `server_egress` and `server_ingress`. -/
theorem no_drop_verdict (skb : SkBuff) (dir : direction) (sd : side) :
    TC_ACT_OK = 0 ∧
      (tc_action skb dir sd).map Prod.fst = some TC_ACT_OK ∧
      (client_egress skb).map Prod.fst = some TC_ACT_OK ∧
      (client_ingress skb).map Prod.fst = some TC_ACT_OK ∧
      (server_egress skb).map Prod.fst = some TC_ACT_OK ∧
      (server_ingress skb).map Prod.fst = some TC_ACT_OK := by
  have key : ∀ d s, (tc_action skb d s).map Prod.fst = some TC_ACT_OK := by
    intro d s
    obtain ⟨out, ho⟩ := tc_action_total skb d s
    rw [ho]
    rfl
  exact ⟨rfl, key _ _, key _ _, key _ _, key _ _, key _ _⟩

/-- C13 (bounds safety): with every direct packet read returning an `Option`, the
out-of-range branch is never taken. For every buffer (empty and truncated ones included),
every byte content, direction, role and segment count, `tc_action` returns; so do
`tcp_checksum`, `udp_checksum` and `csum_partial` (against the real end of the buffer) on
every argument, and `tcp_to_tinu` and `tinu_to_tcp` on every transport offset `T` whose
fixed 20-byte header is inside the buffer, which is what `tc_action` checks before it
calls them. -/
theorem bounds_safety (skb : SkBuff) (dir : direction) (sd : side)
    (ip ip6 : Option Nat) (T E a b L buf len : Nat) (hT : T + 20 ≤ skb.data.length) :
    (tc_action skb dir sd).isSome = true ∧
      (tcp_to_tinu skb ip ip6 T E).isSome = true ∧
      (tinu_to_tcp skb ip ip6 T E).isSome = true ∧
      (tcp_checksum skb a b L).isSome = true ∧
      (udp_checksum skb a b).isSome = true ∧
      ( csum_partial skb.data buf len skb.data.length).isSome = true := by
  obtain ⟨o1, h1⟩ := tc_action_total skb dir sd
  obtain ⟨o2, h2⟩ := tcp_to_tinu_total skb ip ip6 T E hT
  obtain ⟨o3, h3⟩ := tinu_to_tcp_total skb ip ip6 T E hT
  obtain ⟨o4, h4⟩ := tcp_checksum_total skb a b L
  obtain ⟨o5, h5⟩ := udp_checksum_total skb a b
  rw [h1, h2, h3, h4, h5, csum_partial_total]
  exact ⟨rfl, rfl, rfl, rfl, rfl, rfl⟩

/-- An instance: the outbound IPv4 SYN `synFrame4` with its transport header at 34. -/
theorem bounds_safety_witness :
    34 + 20 ≤ synFrame4.data.length ∧
      (tc_action synFrame4 direction.EGRESS side.CLIENT).isSome = true ∧
      (tcp_to_tinu synFrame4 (some 14) none 34 54).isSome = true ∧
      (tinu_to_tcp synFrame4 (some 14) none 34 54).isSome = true ∧
      (tcp_checksum synFrame4 14 34 24).isSome = true ∧
      (udp_checksum synFrame4 14 34).isSome = true ∧
      ( csum_partial synFrame4.data 34 24 synFrame4.data.length).isSome = true :=
  ⟨by decide, bounds_safety synFrame4 direction.EGRESS side.CLIENT (some 14) none 34 54 14 34
    24 34 24 (by decide)⟩

/-- C14 (`csum_partial` equals its reference definition): for every buffer, start
position `buf` and length `len`, with `data_end` the end of the buffer: when `len > 1480`
or `buf + len` is not `data_end`, `csum_partial` returns 0; otherwise it returns
`sumLEBytes`, the sum of the `len / 2` consecutive 16-bit words of the range in host
(little-endian) order plus the final byte when `len` is odd, and that sum is at most
`740 * 0xFFFF`, so no 32-bit wrap-around occurs. The 740 iterations cover every word of
every accepted length, 1480 and 1479 included. -/
theorem csum_partial_refines (d : List Byte) (buf len : Nat) :
    ( csum_partial d buf len d.length =
        some (if len > 1480 ∨ buf + len ≠ d.length then 0 else sumLEBytes d buf len)) ∧
      (if len > 1480 ∨ buf + len ≠ d.length then 0 else sumLEBytes d buf len) ≤
        740 * 0xFFFF := by
  refine ⟨csum_partial_total d buf len, ?_⟩
  split
  · omega
  · next h =>
    unfold sumLEBytes
    have h1 := sumLE_le d buf (len / 2)
    have h2 := u8_lt d (buf + len - 1)
    split <;> omega

/-- C15 (pseudo-header checksum and fold): for every 32-bit `x`, the two folding steps of
`csum_fold` leave a value below `2^16` that is congruent to `x` modulo 65535 and is zero
only when `x` is zero, and `csum_fold` returns its 16-bit complement. For every `saddr`,
`daddr`, 8-bit `proto`, `len` with `proto + len < 65536` and 32-bit partial sum,
`csum_tcpudp_magic` returns the 16-bit complement of the end-around-carry sum of the
partial sum, the two 16-bit halves of `saddr`, the two halves of `daddr` and the
byte-swapped 16-bit words of `proto` and `len`, with `0xFFFF` in place of a zero
complement; the result is never 0. -/
theorem fold_and_pseudo_header_checksum (x saddr daddr len proto csum : Nat)
    (hx : x < 2 ^ 32) (hs : saddr < 2 ^ 32) (hd : daddr < 2 ^ 32) (hc : csum < 2 ^ 32)
    (hp : proto < 256) (hl : proto + len < 65536) :
    (foldTwice x < 65536 ∧ foldTwice x % 65535 = x % 65535 ∧ (foldTwice x = 0 ↔ x = 0) ∧
      csum_fold x = 0xFFFF - foldTwice x) ∧
    csum_tcpudp_magic saddr daddr len proto csum =
      (if 0xFFFF - onesFold (pseudoSum saddr daddr len proto csum) = 0 then 0xFFFF
        else 0xFFFF - onesFold (pseudoSum saddr daddr len proto csum)) ∧
    csum_tcpudp_magic saddr daddr len proto csum ≠ 0 := by
  obtain ⟨f1, f2, f3⟩ := foldTwice_spec x hx
  have hm := csum_tcpudp_magic_eq saddr daddr len proto csum hs hd hc hp hl
  have hnz := (csum_tcpudp_magic_spec saddr daddr len proto csum hs hd hc hl).1
  exact ⟨⟨f1, f2, f3, csum_fold_eq x hx⟩, hm, by omega⟩

/-- An instance: the fold of `0x1FFFE` and the UDP pseudo-header of 10.0.0.1 to 10.0.0.2
with length 24 and partial sum `0x12345`. -/
theorem fold_and_pseudo_header_checksum_witness :
    (foldTwice 0x1FFFE < 65536 ∧ foldTwice 0x1FFFE % 65535 = 0x1FFFE % 65535 ∧
      (foldTwice 0x1FFFE = 0 ↔ 0x1FFFE = 0) ∧
      csum_fold 0x1FFFE = 0xFFFF - foldTwice 0x1FFFE) ∧
    csum_tcpudp_magic 0x0100000a 0x0200000a 24 17 0x12345 =
      (if 0xFFFF - onesFold (pseudoSum 0x0100000a 0x0200000a 24 17 0x12345) = 0 then 0xFFFF
        else 0xFFFF - onesFold (pseudoSum 0x0100000a 0x0200000a 24 17 0x12345)) ∧
    csum_tcpudp_magic 0x0100000a 0x0200000a 24 17 0x12345 ≠ 0 :=
  fold_and_pseudo_header_checksum 0x1FFFE 0x0100000a 0x0200000a 24 17 0x12345
    (by decide) (by decide) (by decide) (by decide) (by decide) (by decide)

/-- C16 (IPv4 header checksum stays valid): for every eligible Ethernet + IPv4 frame, IHL
at least 5 (URG clear on egress, at most one segment), whose IPv4 header checksum is
valid on input, that is the ones'-complement sum of its `IHL * 4` header bytes folds to
`0xFFFF`, the frame `tc_action` produces has its protocol byte rewritten (17 on egress, 6
on ingress) and an IPv4 header checksum that is valid again; `bpf_l3_csum_replace` is the
standard 2-byte incremental update from `htons` of the old protocol to `htons` of the
new. -/
theorem ipv4_header_checksum_stays_valid (skb : SkBuff) (dir : direction) (sd : side)
    (h : Eligible skb.data dir sd) (h4 : be16 skb.data 12 = ETH_P_IP)
    (hurg : dir = direction.EGRESS → urgFlag skb.data = 0) (hsegs : skb.gso_segs ≤ 1)
    (hvalid : onesFold (ipHeaderSum skb.data) = 0xFFFF) :
    ∃ out, tc_action skb dir sd = some (TC_ACT_OK, out) ∧
      u8 out.data 23 = l4ProtoTo dir ∧
      onesFold (ipHeaderSum out.data) = 0xFFFF := by
  refine ⟨_, tc_action_eligible skb dir sd h hurg hsegs, ?_,
    ipHeaderSum_transcodeOut h h4 hvalid⟩
  have hP : protoOffset skb.data = 23 := by unfold protoOffset; rw [if_pos h4]
  have := (u8_transcodeOut h).1
  rw [hP] at this
  exact this

/-- An instance: the outbound IPv4 SYN `synFrame4`, whose header checksum `0x66ca` is
valid, on egress at the client. -/
theorem ipv4_header_checksum_stays_valid_witness :
    Eligible synFrame4.data direction.EGRESS side.CLIENT ∧
      be16 synFrame4.data 12 = ETH_P_IP ∧
      (direction.EGRESS = direction.EGRESS → urgFlag synFrame4.data = 0) ∧
      synFrame4.gso_segs ≤ 1 ∧
      onesFold (ipHeaderSum synFrame4.data) = 0xFFFF ∧
      ∃ out, tc_action synFrame4 direction.EGRESS side.CLIENT = some (TC_ACT_OK, out) ∧
        u8 out.data 23 = l4ProtoTo direction.EGRESS ∧
        onesFold (ipHeaderSum out.data) = 0xFFFF :=
  ⟨by decide, by decide, by decide, by decide, by decide,
    ipv4_header_checksum_stays_valid synFrame4 direction.EGRESS side.CLIENT (by decide)
      (by decide) (by decide) (by decide) (by decide)⟩

/-- C17 (IPv6 rewrites only the next-header field): for every eligible Ethernet + IPv6
frame (URG clear on egress, at most one segment), the frame `tc_action` produces has the
length of the input, its next-header byte (frame offset 20) is 17 on egress and 6 on
ingress, every other byte outside the first 20 bytes of the transport header equals the
input byte, and the transport checksum field of the output (UDP checksum at transport
offset 6..7 on egress, TCP checksum at 16..17 on ingress) is `0x0000`: no transport
checksum is computed. -/
theorem ipv6_rewrites_next_header_only (skb : SkBuff) (dir : direction) (sd : side)
    (h : Eligible skb.data dir sd) (h6 : be16 skb.data 12 = ETH_P_IPV6)
    (hurg : dir = direction.EGRESS → urgFlag skb.data = 0) (hsegs : skb.gso_segs ≤ 1) :
    ∃ out, tc_action skb dir sd = some (TC_ACT_OK, out) ∧
      out.data.length = skb.data.length ∧
      u8 out.data 20 = l4ProtoTo dir ∧
      (∀ i, i ≠ 20 →
        ¬ (transportOffset skb.data ≤ i ∧ i < transportOffset skb.data + 20) →
        u8 out.data i = u8 skb.data i) ∧
      be16 out.data (transportOffset skb.data + csumOffset dir) = 0 := by
  have h4 : be16 skb.data 12 ≠ ETH_P_IP := by
    rw [h6]
    decide
  have hP : protoOffset skb.data = 20 := by
    unfold protoOffset
    rw [if_neg h4]
  obtain ⟨hproto, hbytes⟩ := u8_transcodeOut h
  rw [hP] at hproto hbytes
  refine ⟨_, tc_action_eligible skb dir sd h hurg hsegs, length_transcodeOut _ _, hproto,
    fun i hi hT => ?_, transcodeOut_v6_csum h h4⟩
  exact hbytes i hi (fun hx => h4 hx.1) (by omega) (by omega)

/-- An instance: the outbound IPv6 SYN `synFrame6` on egress at the client. -/
theorem ipv6_rewrites_next_header_only_witness :
    Eligible synFrame6.data direction.EGRESS side.CLIENT ∧
      be16 synFrame6.data 12 = ETH_P_IPV6 ∧
      (direction.EGRESS = direction.EGRESS → urgFlag synFrame6.data = 0) ∧
      synFrame6.gso_segs ≤ 1 ∧
      ∃ out, tc_action synFrame6 direction.EGRESS side.CLIENT = some (TC_ACT_OK, out) ∧
        out.data.length = synFrame6.data.length ∧
        u8 out.data 20 = l4ProtoTo direction.EGRESS ∧
        (∀ i, i ≠ 20 →
          ¬ (transportOffset synFrame6.data ≤ i ∧ i < transportOffset synFrame6.data + 20) →
          u8 out.data i = u8 synFrame6.data i) ∧
        be16 out.data (transportOffset synFrame6.data + csumOffset direction.EGRESS) = 0 :=
  ⟨by decide, by decide, by decide, by decide,
    ipv6_rewrites_next_header_only synFrame6 direction.EGRESS side.CLIENT (by decide)
      (by decide) (by decide) (by decide)⟩

/-- C18 fails on the code: `tc_action` never compares the IHL field with 5. The frame
`ihl4Frame` has EtherType IPv4 and IHL 4, so the transport header is taken at offset 30,
over the destination address; the port read there is 5201 and the frame is transcoded on
egress at the client: the protocol byte becomes 17, the IPv4 header checksum is updated,
bytes 34..35 receive the UDP length 24 and bytes 36..37 a checksum, and bytes 46..49
receive the former bytes 34..37. -/
theorem ihl_below_minimum_rewritten :
    be16 ihl4Frame.data 12 = ETH_P_IP ∧ ihl ihl4Frame.data = 4 ∧
      transportOffset ihl4Frame.data = 30 ∧ ihl4Frame.gso_segs = 1 ∧
      tc_action ihl4Frame direction.EGRESS side.CLIENT ≠ some (TC_ACT_OK, ihl4Frame) ∧
      (tc_action ihl4Frame direction.EGRESS side.CLIENT).map
        (fun r => (r.1, u8 r.2.data 23, be16 r.2.data 24)) =
        some (TC_ACT_OK, 17, 0xfff4) ∧
      (tc_action ihl4Frame direction.EGRESS side.CLIENT).map
        (fun r => (be16 r.2.data 34, be16 r.2.data 36, be16 r.2.data 46,
          be16 r.2.data 48)) = some (24, 0x611d, 0, 0x03e8) ∧
      (u8 ihl4Frame.data 23, be16 ihl4Frame.data 24) = (6, 0) ∧
      (be16 ihl4Frame.data 34, be16 ihl4Frame.data 36, be16 ihl4Frame.data 46,
        be16 ihl4Frame.data 48) = (0, 0x03e8, 0xabcd, 7) := by
  decide

/-- C19 (frame of a transcode): for every eligible frame, IPv4 with IHL at least 5 or
IPv6, with transport header offset `T` (URG clear on egress, at most one segment), the
output of `tc_action` has the length of the input and can differ from it only at the
IPv4 protocol byte (frame offset 23) and IPv4 header checksum bytes (24..25), or the IPv6
next-header byte (20), and at transport bytes `T+4..T+7` and `T+16..T+19`. Every other
byte is unchanged. -/
theorem transcode_frame (skb : SkBuff) (dir : direction) (sd : side)
    (h : Eligible skb.data dir sd)
    (hurg : dir = direction.EGRESS → urgFlag skb.data = 0) (hsegs : skb.gso_segs ≤ 1) :
    ∃ out, tc_action skb dir sd = some (TC_ACT_OK, out) ∧
      out.data.length = skb.data.length ∧
      ∀ i, ¬ (be16 skb.data 12 = ETH_P_IP ∧ 23 ≤ i ∧ i < 26) →
        ¬ (be16 skb.data 12 = ETH_P_IPV6 ∧ i = 20) →
        ¬ (transportOffset skb.data + 4 ≤ i ∧ i < transportOffset skb.data + 8) →
        ¬ (transportOffset skb.data + 16 ≤ i ∧ i < transportOffset skb.data + 20) →
        u8 out.data i = u8 skb.data i := by
  obtain ⟨-, hbytes⟩ := u8_transcodeOut h
  refine ⟨_, tc_action_eligible skb dir sd h hurg hsegs, length_transcodeOut _ _,
    fun i h1 h2 h3 h4 => ?_⟩
  have het := h.1.1
  have hc := eligible_cases h
  apply hbytes i ?_ ?_ h3 h4
  · rcases hc with ⟨h4', -, -, -, -, hP⟩ | ⟨h4', -, -, -, hP⟩
    · rw [hP]
      intro hi
      exact h1 ⟨h4', by omega, by omega⟩
    · rw [hP]
      intro hi
      rcases het with het | het
      · exact h4' het
      · exact h2 ⟨het, hi⟩
  · intro hx
    exact h1 ⟨hx.1, by omega, by omega⟩

/-- An instance: the inbound IPv4 TINU datagram `tinuFrame4` on ingress at the server. -/
theorem transcode_frame_witness :
    Eligible tinuFrame4.data direction.INGRESS side.SERVER ∧
      (direction.INGRESS = direction.EGRESS → urgFlag tinuFrame4.data = 0) ∧
      tinuFrame4.gso_segs ≤ 1 ∧
      ∃ out, tc_action tinuFrame4 direction.INGRESS side.SERVER = some (TC_ACT_OK, out) ∧
        out.data.length = tinuFrame4.data.length ∧
        ∀ i, ¬ (be16 tinuFrame4.data 12 = ETH_P_IP ∧ 23 ≤ i ∧ i < 26) →
          ¬ (be16 tinuFrame4.data 12 = ETH_P_IPV6 ∧ i = 20) →
          ¬ (transportOffset tinuFrame4.data + 4 ≤ i ∧
            i < transportOffset tinuFrame4.data + 8) →
          ¬ (transportOffset tinuFrame4.data + 16 ≤ i ∧
            i < transportOffset tinuFrame4.data + 20) →
          u8 out.data i = u8 tinuFrame4.data i :=
  ⟨by decide, by decide, by decide,
    transcode_frame tinuFrame4 direction.INGRESS side.SERVER (by decide) (by decide)
      (by decide)⟩

/-- C20 (checksum above the size ceiling ignores the transport bytes): for every eligible
Ethernet + IPv4 frame, IHL at least 5 (URG clear on egress, at most one segment), whose
transport length `L`, from the transport header start to the end of the buffer, exceeds
1480, the value `tc_action` stores in the transport checksum field (bytes `T+6..T+7` on
egress, `T+16..T+17` on ingress, read in host order as the code stores it) equals
`csum_tcpudp_magic(saddr, daddr, L, proto, 0)`, the checksum of the pseudo-header alone;
hence any second such frame with the same addresses and the same `L` receives the same
stored checksum, whatever its transport header and payload bytes are. -/
theorem checksum_above_ceiling_ignores_transport (skb : SkBuff) (dir : direction)
    (sd : side) (h : Eligible skb.data dir sd) (h4 : be16 skb.data 12 = ETH_P_IP)
    (hurg : dir = direction.EGRESS → urgFlag skb.data = 0) (hsegs : skb.gso_segs ≤ 1)
    (hL : 1480 < skb.data.length - transportOffset skb.data) :
    ∃ out, tc_action skb dir sd = some (TC_ACT_OK, out) ∧
      le16At out.data (transportOffset skb.data + csumOffset dir) =
        csum_tcpudp_magic (le32At skb.data 26) (le32At skb.data 30)
          (skb.data.length - transportOffset skb.data) (l4ProtoTo dir) 0 ∧
      ∀ (skb2 : SkBuff) (sd2 : side), Eligible skb2.data dir sd2 →
        be16 skb2.data 12 = ETH_P_IP →
        (dir = direction.EGRESS → urgFlag skb2.data = 0) → skb2.gso_segs ≤ 1 →
        le32At skb2.data 26 = le32At skb.data 26 →
        le32At skb2.data 30 = le32At skb.data 30 →
        skb2.data.length - transportOffset skb2.data =
          skb.data.length - transportOffset skb.data →
        ∃ out2, tc_action skb2 dir sd2 = some (TC_ACT_OK, out2) ∧
          le16At out2.data (transportOffset skb2.data + csumOffset dir) =
            le16At out.data (transportOffset skb.data + csumOffset dir) := by
  refine ⟨_, tc_action_eligible skb dir sd h hurg hsegs,
    transcodeOut_csum_above_ceiling h h4 hL, ?_⟩
  intro skb2 sd2 g g4 gurg gsegs gs gd gL
  refine ⟨_, tc_action_eligible skb2 dir sd2 g gurg gsegs, ?_⟩
  show le16At (transcodeOut skb2.data dir) _ = le16At (transcodeOut skb.data dir) _
  rw [transcodeOut_csum_above_ceiling h h4 hL,
    transcodeOut_csum_above_ceiling g g4 (by rw [gL]; exact hL), gs, gd, gL]

set_option maxRecDepth 100000 in
/-- An instance: the outbound IPv4 SYN `bigFrame4` of 1481 transport bytes, on egress at
the client. -/
theorem checksum_above_ceiling_ignores_transport_witness :
    Eligible bigFrame4.data direction.EGRESS side.CLIENT ∧
      be16 bigFrame4.data 12 = ETH_P_IP ∧
      (direction.EGRESS = direction.EGRESS → urgFlag bigFrame4.data = 0) ∧
      bigFrame4.gso_segs ≤ 1 ∧
      1480 < bigFrame4.data.length - transportOffset bigFrame4.data ∧
      ∃ out, tc_action bigFrame4 direction.EGRESS side.CLIENT = some (TC_ACT_OK, out) ∧
        le16At out.data (transportOffset bigFrame4.data + csumOffset direction.EGRESS) =
          csum_tcpudp_magic (le32At bigFrame4.data 26) (le32At bigFrame4.data 30)
            (bigFrame4.data.length - transportOffset bigFrame4.data)
            (l4ProtoTo direction.EGRESS) 0 ∧
        ∀ (skb2 : SkBuff) (sd2 : side), Eligible skb2.data direction.EGRESS sd2 →
          be16 skb2.data 12 = ETH_P_IP →
          (direction.EGRESS = direction.EGRESS → urgFlag skb2.data = 0) →
          skb2.gso_segs ≤ 1 →
          le32At skb2.data 26 = le32At bigFrame4.data 26 →
          le32At skb2.data 30 = le32At bigFrame4.data 30 →
          skb2.data.length - transportOffset skb2.data =
            bigFrame4.data.length - transportOffset bigFrame4.data →
          ∃ out2, tc_action skb2 direction.EGRESS sd2 = some (TC_ACT_OK, out2) ∧
            le16At out2.data (transportOffset skb2.data + csumOffset direction.EGRESS) =
              le16At out.data (transportOffset bigFrame4.data +
                csumOffset direction.EGRESS) :=
  ⟨by decide, by decide, by decide, by decide, by decide,
    checksum_above_ceiling_ignores_transport bigFrame4 direction.EGRESS side.CLIENT
      (by decide) (by decide) (by decide) (by decide) (by decide)⟩

end TcpInUdp
